import Mathlib

/-!
# Log normalisation adapters of the ops agent (package `apps`)

A shallow embedding of the configuration that the adapters in
`apps/hadoop.go`, `apps/mongodb.go`, `apps/postgresql.go`, `apps/rabbitmq.go`,
`apps/tomcat.go` and `apps/zookeeper.go` build, together with the pipeline
stages that consume this configuration.
-/

namespace OpsAgent

/-! ## Severity tables -/

/-- One entry of `confgenerator.LoggingProcessorModifyFields.Fields`; only the
members that the adapters set are kept. -/
structure ModifyField where
  CopyFrom : String := ""
  MoveFrom : String := ""
  MapValues : List (String × String) := []
  MapValuesExclusive : Bool := false
  deriving DecidableEq, Repr

/-- The `severity` entry of `LoggingProcessorHadoop.Components` (hadoop.go:87-100). -/
def LoggingProcessorHadoop.severityField : ModifyField :=
  { CopyFrom := "jsonPayload.severity"
    MapValues := [
      ("TRACE", "DEBUG"),
      ("DEBUG", "DEBUG"),
      ("INFO", "INFO"),
      ("WARN", "WARNING"),
      ("DEPRECATION", "WARNING"),
      ("ERROR", "ERROR"),
      ("CRITICAL", "ERROR"),
      ("FATAL", "FATAL")]
    MapValuesExclusive := true }

/-- The `severity` entry of `LoggingProcessorMongodb.severityParser` (mongodb.go:215-230). -/
def LoggingProcessorMongodb.severityField : ModifyField :=
  { CopyFrom := "jsonPayload.s"
    MapValues := [
      ("D", "DEBUG"),
      ("D1", "DEBUG"),
      ("D2", "DEBUG"),
      ("D3", "DEBUG"),
      ("D4", "DEBUG"),
      ("D5", "DEBUG"),
      ("I", "INFO"),
      ("E", "ERROR"),
      ("F", "FATAL"),
      ("W", "WARNING")]
    MapValuesExclusive := true }

/-- The `severity` entry of `LoggingProcessorPostgresql.Components` (postgresql.go:177-196). -/
def LoggingProcessorPostgresql.severityField : ModifyField :=
  { CopyFrom := "jsonPayload.level"
    MapValues := [
      ("DEBUG1", "DEBUG"),
      ("DEBUG2", "DEBUG"),
      ("DEBUG3", "DEBUG"),
      ("DEBUG4", "DEBUG"),
      ("DEBUG5", "DEBUG"),
      ("DETAIL", "DEBUG"),
      ("STATEMENT", "DEBUG"),
      ("INFO", "INFO"),
      ("LOG", "INFO"),
      ("NOTICE", "INFO"),
      ("ERROR", "ERROR"),
      ("WARNING", "WARNING"),
      ("FATAL", "CRITICAL"),
      ("PANIC", "CRITICAL")]
    MapValuesExclusive := true }

/-- The `severity` entry of `LoggingProcessorRabbitmq.Components` (rabbitmq.go:62-72). -/
def LoggingProcessorRabbitmq.severityField : ModifyField :=
  { CopyFrom := "jsonPayload.severity"
    MapValues := [
      ("debug", "DEBUG"),
      ("warning", "WARNING"),
      ("error", "ERROR"),
      ("info", "INFO"),
      ("noti", "DEFAULT")]
    MapValuesExclusive := true }

/-- The `severity` entry of `LoggingProcessorTomcatSystem.Components` (tomcat.go:112-123). -/
def LoggingProcessorTomcatSystem.severityField : ModifyField :=
  { CopyFrom := "jsonPayload.level"
    MapValues := [
      ("FINEST", "DEBUG"),
      ("FINER", "DEBUG"),
      ("FINE", "DEBUG"),
      ("INFO", "INFO"),
      ("WARNING", "WARNING"),
      ("SEVERE", "CRITICAL")]
    MapValuesExclusive := true }

/-- The `severity` entry of `severityParser` in zookeeper.go:168-180, used by
`LoggingProcessorZookeeperGeneral.Components`. -/
def severityParser.severityField : ModifyField :=
  { CopyFrom := "jsonPayload.level"
    MapValues := [
      ("TRACE", "DEBUG"),
      ("DEBUG", "DEBUG"),
      ("INFO", "INFO"),
      ("WARN", "WARNING"),
      ("ERROR", "ERROR"),
      ("CRITICAL", "ERROR"),
      ("FATAL", "FATAL")]
    MapValuesExclusive := true }

/-- The six severity entries, in the order hadoop, mongodb, postgresql,
rabbitmq, tomcat_system, zookeeper_general. -/
def adapterSeverityFields : List ModifyField :=
  [ LoggingProcessorHadoop.severityField,
    LoggingProcessorMongodb.severityField,
    LoggingProcessorPostgresql.severityField,
    LoggingProcessorRabbitmq.severityField,
    LoggingProcessorTomcatSystem.severityField,
    severityParser.severityField ]

/-- The canonical severity enumeration of the telemetry backend. -/
def canonicalSeverities : List String :=
  ["DEBUG", "INFO", "WARNING", "ERROR", "CRITICAL", "FATAL", "DEFAULT"]

/-- Modelled from the spec: the SeverityMapper of section 4.4, whose code
(`LoggingProcessorModifyFields.Components` and the filter it generates) is not
among the adapter files.  A direct, case-sensitive lookup of the raw token; an
absent token gives no severity field when `exclusive` is set and is copied
through otherwise. -/
def SeverityMapper.map (rawSeverityValue : String) (severityMap : List (String × String))
    (exclusive : Bool) : Option String :=
  match severityMap.lookup rawSeverityValue with
  | some canonical => some canonical
  | none => if exclusive then none else some rawSeverityValue

/-- The severity stage of one adapter: the mapper applied with the table and
the exclusivity flag of the adapter's `severity` entry. -/
def ModifyField.severityOf (f : ModifyField) (rawSeverityValue : String) : Option String :=
  SeverityMapper.map rawSeverityValue f.MapValues f.MapValuesExclusive

/-! ## Regular expressions

The patterns of the adapters are written for the regular-expression engine of
the log pipeline (Onigmo, Ruby syntax): `^` and `$` are line anchors, `.` does
not match a newline, `\d`, `\w` and `\s` are the ASCII classes, a backslash in
front of a punctuation character makes it literal, and matching is a leftmost
backtracking search in which greedy quantifiers prefer the longer match.
-/

/-- An item of a bracket expression, or the class of an escape. -/
inductive ClassItem
  | chr (c : Char)
  | range (lo hi : Char)
  | digit
  | word
  | space
  | nonSpace
  deriving DecidableEq, Repr

/-- Abstract syntax of a pattern.  `rep r min max greedy` is every quantifier:
`*` is `rep r 0 none true`, `+` is `rep r 1 none true`, `?` is
`rep r 0 (some 1) true`, and `{n}` is `rep r n (some n) true`. -/
inductive Regex
  | empty
  | chr (c : Char)
  | any
  | cls (negated : Bool) (items : List ClassItem)
  | bol
  | eol
  | seq (a b : Regex)
  | alt (a b : Regex)
  | rep (r : Regex) (min : Nat) (max : Option Nat) (greedy : Bool)
  | group (name : String) (r : Regex)
  | ncgroup (r : Regex)
  | neglook (r : Regex)
  deriving DecidableEq, Repr

def isDigit (c : Char) : Bool := decide ('0' ≤ c) && decide (c ≤ '9')

def isWord (c : Char) : Bool :=
  isDigit c || (decide ('a' ≤ c) && decide (c ≤ 'z')) ||
    (decide ('A' ≤ c) && decide (c ≤ 'Z')) || c == '_'

def isSpace (c : Char) : Bool :=
  c == ' ' || c == '\t' || c == '\n' || c == '\x0b' || c == '\x0c' || c == '\r'

def ClassItem.test : ClassItem → Char → Bool
  | .chr x, c => c == x
  | .range lo hi, c => decide (lo ≤ c) && decide (c ≤ hi)
  | .digit, c => isDigit c
  | .word, c => isWord c
  | .space, c => isSpace c
  | .nonSpace, c => !isSpace c

/-- A position in the subject text: the characters already passed, nearest
first, and the characters still to come. -/
structure Cursor where
  pre : List Char
  rest : List Char
  deriving DecidableEq, Repr

/-- The texts of the named groups that took part in the match, latest first. -/
abbrev Caps := List (String × String)

abbrev Outcome := Option (Cursor × Caps)

abbrev Cont := Cursor → Caps → Outcome

/-- The anchor `^`: the start of the text, or just after a newline that is not
the last character. -/
def Cursor.atBol (cu : Cursor) : Bool :=
  match cu.pre with
  | [] => true
  | c :: _ => c == '\n' && !cu.rest.isEmpty

/-- The anchor `$`: the end of the text, or just before a newline. -/
def Cursor.atEol (cu : Cursor) : Bool :=
  match cu.rest with
  | [] => true
  | c :: _ => c == '\n'

/-- Consumes one character that satisfies `p`. -/
def Cursor.step (p : Char → Bool) (cu : Cursor) (cs : Caps) (k : Cont) : Outcome :=
  match cu.rest with
  | [] => none
  | c :: rest => if p c then k ⟨c :: cu.pre, rest⟩ cs else none

/-- The text passed between two positions of the same subject. -/
def Cursor.since (start stop : Cursor) : String :=
  String.mk ((stop.pre.take (stop.pre.length - start.pre.length)).reverse)

/-- Ordered choice: the second alternative is tried only when the first fails. -/
def orElse (a : Outcome) (b : Unit → Outcome) : Outcome :=
  match a with
  | some x => some x
  | none => b ()

/-- The mandatory iterations of a quantifier. -/
def repMin (body : Cursor → Caps → Cont → Outcome) : Nat → Cursor → Caps → Cont → Outcome
  | 0, cu, cs, k => k cu cs
  | m + 1, cu, cs, k => body cu cs (fun cu' cs' => repMin body m cu' cs' k)

/-- The optional iterations of a quantifier, at most `more` of them when a
bound is given.  An iteration that consumes nothing ends the loop.  The first
argument bounds the number of iterations by the length of the remaining text. -/
def repMore (body : Cursor → Caps → Cont → Outcome) (greedy : Bool) :
    Nat → Option Nat → Cursor → Caps → Cont → Outcome
  | 0, _, cu, cs, k => k cu cs
  | fuel + 1, more, cu, cs, k =>
    if more = some 0 then k cu cs
    else
      let again : Unit → Outcome := fun _ =>
        body cu cs (fun cu' cs' =>
          if cu'.rest.length < cu.rest.length then
            repMore body greedy fuel (more.map (· - 1)) cu' cs' k
          else k cu' cs')
      if greedy then orElse (again ()) (fun _ => k cu cs)
      else orElse (k cu cs) again

/-- Backtracking matcher in continuation-passing style: `r.run cu cs k` matches
`r` at `cu` and hands the position and captures reached to `k`; when `k` fails
the next way of matching `r` is tried. -/
def Regex.run : Regex → Cursor → Caps → Cont → Outcome
  | .empty, cu, cs, k => k cu cs
  | .chr x, cu, cs, k => cu.step (· == x) cs k
  | .any, cu, cs, k => cu.step (· != '\n') cs k
  | .cls negated items, cu, cs, k =>
    cu.step (fun c => items.any (·.test c) != negated) cs k
  | .bol, cu, cs, k => if cu.atBol then k cu cs else none
  | .eol, cu, cs, k => if cu.atEol then k cu cs else none
  | .seq a b, cu, cs, k => a.run cu cs (fun cu' cs' => b.run cu' cs' k)
  | .alt a b, cu, cs, k => orElse (a.run cu cs k) (fun _ => b.run cu cs k)
  | .rep r min max greedy, cu, cs, k =>
    repMin r.run min cu cs (fun cu' cs' =>
      repMore r.run greedy (cu'.rest.length + 1) (max.map (· - min)) cu' cs' k)
  | .group name r, cu, cs, k =>
    r.run cu cs (fun cu' cs' => k cu' ((name, cu.since cu') :: cs'))
  | .ncgroup r, cu, cs, k => r.run cu cs k
  | .neglook r, cu, cs, k =>
    match r.run cu cs (fun cu' cs' => some (cu', cs')) with
    | some _ => none
    | none => k cu cs

/-- Accepting continuation: the match ends wherever the pattern ends. -/
def accept : Cont := fun cu cs => some (cu, cs)

/-- Leftmost search: the pattern is tried at every position in turn. -/
def Regex.searchFrom (r : Regex) : List Char → List Char → Outcome
  | pre, [] => r.run ⟨pre, []⟩ [] accept
  | pre, c :: rest =>
    orElse (r.run ⟨pre, c :: rest⟩ [] accept) (fun _ => Regex.searchFrom r (c :: pre) rest)

/-- The captures of the leftmost match of `r` in `s`, if there is a match. -/
def Regex.search (r : Regex) (s : String) : Option Caps :=
  (r.searchFrom [] s.data).map (·.2)

def Regex.isMatch (r : Regex) (s : String) : Bool := (r.search s).isSome

/-! ### Reading a pattern -/

/-- Concatenation of a list of patterns, nested to the right. -/
def seqOf : List Regex → Regex
  | [] => .empty
  | [r] => r
  | r :: rs => .seq r (seqOf rs)

/-- Alternation of a list of patterns, nested to the right. -/
def altOf : List Regex → Regex
  | [] => .empty
  | [r] => r
  | r :: rs => .alt r (altOf rs)

inductive GroupKind
  | top
  | named (name : String)
  | plain
  | neglook
  deriving DecidableEq, Repr

/-- A group that is being read: the alternatives already closed (latest first)
and the items of the current alternative (latest first). -/
structure Frame where
  kind : GroupKind
  alts : List Regex
  cur : List Regex
  deriving Repr

def Frame.body (f : Frame) : Regex :=
  altOf ((seqOf f.cur.reverse :: f.alts).reverse)

/-- A plain group `(...)` does not capture, like `(?:...)`: the engine numbers
no group in a pattern that names some. -/
def Frame.close (f : Frame) : Regex :=
  match f.kind with
  | .top => f.body
  | .named n => .group n f.body
  | .plain => .ncgroup f.body
  | .neglook => .neglook f.body

def Frame.push (f : Frame) (r : Regex) : Frame := { f with cur := r :: f.cur }

/-- The class or the literal character that the escape of `c` stands for. -/
def escapeItem (c : Char) : ClassItem :=
  if c = 'd' then .digit
  else if c = 'w' then .word
  else if c = 's' then .space
  else if c = 'S' then .nonSpace
  else if c = 't' then .chr '\t'
  else if c = 'n' then .chr '\n'
  else .chr c

def escapeAtom (c : Char) : Regex :=
  match escapeItem c with
  | .chr x => .chr x
  | item => .cls false [item]

def takeUntil (stop : Char) : List Char → List Char → Option (List Char × List Char)
  | _, [] => none
  | acc, c :: rest =>
    if c = stop then some (acc.reverse, rest) else takeUntil stop (c :: acc) rest

def takeDigits : List Char → List Char → List Char × List Char
  | acc, [] => (acc.reverse, [])
  | acc, c :: rest =>
    if isDigit c then takeDigits (c :: acc) rest else (acc.reverse, c :: rest)

def digitsToNat (ds : List Char) : Nat :=
  ds.foldl (fun n c => 10 * n + (c.toNat - '0'.toNat)) 0

/-- The items of a bracket expression, up to the closing bracket. -/
def parseClass : Nat → List Char → List ClassItem → Option (List ClassItem × List Char)
  | 0, _, _ => none
  | _ + 1, [], _ => none
  | _ + 1, ']' :: rest, acc => some (acc.reverse, rest)
  | fuel + 1, '\\' :: c :: rest, acc => parseClass fuel rest (escapeItem c :: acc)
  | fuel + 1, lo :: '-' :: hi :: rest, acc =>
    if hi = ']' then parseClass fuel ('-' :: hi :: rest) (.chr lo :: acc)
    else parseClass fuel rest (.range lo hi :: acc)
  | fuel + 1, c :: rest, acc => parseClass fuel rest (.chr c :: acc)

/-- The interval `{n}`, `{n,}` or `{n,m}` whose text follows the opening brace. -/
def parseInterval (cs : List Char) : Option (Nat × Option Nat × List Char) :=
  match takeDigits [] cs with
  | ([], _) => none
  | (lo, '}' :: rest) => some (digitsToNat lo, some (digitsToNat lo), rest)
  | (lo, ',' :: rest) =>
    match takeDigits [] rest with
    | ([], '}' :: rest') => some (digitsToNat lo, none, rest')
    | (hi, '}' :: rest') => some (digitsToNat lo, some (digitsToNat hi), rest')
    | _ => none
  | _ => none

/-- Puts a quantifier on the item read last. -/
def quantify (f : Frame) (min : Nat) (max : Option Nat) (greedy : Bool) : Option Frame :=
  match f.cur with
  | [] => none
  | r :: rs => some { f with cur := .rep r min max greedy :: rs }

/-- Makes the quantifier read last a lazy one. -/
def makeLazy (f : Frame) : Option Frame :=
  match f.cur with
  | .rep r min max _ :: rs => some { f with cur := .rep r min max false :: rs }
  | _ => none

/-- One pass over the pattern text with a stack of open groups; the flag tells
whether the previous token was a quantifier. -/
def parseLoop : Nat → List Char → Frame → List Frame → Bool → Option Regex
  | 0, _, _, _, _ => none
  | _ + 1, [], f, stack, _ => if stack.isEmpty then some f.close else none
  | fuel + 1, c :: rest, f, stack, quantified =>
    if c = '(' then
      match rest with
      | '?' :: '<' :: rest' =>
        match takeUntil '>' [] rest' with
        | some (name, rest'') =>
          parseLoop fuel rest'' ⟨.named (String.mk name), [], []⟩ (f :: stack) false
        | none => none
      | '?' :: ':' :: rest' => parseLoop fuel rest' ⟨.plain, [], []⟩ (f :: stack) false
      | '?' :: '!' :: rest' => parseLoop fuel rest' ⟨.neglook, [], []⟩ (f :: stack) false
      | '?' :: _ => none
      | _ => parseLoop fuel rest ⟨.plain, [], []⟩ (f :: stack) false
    else if c = ')' then
      match stack with
      | [] => none
      | parent :: stack' => parseLoop fuel rest (parent.push f.close) stack' false
    else if c = '|' then
      parseLoop fuel rest { f with alts := seqOf f.cur.reverse :: f.alts, cur := [] } stack false
    else if c = '*' then
      (quantify f 0 none true).bind (fun g => parseLoop fuel rest g stack true)
    else if c = '+' then
      (quantify f 1 none true).bind (fun g => parseLoop fuel rest g stack true)
    else if c = '?' then
      if quantified then (makeLazy f).bind (fun g => parseLoop fuel rest g stack false)
      else (quantify f 0 (some 1) true).bind (fun g => parseLoop fuel rest g stack true)
    else if c = '{' then
      match parseInterval rest with
      | some (min, max, rest') =>
        (quantify f min max true).bind (fun g => parseLoop fuel rest' g stack true)
      | none => none
    else if c = '[' then
      match rest with
      | '^' :: rest' =>
        match parseClass rest'.length.succ rest' [] with
        | some (items, rest'') => parseLoop fuel rest'' (f.push (.cls true items)) stack false
        | none => none
      | _ =>
        match parseClass rest.length.succ rest [] with
        | some (items, rest') => parseLoop fuel rest' (f.push (.cls false items)) stack false
        | none => none
    else if c = '\\' then
      match rest with
      | [] => none
      | e :: rest' => parseLoop fuel rest' (f.push (escapeAtom e)) stack false
    else if c = '^' then parseLoop fuel rest (f.push .bol) stack false
    else if c = '$' then parseLoop fuel rest (f.push .eol) stack false
    else if c = '.' then parseLoop fuel rest (f.push .any) stack false
    else parseLoop fuel rest (f.push (.chr c)) stack false

/-- The abstract syntax of a pattern given as text; `none` for a pattern that
is not well formed. -/
def Regex.parse (src : String) : Option Regex :=
  parseLoop src.length.succ src.data ⟨.top, [], []⟩ [] false

/-! ## Configuration types of `confgenerator` and `fluentbit`

The adapters fill in these structures; the code that turns them into pipeline
components lives outside the adapter files and is a parameter of the
embedding (`Confgenerator`). -/

/-- The type `confgenerator.ParserShared`. -/
structure ParserShared where
  TimeKey : String := ""
  TimeFormat : String := ""
  Types : List (String × String) := []
  deriving DecidableEq, Repr

/-- The type `confgenerator.RegexParser`. -/
structure RegexParser where
  Regex : String
  Parser : ParserShared
  deriving DecidableEq, Repr

/-- The type `confgenerator.LoggingProcessorParseRegex`. -/
structure LoggingProcessorParseRegex where
  Regex : String
  ParserShared : ParserShared
  deriving DecidableEq, Repr

/-- The type `confgenerator.LoggingProcessorParseRegexComplex`. -/
structure LoggingProcessorParseRegexComplex where
  Parsers : List RegexParser
  deriving DecidableEq, Repr

/-- The type `confgenerator.MultilineRule`. -/
structure MultilineRule where
  StateName : String
  NextState : String
  Regex : String
  deriving DecidableEq, Repr

/-- The type `confgenerator.LoggingProcessorParseMultilineRegex`. -/
structure LoggingProcessorParseMultilineRegex where
  LoggingProcessorParseRegexComplex : LoggingProcessorParseRegexComplex
  Rules : List MultilineRule
  deriving DecidableEq, Repr

/-- The type `confgenerator.LoggingProcessorParseJson`. -/
structure LoggingProcessorParseJson where
  ParserShared : ParserShared
  deriving DecidableEq, Repr

/-- The type `confgenerator.LoggingProcessorModifyFields`; the Go map is kept
as the list of its entries in the written order. -/
structure LoggingProcessorModifyFields where
  Fields : List (String × ModifyField)
  deriving DecidableEq, Repr

/-- The type `fluentbit.Component`; `Config` is a Go map, kept as the list of
its entries. -/
structure Component where
  Kind : String
  Config : List (String × String) := []
  OrderedConfig : List (String × String) := []
  deriving DecidableEq, Repr

/-- Assignment `c.Config[key] = value` of a Go map. -/
def Component.setConfig (c : Component) (key value : String) : Component :=
  { c with Config := c.Config.filter (fun kv => kv.1 != key) ++ [(key, value)] }

/-- The code of the repository that the adapters call and that is not part of
the adapter files: the `Components` methods of the `confgenerator` processors,
the label helpers of package `apps`, and the helpers of package `fluentbit`. -/
structure Confgenerator where
  Context : Type
  ParseRegex : LoggingProcessorParseRegex → Context → String → String → List Component
  ParseRegexComplex :
    LoggingProcessorParseRegexComplex → Context → String → String → List Component
  ParseMultilineRegex :
    LoggingProcessorParseMultilineRegex → Context → String → String → List Component
  ParseJson : LoggingProcessorParseJson → Context → String → String → List Component
  ModifyFields : LoggingProcessorModifyFields → Context → String → String → List Component
  InstrumentationSourceLabel : String
  instrumentationSourceValue : String → ModifyField
  LuaFilterComponents : String → String → String → List Component
  ParserNestLuaFunction : String
  ParserNestLuaScriptContents : String → String
  ParserMergeLuaFunction : String
  ParserMergeLuaScriptContents : String
  ParserComponentBase :
    String → String → List (String × String) → String → String → Component × String

namespace modify

/-- Modelled from the spec: the options type of package `modify`, which is not
among the adapter files.  A rename pair `(sourceName, destName)` of section 6
under the rule `Rename` (acts only when the source key exists and the
destination key does not) or `Hard_rename` (replaces an existing destination). -/
structure ModifyOptions where
  ModifyRule : String
  Parameters : String
  deriving DecidableEq, Repr

/-- Modelled from the spec: `modify.NewRenameOptions`, the non-overwriting
rename of `field` to `renameTo`. -/
def NewRenameOptions (field renameTo : String) : ModifyOptions :=
  { ModifyRule := "Rename", Parameters := field ++ " " ++ renameTo }

/-- Modelled from the spec: `modify.NewHardRenameOptions`, the overwriting
rename of `field` to `renameTo`. -/
def NewHardRenameOptions (field renameTo : String) : ModifyOptions :=
  { ModifyRule := "Hard_rename", Parameters := field ++ " " ++ renameTo }

/-- Modelled from the spec: `ModifyOptions.Component`, the `modify` filter that
applies the rule to the records of `tag`. -/
def ModifyOptions.Component (mo : ModifyOptions) (tag : String) : Component :=
  { Kind := "FILTER"
    Config := [("Name", "modify"), ("Match", tag), (mo.ModifyRule, mo.Parameters)] }

end modify

/-! ## hadoop.go -/

namespace LoggingProcessorHadoop

/-- The method `LoggingProcessorHadoop.Type`. -/
def typeName : String := "hadoop"

/-- The local `regexParser` of `Components` (hadoop.go:77-83). -/
def regexParser : LoggingProcessorParseRegex :=
  { Regex := r"(?<timestamp>\d+-\d+-\d+ \d+:\d+:\d+,\d+)\s+(?<severity>\w+)\s+(?<source>\S+):\s+(?<message>[\S\s]*)"
    ParserShared :=
      { TimeKey := "timestamp"
        TimeFormat := "%Y-%m-%d %H:%M:%S,%L" } }

/-- The `LoggingProcessorModifyFields` value of `Components` (hadoop.go:85-103). -/
def severityMapping (E : Confgenerator) : LoggingProcessorModifyFields :=
  { Fields := [
      ("severity", severityField),
      (E.InstrumentationSourceLabel, E.instrumentationSourceValue typeName)] }

/-- The method `LoggingProcessorHadoop.Components` (hadoop.go:73-109). -/
def Components (E : Confgenerator) (ctx : E.Context) (tag uid : String) : List Component :=
  let severityMappingComponents := E.ModifyFields (severityMapping E) ctx tag uid
  let c := E.ParseRegex regexParser ctx tag uid
  c ++ severityMappingComponents

end LoggingProcessorHadoop

/-- The rules that `LoggingReceiverHadoop.Components` assigns to
`ReceiverMixin.MultilineRules` (hadoop.go:125-136). -/
def LoggingReceiverHadoop.MultilineRules : List MultilineRule :=
  [ { StateName := "start_state"
      NextState := "cont"
      Regex := r"^\d+-\d+-\d+ \d+:\d+:\d+,\d+.*" },
    { StateName := "cont"
      NextState := "cont"
      Regex := r"^(?!\d+-\d+-\d+ \d+:\d+:\d+,\d+).*" } ]

/-! ## zookeeper.go -/

/-- The function `severityParser` of zookeeper.go:165-184, as the
`LoggingProcessorModifyFields` value it builds. -/
def severityParser.mapping (E : Confgenerator) (processorType : String) :
    LoggingProcessorModifyFields :=
  { Fields := [
      ("severity", severityParser.severityField),
      (E.InstrumentationSourceLabel, E.instrumentationSourceValue processorType)] }

/-- The function `severityParser` (zookeeper.go:165-184). -/
def severityParser (E : Confgenerator) (ctx : E.Context) (processorType tag uid : String) :
    List Component :=
  E.ModifyFields (severityParser.mapping E processorType) ctx tag uid

namespace LoggingProcessorZookeeperGeneral

/-- The method `LoggingProcessorZookeeperGeneral.Type`. -/
def typeName : String := "zookeeper_general"

/-- The first parser of `Components` (zookeeper.go:92-103). -/
def parser1 : RegexParser :=
  { Regex := r"^(?<time>\d{4}-\d{2}-\d{2}\s\d{2}:\d{2}:\d{2},\d{3})\s\[myid:(?<myid>\d+)?\]\s-\s(?<level>\w+)\s+\[(?<thread>.+):(?<source>.+)@(?<line>\d+)\]\s+-\s*(?<message>[\S\s]*)"
    Parser :=
      { TimeKey := "time"
        TimeFormat := "%Y-%m-%d %H:%M:%S,%L"
        Types := [
          ("myid", "integer"),
          ("thread", "string"),
          ("source", "string"),
          ("line", "integer")] } }

/-- The second parser of `Components` (zookeeper.go:114-124). -/
def parser2 : RegexParser :=
  { Regex := r"^(?<time>\d{4}-\d{2}-\d{2}\s\d{2}:\d{2}:\d{2},\d{3})\s-\s(?<level>\w+)\s+\[(?<thread>.+):(?<source>.+)@(?<line>\d+)\]\s+-\s*(?<message>[\S\s]*)"
    Parser :=
      { TimeKey := "time"
        TimeFormat := "%Y-%m-%d %H:%M:%S,%L"
        Types := [
          ("thread", "string"),
          ("source", "string"),
          ("line", "integer")] } }

/-- The local `complexRegex` of `Components` (zookeeper.go:80-126). -/
def complexRegex : LoggingProcessorParseRegexComplex :=
  { Parsers := [parser1, parser2] }

/-- The method `LoggingProcessorZookeeperGeneral.Components` (zookeeper.go:77-132). -/
def Components (E : Confgenerator) (ctx : E.Context) (tag uid : String) : List Component :=
  let c : List Component := []
  let c := c ++ E.ParseRegexComplex complexRegex ctx tag uid
  let c := c ++ severityParser E ctx typeName tag uid
  c

end LoggingProcessorZookeeperGeneral

/-- The rules that `LoggingReceiverZookeeperGeneral.Components` assigns to
`ReceiverMixin.MultilineRules` (zookeeper.go:148-159). -/
def LoggingReceiverZookeeperGeneral.MultilineRules : List MultilineRule :=
  [ { StateName := "start_state"
      NextState := "cont"
      Regex := r"^\d{4}-\d{2}-\d{2}\s\d{2}:\d{2}:\d{2},\d{3}" },
    { StateName := "cont"
      NextState := "cont"
      Regex := r"^(?!\d{4}-\d{2}-\d{2}\s\d{2}:\d{2}:\d{2},\d{3})" } ]

/-! ## rabbitmq.go -/

namespace LoggingProcessorRabbitmq

/-- The method `LoggingProcessorRabbitmq.Type`. -/
def typeName : String := "rabbitmq"

/-- The first parser of `Components` (rabbitmq.go:36-45). -/
def parser1 : RegexParser :=
  { Regex := r"^(?<timestamp>\d+-\d+-\d+\s+\d+:\d+:\d+[.,]\d+\+\d+:\d+) \[(?<severity>\w+)\] \<(?<process_id>\d+\.\d+\.\d+)\> (?<message>.*)$"
    Parser :=
      { TimeKey := "timestamp"
        TimeFormat := "%Y-%m-%d %H:%M:%S.%L%z" } }

/-- The second parser of `Components` (rabbitmq.go:46-54). -/
def parser2 : RegexParser :=
  { Regex := r"^(?<timestamp>\d+-\d+-\d+\s+\d+:\d+:\d+[.,]\d+\d+\d+) \[(?<severity>\w+)\] \<(?<process_id>\d+\.\d+\.\d+)\> (?<message>.*)$"
    Parser :=
      { TimeKey := "timestamp"
        TimeFormat := "%Y-%m-%d %H:%M:%S.%L" } }

/-- The parser list of `Components` (rabbitmq.go:35-56). -/
def complexRegex : LoggingProcessorParseRegexComplex :=
  { Parsers := [parser1, parser2] }

/-- The `LoggingProcessorModifyFields` value of `Components` (rabbitmq.go:60-75). -/
def severityMapping (E : Confgenerator) : LoggingProcessorModifyFields :=
  { Fields := [
      ("severity", severityField),
      (E.InstrumentationSourceLabel, E.instrumentationSourceValue typeName)] }

/-- The method `LoggingProcessorRabbitmq.Components` (rabbitmq.go:34-79). -/
def Components (E : Confgenerator) (ctx : E.Context) (tag uid : String) : List Component :=
  let c := E.ParseRegexComplex complexRegex ctx tag uid
  let c := c ++ E.ModifyFields (severityMapping E) ctx tag uid
  c

/-- The first sample log line documented in `Components` (rabbitmq.go:39). -/
def sampleLine1 : String :=
  "2022-01-31 18:01:20.441571+00:00 [erro] <0.692.0> ** Connection attempt from node 'rabbit_ctl_17@keith-testing-rabbitmq' rejected. Invalid challenge reply. **"

/-- The second sample log line documented in `Components` (rabbitmq.go:48). -/
def sampleLine2 : String :=
  "2023-02-01 12:45:14.705 [info] <0.801.0> Successfully set user tags for user 'admin' to [administrator]"

end LoggingProcessorRabbitmq

/-- The rules that `LoggingReceiverRabbitmq.Components` assigns to
`ReceiverMixin.MultilineRules` (rabbitmq.go:99-110). -/
def LoggingReceiverRabbitmq.MultilineRules : List MultilineRule :=
  [ { StateName := "start_state"
      NextState := "cont"
      Regex := r"^\d+-\d+-\d+ \d+:\d+:\d+\.\d+\+\d+:\d+" },
    { StateName := "cont"
      NextState := "cont"
      Regex := r"^(?!\d+-\d+-\d+ \d+:\d+:\d+\.\d+\+\d+:\d+)" } ]

/-! ## postgresql.go -/

namespace LoggingProcessorPostgresql

/-- The method `LoggingProcessorPostgresql.Type`. -/
def typeName : String := "postgresql_general"

/-- The first parser of `Components`, for `log_line_prefix = '%m [%p] %q%u@%d '`
(postgresql.go:125-142). -/
def parser1 : RegexParser :=
  { Regex := r"^(?<time>\d{4}-\d{2}-\d{2} \d{2}:\d{2}:\d{2}.\d{3,} \w+)\s*\[(?<tid>\d+)\](?:\s+(?<user>\S*)@(?<database>\S*))?\s*(?<level>\w+):\s+(?<message>[\s\S]*)"
    Parser :=
      { TimeKey := "time"
        TimeFormat := "%Y-%m-%d %H:%M:%S.%L %z"
        Types := [("tid", "integer")] } }

/-- The second parser of `Components`, for the SLES12 default
`log_line_prefix = '%m %d %u [%p]'` (postgresql.go:143-156). -/
def parser2 : RegexParser :=
  { Regex := r"^(?<time>\d{4}-\d{2}-\d{2} \d{2}:\d{2}:\d{2}.\d{3,} \w+)\s*(?:\s+(?<database>\S*)\s+(?<user>\S*))?\s*\[(?<tid>\d+)\]\s*(?<level>\w+):\s+(?<message>[\s\S]*)"
    Parser :=
      { TimeKey := "time"
        TimeFormat := "%Y-%m-%d %H:%M:%S.%L %z"
        Types := [("tid", "integer")] } }

/-- The `Rules` of `Components` (postgresql.go:159-170). -/
def Rules : List MultilineRule :=
  [ { StateName := "start_state"
      NextState := "cont"
      Regex := r"^\d{4}-\d{2}-\d{2} \d{2}:\d{2}:\d{2}.\d{3,} \w+" },
    { StateName := "cont"
      NextState := "cont"
      Regex := r"^(?!\d{4}-\d{2}-\d{2} \d{2}:\d{2}:\d{2}.\d{3,} \w+)" } ]

/-- The `LoggingProcessorParseMultilineRegex` value of `Components`
(postgresql.go:121-171). -/
def multilineRegex : LoggingProcessorParseMultilineRegex :=
  { LoggingProcessorParseRegexComplex := { Parsers := [parser1, parser2] }
    Rules := Rules }

/-- The `LoggingProcessorModifyFields` value of `Components` (postgresql.go:175-199). -/
def severityMapping (E : Confgenerator) : LoggingProcessorModifyFields :=
  { Fields := [
      ("severity", severityField),
      (E.InstrumentationSourceLabel, E.instrumentationSourceValue typeName)] }

/-- The method `LoggingProcessorPostgresql.Components` (postgresql.go:120-203). -/
def Components (E : Confgenerator) (ctx : E.Context) (tag uid : String) : List Component :=
  let c := E.ParseMultilineRegex multilineRegex ctx tag uid
  let c := c ++ E.ModifyFields (severityMapping E) ctx tag uid
  c

/-- The first sample line documented next to the first parser (postgresql.go:129). -/
def sampleLine : String :=
  "2022-01-12 20:57:58.378 UTC [26241] LOG:  starting PostgreSQL 14.1 (Debian 14.1-1.pgdg100+1) on x86_64-pc-linux-gnu, compiled by gcc (Debian 8.3.0-6) 8.3.0, 64-bit"

end LoggingProcessorPostgresql

/-! ## tomcat.go -/

namespace LoggingProcessorTomcatSystem

/-- The method `LoggingProcessorTomcatSystem.Type`. -/
def typeName : String := "tomcat_system"

/-- The parser of `Components` (tomcat.go:75-91). -/
def parser1 : RegexParser :=
  { Regex := r"^(?<time>\d{2}-[A-Z]{1}[a-z]{2}-\d{4}\s\d{2}:\d{2}:\d{2}.\d{3})\s(?<level>[A-Z]+)\s\[(?<module>[^\]]+)\]\s(?<message>(?<source>[\w\.]+)[\S\s]+)"
    Parser :=
      { TimeKey := "time"
        TimeFormat := "%d-%b-%Y %H:%M:%S.%L"
        Types := [("lineNumber", "integer")] } }

/-- The `Rules` of `Components` (tomcat.go:94-105). -/
def Rules : List MultilineRule :=
  [ { StateName := "start_state"
      NextState := "cont"
      Regex := r"^\d{2}-[A-Z]{1}[a-z]{2}-\d{4}\s\d{2}:\d{2}:\d{2}.\d{3}" },
    { StateName := "cont"
      NextState := "cont"
      Regex := r"^(?!\d{2}-[A-Z]{1}[a-z]{2}-\d{4}\s\d{2}:\d{2}:\d{2}.\d{3})" } ]

/-- The `LoggingProcessorParseMultilineRegex` value of `Components`
(tomcat.go:72-106). -/
def multilineRegex : LoggingProcessorParseMultilineRegex :=
  { LoggingProcessorParseRegexComplex := { Parsers := [parser1] }
    Rules := Rules }

/-- The `LoggingProcessorModifyFields` value of `Components` (tomcat.go:110-126). -/
def severityMapping (E : Confgenerator) : LoggingProcessorModifyFields :=
  { Fields := [
      ("severity", severityField),
      (E.InstrumentationSourceLabel, E.instrumentationSourceValue typeName)] }

/-- The method `LoggingProcessorTomcatSystem.Components` (tomcat.go:71-129). -/
def Components (E : Confgenerator) (ctx : E.Context) (tag uid : String) : List Component :=
  let c := E.ParseMultilineRegex multilineRegex ctx tag uid
  let c := c ++ E.ModifyFields (severityMapping E) ctx tag uid
  c

end LoggingProcessorTomcatSystem

/-! ## mongodb.go -/

namespace LoggingProcessorMongodb

/-- The method `LoggingProcessorMongodb.Type`. -/
def typeName : String := "mongodb"

/-- The local `jsonParser` of `jsonParserWithTimeKey` (mongodb.go:132-141). -/
def jsonParser : LoggingProcessorParseJson :=
  { ParserShared :=
      { TimeKey := "time"
        TimeFormat := "%Y-%m-%dT%H:%M:%S.%L%z"
        Types := [("id", "integer"), ("message", "string")] } }

/-- The local `liftTs` of `jsonParserWithTimeKey` (mongodb.go:156-165). -/
def liftTs (tag : String) : Component :=
  { Kind := "FILTER"
    Config := [
      ("Name", "nest"),
      ("Match", tag),
      ("Operation", "lift"),
      ("Nested_under", "t"),
      ("Add_prefix", "temp_ts_")] }

/-- The local `renameTs` of `jsonParserWithTimeKey` (mongodb.go:167-168). -/
def renameTs (tag : String) : Component :=
  (modify.NewHardRenameOptions ("temp_ts_" ++ "$date") "time").Component tag

/-- The method `jsonParserWithTimeKey` (mongodb.go:129-202).  The two index
expressions `jpComponents[2]` and `OrderedConfig[0]` stop the program when the
index is out of range; the result is then `none`. -/
def jsonParserWithTimeKey (E : Confgenerator) (ctx : E.Context) (tag uid : String) :
    Option (List Component) :=
  let c : List Component := []
  let jpComponents := E.ParseJson jsonParser ctx tag uid
  match jpComponents[2]? with
  | none => none
  | some parserFilterComponent =>
    let c := c ++ jpComponents
    let timeKey := "time"
    let c := c ++ [liftTs tag, renameTs tag]
    let nestFilters :=
      E.LuaFilterComponents tag E.ParserNestLuaFunction (E.ParserNestLuaScriptContents "message")
    match parserFilterComponent.OrderedConfig.head? with
    | none => none
    | some entry =>
      let parserFilter : Component :=
        { Kind := "FILTER"
          Config := [
            ("Name", "parser"),
            ("Match", tag),
            ("Key_Name", "message"),
            ("Reserve_Data", "True"),
            ("Parser", entry.2)] }
      let mergeFilters :=
        E.LuaFilterComponents tag E.ParserMergeLuaFunction E.ParserMergeLuaScriptContents
      let c := c ++ nestFilters
      let c := c ++ [parserFilter]
      let c := c ++ mergeFilters
      let removeTimestamp : Component :=
        { Kind := "FILTER"
          Config := [
            ("Name", "modify"),
            ("Match", tag),
            ("Remove", timeKey)] }
      let c := c ++ [removeTimestamp]
      some c

/-- The `LoggingProcessorModifyFields` value of `severityParser` (mongodb.go:210-233). -/
def severityMapping (E : Confgenerator) : LoggingProcessorModifyFields :=
  { Fields := [
      ("jsonPayload.severity", { MoveFrom := "jsonPayload.s" }),
      ("severity", severityField),
      (E.InstrumentationSourceLabel, E.instrumentationSourceValue typeName)] }

/-- The method `LoggingProcessorMongodb.severityParser` (mongodb.go:206-237). -/
def severityParser (E : Confgenerator) (ctx : E.Context) (tag uid : String) : List Component :=
  let severityComponents : List Component := []
  let severityComponents := severityComponents ++ E.ModifyFields (severityMapping E) ctx tag uid
  severityComponents

/-- The rename pairs of the method `renames` (mongodb.go:241-248). -/
def renamePairs : List (String × String) :=
  [("c", "component"), ("ctx", "context"), ("msg", "message")]

/-- The method `renames` (mongodb.go:239-256); the parameter `uid` is unused. -/
def renames (tag _uid : String) : List Component :=
  renamePairs.foldl
    (fun r rename => r ++ [(modify.NewRenameOptions rename.1 rename.2).Component tag]) []

/-- The method `promoteWiredTiger` (mongodb.go:258-288); the parameter `uid` is
unused. -/
def promoteWiredTiger (tag _uid : String) : List Component :=
  let addPrefix := "temp_attributes_"
  let upNest : Component :=
    { Kind := "FILTER"
      Config := [
        ("Name", "nest"),
        ("Match", tag),
        ("Operation", "lift"),
        ("Nested_under", "attr"),
        ("Add_prefix", addPrefix)] }
  let hardRenameMessage := modify.NewHardRenameOptions (addPrefix ++ "message") "msg"
  let wiredTigerRename := hardRenameMessage.Component tag
  let renameRemainingAttributes : Component :=
    { Kind := "FILTER"
      Config := [
        ("Name", "nest"),
        ("Wildcard", addPrefix ++ "*"),
        ("Match", tag),
        ("Operation", "nest"),
        ("Nest_under", "attributes"),
        ("Remove_prefix", addPrefix)] }
  [upNest, wiredTigerRename, renameRemainingAttributes]

/-- The pattern of `RegexLogComponents` (mongodb.go:301). -/
def regex : String :=
  r"^(?<timestamp>[^ ]*)\s+(?<s>\w)\s+(?<component>[^ ]+)\s+\[(?<context>[^\]]+)]\s+(?<message>.*?) *(?<ms>(\d+))?(:?ms)?$"

/-- The method `RegexLogComponents` (mongodb.go:290-323). -/
def RegexLogComponents (E : Confgenerator) (tag uid : String) : List Component :=
  let c : List Component := []
  let parseKey := "message"
  let base := E.ParserComponentBase "%Y-%m-%dT%H:%M:%S.%L%z" "timestamp" [
      ("message", "string"),
      ("id", "integer"),
      ("s", "string"),
      ("component", "string"),
      ("context", "string")] (tag ++ "_regex") uid
  let parser := base.1
  let parserName := base.2
  let parser := parser.setConfig "Format" "regex"
  let parser := parser.setConfig "Regex" regex
  let parser := parser.setConfig "Key_Name" parseKey
  let nestFilters :=
    E.LuaFilterComponents tag E.ParserNestLuaFunction (E.ParserNestLuaScriptContents parseKey)
  let parserFilter : Component :=
    { Kind := "FILTER"
      Config := [
        ("Match", tag),
        ("Name", "parser"),
        ("Parser", parserName),
        ("Reserve_Data", "True"),
        ("Key_Name", parseKey)] }
  let mergeFilters :=
    E.LuaFilterComponents tag E.ParserMergeLuaFunction E.ParserMergeLuaScriptContents
  let c := c ++ [parser]
  let c := c ++ nestFilters
  let c := c ++ [parserFilter]
  let c := c ++ mergeFilters
  c

/-- The method `JsonLogComponents` (mongodb.go:118-125). -/
def JsonLogComponents (E : Confgenerator) (ctx : E.Context) (tag uid : String) :
    Option (List Component) :=
  match jsonParserWithTimeKey E ctx tag uid with
  | none => none
  | some c =>
    let c := c ++ promoteWiredTiger tag uid
    let c := c ++ renames tag uid
    some c

/-- The method `LoggingProcessorMongodb.Components` (mongodb.go:105-113). -/
def Components (E : Confgenerator) (ctx : E.Context) (tag uid : String) :
    Option (List Component) :=
  let c : List Component := []
  match JsonLogComponents E ctx tag uid with
  | none => none
  | some json =>
    let c := c ++ json
    let c := c ++ RegexLogComponents E tag uid
    let c := c ++ severityParser E ctx tag uid
    some c

end LoggingProcessorMongodb

/-! ## Multiline rules as a state machine -/

/-- Name of the state in which the multiline parser starts. -/
def startState : String := "start_state"

/-- The five multiline rule sets of the adapters, in the order hadoop,
postgresql, rabbitmq, tomcat_system, zookeeper_general. -/
def adapterRuleSets : List (List MultilineRule) :=
  [ LoggingReceiverHadoop.MultilineRules,
    LoggingProcessorPostgresql.Rules,
    LoggingReceiverRabbitmq.MultilineRules,
    LoggingProcessorTomcatSystem.Rules,
    LoggingReceiverZookeeperGeneral.MultilineRules ]

/-- A rule accepts a line when its pattern is found in the line. -/
def MultilineRule.accepts (r : MultilineRule) (line : String) : Bool :=
  match Regex.parse r.Regex with
  | some re => re.isMatch line
  | none => false

/-- The rule that fires in `state` on `line`: the first rule of that state
whose pattern accepts the line. -/
def firing (rules : List MultilineRule) (state line : String) : Option MultilineRule :=
  rules.find? (fun r => r.StateName == state && r.accepts line)

/-- The transition function of the state machine that a rule set defines. -/
def nextState (rules : List MultilineRule) (state line : String) : Option String :=
  (firing rules state line).map (·.NextState)

/-- The state after a line: the target of the firing rule, or the same state
when no rule fires. -/
def advance (rules : List MultilineRule) (state line : String) : String :=
  (nextState rules state line).getD state

/-! ## The multiline aggregator -/

/-- State of the MultilineAggregator: the current state of the rule set and
the accumulation buffer (`none` when empty). -/
structure Aggregator where
  state : String
  buffer : Option String
  deriving DecidableEq, Repr

/-- The aggregator before the first line. -/
def Aggregator.init : Aggregator := ⟨startState, none⟩

/-- Appends a line to the buffer with a newline separator; a line put into an
empty buffer begins the record. -/
def Aggregator.append (buffer : Option String) (line : String) : String :=
  match buffer with
  | none => line
  | some text => text ++ "\n" ++ line

/-- Modelled from the spec: `feed` of the MultilineAggregator (section 4.1),
which belongs to the log pipeline and not to the adapter files.  The rule of
the current state is evaluated against the line.  A firing rule that leaves
the start state begins a new record: the buffer, if not empty, is flushed as a
completed record and a new buffer starts with the line.  Any other firing rule
appends the line.  A line on which no rule of the current state fires is a
continuation and is appended (into an empty buffer it begins a record); the
state is kept.  The spec does not say how a record after the first begins
while the aggregator is in a continuation state: with `restart` set, a line on
which no rule of the current state fires is also tried against the rules of
the start state and begins a new record when one fires; without it such a line
is a continuation. -/
def Aggregator.feed (rules : List MultilineRule) (restart : Bool) (a : Aggregator)
    (line : String) : Aggregator × Option String :=
  match firing rules a.state line with
  | some r =>
    if r.StateName == startState then (⟨r.NextState, some line⟩, a.buffer)
    else (⟨r.NextState, some (Aggregator.append a.buffer line)⟩, none)
  | none =>
    match (if restart then firing rules startState line else none) with
    | some r => (⟨r.NextState, some line⟩, a.buffer)
    | none => (⟨a.state, some (Aggregator.append a.buffer line)⟩, none)

/-- Feeds the lines in order; returns the final aggregator and the records
completed on the way, in the order of their completion. -/
def Aggregator.feedAll (rules : List MultilineRule) (restart : Bool) :
    Aggregator → List String → Aggregator × List String
  | a, [] => (a, [])
  | a, line :: lines =>
    let fed := Aggregator.feed rules restart a line
    let later := Aggregator.feedAll rules restart fed.1 lines
    (later.1, fed.2.toList ++ later.2)

/-- Modelled from the spec: a whole input stream through the aggregator
(section 4.1): every line is fed, and at the end of input a buffer that is not
empty is flushed as the final record. -/
def Aggregator.run (rules : List MultilineRule) (restart : Bool) (lines : List String) :
    List String :=
  let fed := Aggregator.feedAll rules restart Aggregator.init lines
  fed.2 ++ fed.1.buffer.toList

/-! ## Records and field extraction -/

/-- A field value: a string, an integer or a nested record. -/
inductive Value
  | str (s : String)
  | int (n : Int)
  | nested (fields : List (String × Value))
  deriving Repr

/-- A record: field names with their values. -/
abbrev Record := List (String × Value)

def Value.isRec : Value → Bool
  | .nested _ => true
  | _ => false

/-- The names of the top-level fields. -/
def Record.keys (r : Record) : List String := r.map (·.1)

/-- Result of `extract`: the fields, the canonical instant of the timestamp
group when its conversion succeeded, the ingestion-time flag, and the marker
of an unparsed record. -/
structure Extracted where
  fields : Record
  time : Option Int := none
  ingestionTimeFallback : Bool := false
  unparsed : Bool := false

/-- Decimal integer with an optional minus sign. -/
def parseInteger (s : String) : Option Int :=
  match s.data with
  | '-' :: ds => if !ds.isEmpty && ds.all isDigit then some (-(digitsToNat ds : Int)) else none
  | ds => if !ds.isEmpty && ds.all isDigit then some (digitsToNat ds : Int) else none

/-- Type coercion of a captured text: an `integer` field is parsed and keeps
its raw text when the parse fails; every other field is a string. -/
def coerce (types : List (String × String)) (name raw : String) : Value :=
  if types.lookup name = some "integer" then
    match parseInteger raw with
    | some n => .int n
    | none => .str raw
  else .str raw

/-- The last capture of every group, latest group first. -/
def latest : Caps → Caps
  | [] => []
  | (name, text) :: cs => (name, text) :: (latest cs).filter (fun c => c.1 != name)

/-- The named captures of the parser's pattern in the raw text; `none` when
the pattern does not match. -/
def RegexParser.captures (p : RegexParser) (rawText : String) : Option Caps :=
  (Regex.parse p.Regex).bind (fun re => re.search rawText)

/-- Modelled from the spec: the record that `extract` (section 4.2) builds from
the named captures of the parser that matched.  Every group that took part in
the match becomes a field with its declared coercion.  The group named by
`TimeKey` is converted with the layout `TimeFormat` by `strptime`, a parameter;
on success the instant is the record's time, on failure the raw text stays and
the record is flagged as using ingestion time. -/
def RegexParser.toRecord (strptime : String → String → Option Int) (p : RegexParser)
    (caps : Caps) : Extracted :=
  let groups := (latest caps).reverse
  let typed : Record := groups.map (fun g => (g.1, coerce p.Parser.Types g.1 g.2))
  match groups.lookup p.Parser.TimeKey with
  | none => { fields := typed }
  | some raw =>
    match strptime p.Parser.TimeFormat raw with
    | some instant =>
      { fields := typed.filter (fun f => f.1 != p.Parser.TimeKey), time := some instant }
    | none => { fields := typed, ingestionTimeFallback := true }

/-- The record of a text that no parser matches: only the message field, set
to the raw text, and the unparsed marker. -/
def unparsedRecord (rawText : String) : Extracted :=
  { fields := [("message", .str rawText)], unparsed := true }

/-- Modelled from the spec: `extract` of the FieldExtractor (section 4.2), which
belongs to the log pipeline and not to the adapter files.  The parsers are
tried in order, the first whose pattern matches the raw text gives the record,
and a text that no parser matches gives the unparsed record. -/
def extract (strptime : String → String → Option Int) (rawText : String) :
    List RegexParser → Extracted
  | [] => unparsedRecord rawText
  | p :: ps =>
    match p.captures rawText with
    | some caps => p.toRecord strptime caps
    | none => extract strptime rawText ps

/-! ## Promotion and rename filters -/

/-- String prefix test on the characters. -/
def hasPrefix (pre s : String) : Bool := pre.data.isPrefixOf s.data

/-- Modelled from the spec: step (1) of the NestedPromoter (section 4.3) as the
`nest` filter with `Operation lift` performs it: the children of the record
nested under `nestedUnder` are lifted to the top level with `addPrefix` in
front of their names, and the nested field itself is gone. -/
def nestLift (nestedUnder addPrefix : String) (r : Record) : Record :=
  r.filter (fun f => !(f.1 == nestedUnder && f.2.isRec)) ++
    r.flatMap (fun f =>
      if f.1 == nestedUnder then
        match f.2 with
        | .nested children => children.map (fun c => (addPrefix ++ c.1, c.2))
        | _ => []
      else [])

/-- Modelled from the spec: the `nest` filter with `Operation nest`: the
top-level fields whose name begins with `wildcardPrefix` are moved into one
record under `nestUnder`, with `removePrefix` taken off their names; a record
without such a field is left as it is. -/
def nestUnder (wildcardPrefix nestUnder removePrefix : String) (r : Record) : Record :=
  let chosen := r.filter (fun f => hasPrefix wildcardPrefix f.1)
  if chosen.isEmpty then r
  else
    r.filter (fun f => !hasPrefix wildcardPrefix f.1) ++
      [(nestUnder, .nested (chosen.map (fun f =>
        (if hasPrefix removePrefix f.1 then String.mk (f.1.data.drop removePrefix.length)
         else f.1, f.2))))]

/-- Modelled from the spec: the overwriting rename: when `src` exists, a field
`dst` that is already there is removed and `src` takes the name `dst`. -/
def hardRename (src dst : String) (r : Record) : Record :=
  if r.any (fun f => f.1 == src) then
    (r.filter (fun f => f.1 != dst)).map (fun f => if f.1 == src then (dst, f.2) else f)
  else r

/-- Modelled from the spec: the non-overwriting rename: acts only when `src`
exists and `dst` does not. -/
def softRename (src dst : String) (r : Record) : Record :=
  if r.any (fun f => f.1 == src) && !r.any (fun f => f.1 == dst) then
    r.map (fun f => if f.1 == src then (dst, f.2) else f)
  else r

/-- The two names of a rename parameter `src dst`. -/
def splitParameters (parameters : String) : String × String :=
  (String.mk (parameters.data.takeWhile (· != ' ')),
   String.mk ((parameters.data.dropWhile (· != ' ')).drop 1))

/-- One rule of a `modify` filter. -/
def applyModifyRule (r : Record) (entry : String × String) : Record :=
  if entry.1 = "Hard_rename" then
    hardRename (splitParameters entry.2).1 (splitParameters entry.2).2 r
  else if entry.1 = "Rename" then
    softRename (splitParameters entry.2).1 (splitParameters entry.2).2 r
  else if entry.1 = "Remove" then r.filter (fun f => f.1 != entry.2)
  else r

/-- Modelled from the spec: what a `nest` or `modify` filter component does to
a record; the filters run in the log pipeline, outside the adapter files.
Every other component leaves the record as it is here. -/
def Component.apply (c : Component) (r : Record) : Record :=
  let get := fun key => (c.Config.lookup key).getD ""
  if c.Config.lookup "Name" = some "nest" then
    if c.Config.lookup "Operation" = some "lift" then
      nestLift (get "Nested_under") (get "Add_prefix") r
    else if c.Config.lookup "Operation" = some "nest" then
      nestUnder (String.mk ((get "Wildcard").data.takeWhile (· != '*')))
        (get "Nest_under") (get "Remove_prefix") r
    else r
  else if c.Config.lookup "Name" = some "modify" then
    c.Config.foldl applyModifyRule r
  else r

/-- The two promotion filters of `jsonParserWithTimeKey`, applied in order:
`liftTs`, then `renameTs` (mongodb.go:152-170). -/
def promoteTimestamp (tag : String) (r : Record) : Record :=
  (LoggingProcessorMongodb.renameTs tag).apply ((LoggingProcessorMongodb.liftTs tag).apply r)

/-! ## Shape of a component list -/

/-- The component list `c` is `pre` followed by exactly the components of one
`LoggingProcessorModifyFields` whose `Fields` hold the `severity` entry `sev`
and, under `InstrumentationSourceLabel`, `instrumentationSourceValue` of the
processor type `typeName`. -/
def SeverityStageLast (E : Confgenerator) (ctx : E.Context) (tag uid typeName : String)
    (sev : ModifyField) (pre c : List Component) : Prop :=
  ∃ mf : LoggingProcessorModifyFields,
    c = pre ++ E.ModifyFields mf ctx tag uid ∧
    ("severity", sev) ∈ mf.Fields ∧
    (E.InstrumentationSourceLabel, E.instrumentationSourceValue typeName) ∈ mf.Fields

/-- A small instance of the generating code, in which every processor yields
components that name the processor and the JSON parser yields the three
components that `jsonParserWithTimeKey` relies on. -/
def Confgenerator.sample : Confgenerator where
  Context := Unit
  ParseRegex := fun p _ tag _ => [{ Kind := "PARSER", Config := [("Regex", p.Regex), ("Match", tag)] }]
  ParseRegexComplex := fun p _ tag _ =>
    p.Parsers.map (fun q => { Kind := "PARSER", Config := [("Regex", q.Regex), ("Match", tag)] })
  ParseMultilineRegex := fun p _ tag _ =>
    p.LoggingProcessorParseRegexComplex.Parsers.map
      (fun q => { Kind := "PARSER", Config := [("Regex", q.Regex), ("Match", tag)] })
  ParseJson := fun _ _ tag uid =>
    [ { Kind := "FILTER", Config := [("Name", "lua"), ("Match", tag)] },
      { Kind := "FILTER", Config := [("Name", "lua"), ("Match", tag)] },
      { Kind := "FILTER", Config := [("Name", "parser"), ("Match", tag)],
        OrderedConfig := [("Parser", tag ++ "." ++ uid)] } ]
  ModifyFields := fun mf _ tag _ =>
    mf.Fields.map (fun f => { Kind := "FILTER", Config := [("Name", "lua"), ("Match", tag), ("Field", f.1)] })
  InstrumentationSourceLabel := "labels.instrumentation_source"
  instrumentationSourceValue := fun t => { CopyFrom := "agent.googleapis.com/" ++ t }
  LuaFilterComponents := fun tag f _ => [{ Kind := "FILTER", Config := [("Name", "lua"), ("Match", tag), ("call", f)] }]
  ParserNestLuaFunction := "parser_nest"
  ParserNestLuaScriptContents := fun key => "nest " ++ key
  ParserMergeLuaFunction := "parser_merge_record"
  ParserMergeLuaScriptContents := "merge"
  ParserComponentBase := fun timeFormat timeKey _ tag uid =>
    ({ Kind := "PARSER", Config := [("Time_Format", timeFormat), ("Time_Key", timeKey)] },
      tag ++ "." ++ uid)

/-! ## Start and continuation patterns -/

/-- The items of a concatenation that is nested to the right. -/
def seqItems : Regex → List Regex
  | .seq a b => a :: seqItems b
  | r => [r]

/-- The items of the pattern inside the negative lookahead with which a
continuation pattern `^(?!X)` or `^(?!X)T` starts. -/
def lookaheadItems (cont : String) : List Regex :=
  match Regex.parse cont with
  | some (.seq .bol (.neglook x)) => seqItems x
  | some (.seq .bol (.seq (.neglook x) _)) => seqItems x
  | _ => []

/-- The continuation pattern is the anchored negative lookahead of the start
pattern: the start pattern is `^X` and the continuation pattern `^(?!X)`, both
possibly followed by the same trailing `.*`. -/
def NegativeLookaheadPair (start cont : String) : Prop :=
  ∃ xs tail : List Regex,
    Regex.parse start = some (seqOf (.bol :: (xs ++ tail))) ∧
    Regex.parse cont = some (seqOf (.bol :: .neglook (seqOf xs) :: tail)) ∧
    (tail = [] ∨ tail = [.rep .any 0 none true])

/-- A rule set of the shape that the adapters configure: `start_state` leads
to `cont` on the pattern `start`, and `cont` leads to `cont` on the pattern
`cont`. -/
def ruleSetOf (start cont : String) : List MultilineRule :=
  [ { StateName := "start_state", NextState := "cont", Regex := start },
    { StateName := "cont", NextState := "cont", Regex := cont } ]

/-! ## Filter sequences and the named groups of a pattern -/

/-- Runs the filter components on a record, in the order of the list. -/
def applyAll (components : List Component) (r : Record) : Record :=
  components.foldl (fun record c => c.apply record) r

/-- The three filters of `promoteWiredTiger` applied to a record, in order. -/
def promoteWiredTigerRecord (tag uid : String) (r : Record) : Record :=
  applyAll (LoggingProcessorMongodb.promoteWiredTiger tag uid) r

/-- The names of the named groups of a pattern, in the order in which the
groups open. -/
def Regex.groupNames : Regex → List String
  | .seq a b => a.groupNames ++ b.groupNames
  | .alt a b => a.groupNames ++ b.groupNames
  | .rep r _ _ _ => r.groupNames
  | .group name r => name :: r.groupNames
  | .ncgroup r => r.groupNames
  | .neglook r => r.groupNames
  | _ => []

/-- The names of the named groups of a pattern given as text. -/
def groupNamesOf (src : String) : List String :=
  match Regex.parse src with
  | some re => re.groupNames
  | none => []

/-- The parser of `LoggingProcessorHadoop.Components` with its shared options,
as a `RegexParser`. -/
def LoggingProcessorHadoop.parser1 : RegexParser :=
  { Regex := LoggingProcessorHadoop.regexParser.Regex
    Parser := LoggingProcessorHadoop.regexParser.ParserShared }

/-- The regex parser of `RegexLogComponents` (mongodb.go:293-301) as a
`RegexParser`: the time format, time key and types that the method passes to
`ParserComponentBase`, and the pattern it stores under `Regex`. -/
def LoggingProcessorMongodb.parser1 : RegexParser :=
  { Regex := LoggingProcessorMongodb.regex
    Parser :=
      { TimeKey := "timestamp"
        TimeFormat := "%Y-%m-%dT%H:%M:%S.%L%z"
        Types := [
          ("message", "string"),
          ("id", "integer"),
          ("s", "string"),
          ("component", "string"),
          ("context", "string")] } }

/-- Every regex parser that the adapters configure: hadoop, the mongodb regex
parser, the two of postgresql, the two of rabbitmq, tomcat_system and the two
of zookeeper. -/
def adapterRegexParsers : List RegexParser :=
  [ LoggingProcessorHadoop.parser1,
    LoggingProcessorMongodb.parser1,
    LoggingProcessorPostgresql.parser1,
    LoggingProcessorPostgresql.parser2,
    LoggingProcessorRabbitmq.parser1,
    LoggingProcessorRabbitmq.parser2,
    LoggingProcessorTomcatSystem.parser1,
    LoggingProcessorZookeeperGeneral.parser1,
    LoggingProcessorZookeeperGeneral.parser2 ]

/-- The field names to which the parser's `Types` table gives a coercion type. -/
def RegexParser.typedNames (p : RegexParser) : List String := p.Parser.Types.map (·.1)

/-! ## Logging receivers -/

/-- The type `confgenerator.LoggingReceiverFilesMixin`, which is declared
outside the adapter files: the two members that the adapters read or assign,
and all its remaining members as one value. -/
structure LoggingReceiverFilesMixin (α : Type) where
  IncludePaths : List String
  MultilineRules : List MultilineRule
  Other : α

/-- The generating code that the receivers call in addition to that of the
processors: the method `LoggingReceiverFilesMixin.Components` and the function
`genericAccessLogParser` of package `apps`. -/
structure ReceiverGenerator extends Confgenerator where
  MixinOther : Type
  FilesMixin : LoggingReceiverFilesMixin MixinOther → Context → String → List Component
  genericAccessLogParser : Context → String → String → String → List Component

namespace LoggingReceiverHadoop

/-- The member `ReceiverMixin` of the receiver after the assignments of
`Components` (hadoop.go:117-136). -/
def mixin {α : Type} (ReceiverMixin : LoggingReceiverFilesMixin α) :
    LoggingReceiverFilesMixin α :=
  let ReceiverMixin :=
    if ReceiverMixin.IncludePaths.length = 0 then
      { ReceiverMixin with
        IncludePaths := [
          "/opt/hadoop/logs/hadoop-*.log",
          "/opt/hadoop/logs/yarn-*.log"] }
    else ReceiverMixin
  { ReceiverMixin with MultilineRules := MultilineRules }

/-- The method `LoggingReceiverHadoop.Components` (hadoop.go:116-141); the
receiver is given by its member `ReceiverMixin`. -/
def Components (E : ReceiverGenerator) (ctx : E.Context) (tag : String)
    (ReceiverMixin : LoggingReceiverFilesMixin E.MixinOther) : List Component :=
  let ReceiverMixin := mixin ReceiverMixin
  let c := E.FilesMixin ReceiverMixin ctx tag
  c ++ LoggingProcessorHadoop.Components E.toConfgenerator ctx tag "hadoop"

end LoggingReceiverHadoop

namespace LoggingReceiverMongodb

/-- The member `ReceiverMixin` of the receiver after the assignment of
`Components` (mongodb.go:331-336). -/
def mixin {α : Type} (ReceiverMixin : LoggingReceiverFilesMixin α) :
    LoggingReceiverFilesMixin α :=
  if ReceiverMixin.IncludePaths.length = 0 then
    { ReceiverMixin with
      IncludePaths := [
        "/var/log/mongodb/mongod.log*"] }
  else ReceiverMixin

/-- The method `LoggingReceiverMongodb.Components` (mongodb.go:330-340); `none`
when the processor stops on an index out of range. -/
def Components (E : ReceiverGenerator) (ctx : E.Context) (tag : String)
    (ReceiverMixin : LoggingReceiverFilesMixin E.MixinOther) : Option (List Component) :=
  let ReceiverMixin := mixin ReceiverMixin
  let c := E.FilesMixin ReceiverMixin ctx tag
  match LoggingProcessorMongodb.Components E.toConfgenerator ctx tag "mongodb" with
  | none => none
  | some processor =>
    let c := c ++ processor
    some c

end LoggingReceiverMongodb

namespace LoggingReceiverPostgresql

/-- The member `ReceiverMixin` of the receiver after the assignment of
`Components` (postgresql.go:211-220). -/
def mixin {α : Type} (ReceiverMixin : LoggingReceiverFilesMixin α) :
    LoggingReceiverFilesMixin α :=
  if ReceiverMixin.IncludePaths.length = 0 then
    { ReceiverMixin with
      IncludePaths := [
        "/var/log/postgresql/postgresql*.log",
        "/var/lib/pgsql/data/log/postgresql*.log",
        "/var/lib/pgsql/*/data/log/postgresql*.log"] }
  else ReceiverMixin

/-- The method `LoggingReceiverPostgresql.Components` (postgresql.go:210-224). -/
def Components (E : ReceiverGenerator) (ctx : E.Context) (tag : String)
    (ReceiverMixin : LoggingReceiverFilesMixin E.MixinOther) : List Component :=
  let ReceiverMixin := mixin ReceiverMixin
  let c := E.FilesMixin ReceiverMixin ctx tag
  let c := c ++ LoggingProcessorPostgresql.Components E.toConfgenerator ctx tag "postgresql"
  c

end LoggingReceiverPostgresql

namespace LoggingReceiverRabbitmq

/-- The member `ReceiverMixin` of the receiver after the assignments of
`Components` (rabbitmq.go:87-110). -/
def mixin {α : Type} (ReceiverMixin : LoggingReceiverFilesMixin α) :
    LoggingReceiverFilesMixin α :=
  let ReceiverMixin :=
    if ReceiverMixin.IncludePaths.length = 0 then
      { ReceiverMixin with
        IncludePaths := [
          "/var/log/rabbitmq/rabbit*.log"] }
    else ReceiverMixin
  { ReceiverMixin with MultilineRules := MultilineRules }

/-- The method `LoggingReceiverRabbitmq.Components` (rabbitmq.go:86-114). -/
def Components (E : ReceiverGenerator) (ctx : E.Context) (tag : String)
    (ReceiverMixin : LoggingReceiverFilesMixin E.MixinOther) : List Component :=
  let ReceiverMixin := mixin ReceiverMixin
  let c := E.FilesMixin ReceiverMixin ctx tag
  let c := c ++ LoggingProcessorRabbitmq.Components E.toConfgenerator ctx tag "rabbitmq"
  c

end LoggingReceiverRabbitmq

namespace SystemLoggingReceiverTomcat

/-- The member `ReceiverMixin` of the receiver after the assignment of
`Components` (tomcat.go:137-143). -/
def mixin {α : Type} (ReceiverMixin : LoggingReceiverFilesMixin α) :
    LoggingReceiverFilesMixin α :=
  if ReceiverMixin.IncludePaths.length = 0 then
    { ReceiverMixin with
      IncludePaths := [
        "/opt/tomcat/logs/catalina.out",
        "/var/log/tomcat*/catalina.out",
        "/var/log/tomcat*/catalina.*.log"] }
  else ReceiverMixin

/-- The method `SystemLoggingReceiverTomcat.Components` (tomcat.go:136-147). -/
def Components (E : ReceiverGenerator) (ctx : E.Context) (tag : String)
    (ReceiverMixin : LoggingReceiverFilesMixin E.MixinOther) : List Component :=
  let ReceiverMixin := mixin ReceiverMixin
  let c := E.FilesMixin ReceiverMixin ctx tag
  let c := c ++ LoggingProcessorTomcatSystem.Components E.toConfgenerator ctx tag "tomcat_system"
  c

end SystemLoggingReceiverTomcat

namespace LoggingProcessorTomcatAccess

/-- The method `LoggingProcessorTomcatAccess.Type`. -/
def typeName : String := "tomcat_access"

/-- The method `LoggingProcessorTomcatAccess.Components` (tomcat.go:153-155). -/
def Components (E : ReceiverGenerator) (ctx : E.Context) (tag uid : String) : List Component :=
  E.genericAccessLogParser ctx typeName tag uid

end LoggingProcessorTomcatAccess

namespace AccessSystemLoggingReceiverTomcat

/-- The member `ReceiverMixin` of the receiver after the assignment of
`Components` (tomcat.go:167-172). -/
def mixin {α : Type} (ReceiverMixin : LoggingReceiverFilesMixin α) :
    LoggingReceiverFilesMixin α :=
  if ReceiverMixin.IncludePaths.length = 0 then
    { ReceiverMixin with
      IncludePaths := [
        "/opt/tomcat/logs/localhost_access_log*.txt",
        "/var/log/tomcat*/localhost_access_log*.txt"] }
  else ReceiverMixin

/-- The method `AccessSystemLoggingReceiverTomcat.Components` (tomcat.go:166-176). -/
def Components (E : ReceiverGenerator) (ctx : E.Context) (tag : String)
    (ReceiverMixin : LoggingReceiverFilesMixin E.MixinOther) : List Component :=
  let ReceiverMixin := mixin ReceiverMixin
  let c := E.FilesMixin ReceiverMixin ctx tag
  let c := c ++ LoggingProcessorTomcatAccess.Components E ctx tag "tomcat_access"
  c

end AccessSystemLoggingReceiverTomcat

namespace LoggingReceiverZookeeperGeneral

/-- The member `ReceiverMixin` of the receiver after the assignments of
`Components` (zookeeper.go:139-159). -/
def mixin {α : Type} (ReceiverMixin : LoggingReceiverFilesMixin α) :
    LoggingReceiverFilesMixin α :=
  let ReceiverMixin :=
    if ReceiverMixin.IncludePaths.length = 0 then
      { ReceiverMixin with
        IncludePaths := [
          "/opt/zookeeper/logs/zookeeper-*.out",
          "/var/log/zookeeper/zookeeper.log"] }
    else ReceiverMixin
  { ReceiverMixin with MultilineRules := MultilineRules }

/-- The method `LoggingReceiverZookeeperGeneral.Components` (zookeeper.go:138-163). -/
def Components (E : ReceiverGenerator) (ctx : E.Context) (tag : String)
    (ReceiverMixin : LoggingReceiverFilesMixin E.MixinOther) : List Component :=
  let ReceiverMixin := mixin ReceiverMixin
  let c := E.FilesMixin ReceiverMixin ctx tag
  c ++ LoggingProcessorZookeeperGeneral.Components E.toConfgenerator ctx tag "zookeeper_general"

end LoggingReceiverZookeeperGeneral

/-- A small instance of the generating code of the receivers: the file mixin
yields one `tail` input that lists the include paths. -/
def ReceiverGenerator.sample : ReceiverGenerator where
  toConfgenerator := Confgenerator.sample
  MixinOther := Unit
  FilesMixin := fun m _ tag =>
    [{ Kind := "INPUT"
       Config := [("Name", "tail"), ("Tag", tag), ("Path", String.intercalate "," m.IncludePaths)] }]
  genericAccessLogParser := fun _ processorType tag _ =>
    [{ Kind := "PARSER", Config := [("Name", processorType), ("Match", tag)] }]

/-! ## Metrics receivers -/

namespace strings

/-- The parts of a text between the occurrences of the separator `sep`; there
is always at least one part. -/
def splitChars (sep : Char) : List Char → List (List Char)
  | [] => [[]]
  | c :: cs =>
    if c = sep then [] :: splitChars sep cs
    else
      match splitChars sep cs with
      | [] => [[c]]
      | part :: parts => (c :: part) :: parts

/-- The function `strings.Split` of Go for a separator of one character. -/
def Split (s : String) (sep : Char) : List String :=
  (splitChars sep s.data).map String.mk

/-- The function `strings.TrimLeft` of Go: `s` without its leading characters
that occur in `cutset`. -/
def TrimLeft (s cutset : String) : String :=
  String.mk (s.data.dropWhile (fun c => cutset.data.contains c))

/-- The function `strings.HasPrefix` of Go. -/
def HasPrefix (s start : String) : Bool := start.data.isPrefixOf s.data

end strings

/-- A value of a receiver configuration (`interface{}` in a Go map): a string,
a boolean, a nested map or a list. -/
inductive ConfigValue
  | str (s : String)
  | bool (b : Bool)
  | map (entries : List (String × ConfigValue))
  | list (items : List ConfigValue)

namespace otel

/-- A call of a helper of package `otel`, kept as written: the function name
and its arguments. -/
inductive Term
  | call (fn : String) (args : List Term)
  | str (s : String)
  | ref (name : String)

/-- The type `otel.Component` as the receivers fill it in. -/
structure Component where
  TypeName : String
  Config : List (String × ConfigValue)

/-- The type `otel.ReceiverPipeline` as the receivers fill it in. -/
structure ReceiverPipeline where
  Receiver : Component
  Processors : List (String × List Term)

end otel

/-- The constant `defaultPostgresqlUnixEndpoint` (postgresql.go:42). -/
def defaultPostgresqlUnixEndpoint : String := "var/run/postgresql/:5432"

/-- The type `MetricsReceiverPostgresql` (postgresql.go:27-38).  The methods
`CollectionIntervalString` and `TLSConfig` of the embedded shared structures
are declared outside the adapter files and are members here; `Password` is the
secret value of the password. -/
structure MetricsReceiverPostgresql where
  CollectionIntervalString : String
  TLSConfig : Bool → ConfigValue
  Endpoint : String
  Password : String
  Username : String
  Databases : List String

namespace MetricsReceiverPostgresql

/-- The method `MetricsReceiverPostgresql.Type`. -/
def typeName : String := "postgresql"

/-- The transport and the endpoint that `Pipelines` computes from `Endpoint`
(postgresql.go:49-57); `none` when an index expression is out of range. -/
def transportAndEndpoint (Endpoint : String) : Option (String × String) :=
  let transport := "tcp"
  if Endpoint = "" then
    some ("unix", defaultPostgresqlUnixEndpoint)
  else if strings.HasPrefix Endpoint "/" then
    let endpointParts := strings.Split Endpoint '.'
    match endpointParts[0]?, endpointParts[endpointParts.length - 1]? with
    | some first, some last => some ("unix", strings.TrimLeft first "/" ++ ":" ++ last)
    | _, _ => none
  else some (transport, Endpoint)

/-- The method `MetricsReceiverPostgresql.Pipelines` (postgresql.go:48-106): the
pipelines and the error (`none` for `nil`); the whole result is `none` when an
index expression is out of range. -/
def Pipelines (r : MetricsReceiverPostgresql) :
    Option (List otel.ReceiverPipeline × Option String) :=
  match transportAndEndpoint r.Endpoint with
  | none => none
  | some (transport, endpoint) =>
    let cfg : List (String × ConfigValue) := [
      ("collection_interval", .str r.CollectionIntervalString),
      ("endpoint", .str endpoint),
      ("username", .str r.Username),
      ("password", .str r.Password),
      ("transport", .str transport),
      ("metrics", .map [
        ("postgresql.wal.delay", .map [("enabled", .bool true)]),
        ("postgresql.wal.lag", .map [("enabled", .bool false)])])]
    let cfg := if transport = "tcp" then cfg ++ [("tls", r.TLSConfig true)] else cfg
    some ([
      { Receiver :=
          { TypeName := "postgresql"
            Config := cfg }
        Processors := [("metrics", [
          .call "NormalizeSums" [],
          .call "TransformationMetrics" [
            .call "FlattenResourceAttribute" [.str "postgresql.database.name", .str "database"],
            .call "FlattenResourceAttribute" [.str "postgresql.table.name", .str "table"],
            .call "FlattenResourceAttribute" [.str "postgresql.index.name", .str "index"],
            .call "ConvertFloatToInt" [.str "postgresql.wal.delay"],
            .call "SetName" [.str "postgresql.wal.delay", .str "postgresql.wal.lag"],
            .call "SetScopeName" [.str ("agent.googleapis.com/" ++ typeName)],
            .call "SetScopeVersion" [.str "1.0"]],
          .call "MetricsTransform" [
            .call "UpdateMetric" [
              .str "postgresql.bgwriter.duration",
              .ref "ToggleScalarDataType"],
            .call "AddPrefix" [.str "workload.googleapis.com"]]])] }], none)

end MetricsReceiverPostgresql

/-- The part of a text before its first `.` (the whole text when it has no
`.`). -/
def beforeFirstDot (e : String) : String :=
  String.mk (e.data.takeWhile (· != '.'))

/-- The part of a text after its last `.` (the whole text when it has no
`.`). -/
def afterLastDot (e : String) : String :=
  String.mk (e.data.reverse.takeWhile (· != '.')).reverse

/-- The string under `key` in a receiver configuration. -/
def configString (cfg : List (String × ConfigValue)) (key : String) : Option String :=
  match cfg.lookup key with
  | some (.str s) => some s
  | _ => none

/-- A PostgreSQL metrics receiver with the given endpoint. -/
def MetricsReceiverPostgresql.sample (endpoint : String) : MetricsReceiverPostgresql :=
  { CollectionIntervalString := "60s"
    TLSConfig := fun insecure => .map [("insecure", .bool insecure)]
    Endpoint := endpoint
    Password := ""
    Username := ""
    Databases := [] }

/-! ## MongoDB metrics receiver (mongodb.go:29-95) -/

/-- The function `strings.HasSuffix` of Go. -/
def strings.HasSuffix (s suffix : String) : Bool := suffix.data.isSuffixOf s.data

/-- The type `MetricsReceiverMongoDBHosts` (mongodb.go:38-41). -/
structure MetricsReceiverMongoDBHosts where
  Endpoint : String
  Transport : String

/-- A host entry as a configuration value, under the keys of its yaml tags. -/
def MetricsReceiverMongoDBHosts.toConfig (h : MetricsReceiverMongoDBHosts) : ConfigValue :=
  .map [("endpoint", .str h.Endpoint), ("transport", .str h.Transport)]

/-- The constant `defaultMongodbEndpoint` (mongodb.go:43). -/
def defaultMongodbEndpoint : String := "localhost:27017"

/-- The type `MetricsReceiverMongoDB` (mongodb.go:29-36).  The methods
`CollectionIntervalString` and `TLSConfig` of the embedded shared structures
are declared outside the adapter files and are members here; `Password` is the
secret value of the password. -/
structure MetricsReceiverMongoDB where
  CollectionIntervalString : String
  TLSConfig : Bool → ConfigValue
  Endpoint : String
  Username : String
  Password : String

namespace MetricsReceiverMongoDB

/-- The method `MetricsReceiverMongoDB.Type`. -/
def typeName : String := "mongodb"

/-- The transport and the endpoint that `Pipelines` computes from `Endpoint`
(mongodb.go:50-55). -/
def transportAndEndpoint (Endpoint : String) : String × String :=
  let transport := "tcp"
  if Endpoint = "" then (transport, defaultMongodbEndpoint)
  else if strings.HasSuffix Endpoint ".sock" then ("unix", Endpoint)
  else (transport, Endpoint)

/-- The method `MetricsReceiverMongoDB.Pipelines` (mongodb.go:49-91): the
pipelines and the error (`none` for `nil`). -/
def Pipelines (r : MetricsReceiverMongoDB) : List otel.ReceiverPipeline × Option String :=
  match transportAndEndpoint r.Endpoint with
  | (transport, Endpoint) =>
    let hosts : List MetricsReceiverMongoDBHosts := [
      { Endpoint := Endpoint
        Transport := transport }]
    let config : List (String × ConfigValue) := [
      ("hosts", .list (hosts.map (·.toConfig))),
      ("username", .str r.Username),
      ("password", .str r.Password),
      ("collection_interval", .str r.CollectionIntervalString)]
    let config := if transport ≠ "unix" then config ++ [("tls", r.TLSConfig false)] else config
    ([{ Receiver :=
          { TypeName := typeName
            Config := config }
        Processors := [("metrics", [
          .call "NormalizeSums" [],
          .call "MetricsTransform" [
            .call "AddPrefix" [.str "workload.googleapis.com"]],
          .call "TransformationMetrics" [
            .call "SetScopeName" [.str ("agent.googleapis.com/" ++ typeName)],
            .call "SetScopeVersion" [.str "1.0"]]])] }], none)

end MetricsReceiverMongoDB

/-- A MongoDB metrics receiver with the given endpoint. -/
def MetricsReceiverMongoDB.sample (endpoint : String) : MetricsReceiverMongoDB :=
  { CollectionIntervalString := "60s"
    TLSConfig := fun insecure => .map [("insecure", .bool insecure)]
    Endpoint := endpoint
    Username := ""
    Password := "" }

/-! ## Patterns with a single way to match -/

/-- Patterns built from single characters, anchors, groups, sequences and
repetitions with an exact count: at a given position they match in one way or
not at all. -/
def Regex.linear : Regex → Bool
  | .empty => true
  | .chr _ => true
  | .any => true
  | .cls _ _ => true
  | .bol => true
  | .eol => true
  | .seq a b => a.linear && b.linear
  | .alt _ _ => false
  | .rep r min max _ => r.linear && max == some min
  | .group _ r => r.linear
  | .ncgroup r => r.linear
  | .neglook _ => false

/-- The items of a parser's pattern, in order; empty when the pattern cannot be
read. -/
def patternItems (p : RegexParser) : List Regex :=
  match Regex.parse p.Regex with
  | some re => seqItems re
  | none => []

namespace LoggingProcessorZookeeperGeneral

/-- The first sample line of the first parser (zookeeper.go:83). -/
def sampleLine1 : String :=
  "2022-01-31 17:51:45,451 [myid:1] - INFO  [NIOWorkerThread-3:NIOServerCnxn@514] - Processing mntr command from /0:0:0:0:0:0:0:1:50284"

/-- The first sample line of the second parser (zookeeper.go:105). -/
def sampleLine2 : String :=
  "2022-01-31 17:51:45,451 - INFO  [NIOWorkerThread-3:NIOServerCnxn@514] - Processing mntr command from /0:0:0:0:0:0:0:1:50284"

/-- A text of two lines: a line in the format of the second parser followed by
a line in the format of the first. -/
def twoFormats : String := sampleLine2 ++ "\n" ++ sampleLine1

end LoggingProcessorZookeeperGeneral

/-- The items that follow `^` in both ZooKeeper patterns: the group `time` and
one whitespace character. -/
def LoggingProcessorZookeeperGeneral.commonPrefix : List Regex :=
  ((patternItems LoggingProcessorZookeeperGeneral.parser2).drop 1).take 2

/-- Whether the pattern of the rule is found in the text at a position after
the start of the text. -/
def MultilineRule.acceptsLater (r : MultilineRule) (text : String) : Bool :=
  match Regex.parse r.Regex, text.data with
  | some re, c :: rest => (re.searchFrom [c] rest).isSome
  | _, _ => false

/-- Whether the text holds the start of a further record: a rule of the start
state of the receiver's rule set would accept the text at a position after its
start. -/
def LoggingReceiverZookeeperGeneral.startsLater (text : String) : Bool :=
  MultilineRules.any (fun r => r.StateName == startState && r.acceptsLater text)

namespace LoggingProcessorZookeeperGeneral

/-- The pattern inside the group `time` with which both patterns start. -/
def timestampPattern : Regex :=
  match commonPrefix with
  | .group _ r :: _ => r
  | _ => .empty

/-- The first three lines of the documented record of the first parser
(zookeeper.go:84-86). -/
def sampleRecordLines : List String :=
  [ "2022-02-01 00:46:33,626 [myid:1] - WARN  [SendWorker:2:QuorumCnxManager$SendWorker@1283] - Interrupted while waiting for message on queue",
    "java.lang.InterruptedException",
    "\tat java.base/java.util.concurrent.locks.AbstractQueuedSynchronizer$ConditionObject.reportInterruptAfterWait(AbstractQueuedSynchronizer.java:2056)" ]

/-- The documented record of three lines: the lines joined by newlines. -/
def sampleRecord : String := String.intercalate "\n" sampleRecordLines

/-- Three lines: the sample line of the second format, and the sample line of
the first format broken into two lines after its date. -/
def brokenLines : List String :=
  [ sampleLine2,
    "2022-01-31",
    "17:51:45,451 [myid:1] - INFO  [NIOWorkerThread-3:NIOServerCnxn@514] - Processing mntr command from /0:0:0:0:0:0:0:1:50284" ]

/-- The three lines joined by newlines. -/
def brokenRecord : String := String.intercalate "\n" brokenLines

end LoggingProcessorZookeeperGeneral

/-! # Theorems -/

/-! ## Severity tables (C1, C2) -/

theorem lookup_eq_none_of_not_mem (l : List (String × String)) (k : String)
    (h : k ∉ l.map Prod.fst) : l.lookup k = none := by
  induction l with
  | nil => rfl
  | cons e l ih =>
    obtain ⟨a, b⟩ := e
    simp only [List.map_cons, List.mem_cons, not_or] at h
    have hne : (k == a) = false := by simpa using h.1
    simp [List.lookup, hne, ih h.2]

theorem lookup_eq_some_of_mem (l : List (String × String)) (k v : String)
    (hnd : (l.map Prod.fst).Nodup) (h : (k, v) ∈ l) : l.lookup k = some v := by
  induction l with
  | nil => simp at h
  | cons e l ih =>
    obtain ⟨a, b⟩ := e
    simp only [List.map_cons, List.nodup_cons] at hnd
    rcases List.mem_cons.1 h with heq | hmem
    · cases heq
      simp [List.lookup]
    · have hne : (k == a) = false := by
        have : k ≠ a := by
          rintro rfl
          exact hnd.1 (List.mem_map.2 ⟨(k, v), hmem, rfl⟩)
        simpa using this
      simp [List.lookup, hne, ih hnd.2 hmem]

theorem severityOf_of_not_key (f : ModifyField) (hx : f.MapValuesExclusive = true)
    (token : String) (h : token ∉ f.MapValues.map Prod.fst) : f.severityOf token = none := by
  simp [ModifyField.severityOf, SeverityMapper.map, lookup_eq_none_of_not_mem _ _ h, hx]

theorem severityOf_of_key (f : ModifyField) (hnd : (f.MapValues.map Prod.fst).Nodup)
    (token v : String) (h : (token, v) ∈ f.MapValues) : f.severityOf token = some v := by
  simp [ModifyField.severityOf, SeverityMapper.map, lookup_eq_some_of_mem _ _ _ hnd h]

theorem adapterSeverityFields_exclusive :
    ∀ f ∈ adapterSeverityFields, f.MapValuesExclusive = true := by decide

theorem adapterSeverityFields_nodup :
    ∀ f ∈ adapterSeverityFields, (f.MapValues.map Prod.fst).Nodup := by decide

/-- C1: every severity table of the adapters (hadoop, mongodb, postgresql,
rabbitmq, tomcat_system, zookeeper_general) has `MapValuesExclusive = true`;
the severity stage gives no severity for a raw token that is not a key of the
table (the comparison is exact: "NOTICE", "warn" and " WARN" are not the key
"WARN" of the hadoop and zookeeper tables), and exactly the table's value for
a token that is a key. -/
theorem severity_exclusivity :
    (∀ f ∈ adapterSeverityFields,
      f.MapValuesExclusive = true ∧
      (∀ token : String, token ∉ f.MapValues.map Prod.fst → f.severityOf token = none) ∧
      (∀ token v : String, (token, v) ∈ f.MapValues → f.severityOf token = some v)) ∧
    (∀ token ∈ ["NOTICE", "warn", " WARN"],
      LoggingProcessorHadoop.severityField.severityOf token = none ∧
      severityParser.severityField.severityOf token = none) ∧
    LoggingProcessorHadoop.severityField.severityOf "WARN" = some "WARNING" ∧
    severityParser.severityField.severityOf "WARN" = some "WARNING" ∧
    SeverityMapper.map "NOTICE" [("WARN", "WARNING")] true = none := by
  refine ⟨fun f hf => ⟨adapterSeverityFields_exclusive f hf, ?_, ?_⟩, by decide, by decide,
    by decide, by decide⟩
  · exact fun token h => severityOf_of_not_key f (adapterSeverityFields_exclusive f hf) token h
  · exact fun token v h => severityOf_of_key f (adapterSeverityFields_nodup f hf) token v h

theorem severityOf_mem_values (f : ModifyField) (hx : f.MapValuesExclusive = true)
    (token v : String) (h : f.severityOf token = some v) : v ∈ f.MapValues.map Prod.snd := by
  unfold ModifyField.severityOf SeverityMapper.map at h
  cases hl : f.MapValues.lookup token with
  | none => simp [hl, hx] at h
  | some w =>
    simp only [hl, Option.some.injEq] at h
    subst h
    have key : ∀ l : List (String × String), l.lookup token = some w →
        w ∈ l.map Prod.snd := by
      intro l
      induction l with
      | nil => simp [List.lookup]
      | cons e l ih =>
        obtain ⟨a, b⟩ := e
        intro hl'
        cases hab : (token == a) with
        | true =>
          simp only [List.lookup, hab, Option.some.injEq] at hl'
          simp [hl']
        | false =>
          simp only [List.lookup, hab] at hl'
          simp [ih hl']
    exact key _ hl

/-- C2: in each of the six adapter severity tables every mapped value is one
of DEBUG, INFO, WARNING, ERROR, CRITICAL, FATAL, DEFAULT; hence a severity
that the severity stage of an adapter gives is a canonical level. -/
theorem severity_values_canonical :
    (∀ f ∈ adapterSeverityFields, ∀ e ∈ f.MapValues, e.2 ∈ canonicalSeverities) ∧
    (∀ f ∈ adapterSeverityFields, ∀ token v : String,
      f.severityOf token = some v → v ∈ canonicalSeverities) := by
  have tables : ∀ f ∈ adapterSeverityFields, ∀ e ∈ f.MapValues, e.2 ∈ canonicalSeverities := by
    decide
  refine ⟨tables, fun f hf token v h => ?_⟩
  have hv := severityOf_mem_values f (adapterSeverityFields_exclusive f hf) token v h
  obtain ⟨e, he, rfl⟩ := List.mem_map.1 hv
  exact tables f hf e he

/-! ## The RabbitMQ sample lines (C3) -/

set_option maxRecDepth 100000 in
/-- C3, evaluated on the code: the first sample line of the RabbitMQ processor
is matched by the first parser (and not by the second) with the token "erro"
in its `severity` group, "erro" is not a key of the RabbitMQ severity table
(the table has "error"), and the severity stage gives that record no
severity.  The second sample line is matched by the second parser with the
token "info", which the table maps to INFO. -/
theorem rabbitmq_sample_lines_severity :
    ((LoggingProcessorRabbitmq.parser1.captures LoggingProcessorRabbitmq.sampleLine1).bind
      (fun caps => caps.lookup "severity")) = some "erro" ∧
    LoggingProcessorRabbitmq.parser2.captures LoggingProcessorRabbitmq.sampleLine1 = none ∧
    "erro" ∉ LoggingProcessorRabbitmq.severityField.MapValues.map Prod.fst ∧
    LoggingProcessorRabbitmq.severityField.severityOf "erro" = none ∧
    LoggingProcessorRabbitmq.parser1.captures LoggingProcessorRabbitmq.sampleLine2 = none ∧
    ((LoggingProcessorRabbitmq.parser2.captures LoggingProcessorRabbitmq.sampleLine2).bind
      (fun caps => caps.lookup "severity")) = some "info" ∧
    LoggingProcessorRabbitmq.severityField.severityOf "info" = some "INFO" := by
  decide

/-! ## Order of the generated components (C4) -/

theorem jsonParserWithTimeKey_isSome (E : Confgenerator) (ctx : E.Context) (tag uid : String) :
    (LoggingProcessorMongodb.jsonParserWithTimeKey E ctx tag uid).isSome = true ↔
      ∃ comp, (E.ParseJson LoggingProcessorMongodb.jsonParser ctx tag uid)[2]? = some comp ∧
        comp.OrderedConfig ≠ [] := by
  unfold LoggingProcessorMongodb.jsonParserWithTimeKey
  cases h2 : (E.ParseJson LoggingProcessorMongodb.jsonParser ctx tag uid)[2]? with
  | none => simp [h2]
  | some comp =>
    cases h0 : comp.OrderedConfig with
    | nil => simp [h2, h0]
    | cons e es => simp [h2, h0]

/-- C4: for each processor with a severity table (hadoop, mongodb,
postgresql_general, rabbitmq, tomcat_system, zookeeper_general) the list that
`Components` returns is the parser, promotion and rename components followed
by exactly the components of one `LoggingProcessorModifyFields` whose fields
hold the processor's `severity` entry and the `InstrumentationSourceLabel`
entry `instrumentationSourceValue(Type())` of the same processor; nothing
follows them.  The MongoDB processor returns such a list whenever the two
index expressions of `jsonParserWithTimeKey` are in range. -/
theorem severity_mapping_is_final_stage (E : Confgenerator) (ctx : E.Context)
    (tag uid : String) :
    SeverityStageLast E ctx tag uid "hadoop" LoggingProcessorHadoop.severityField
      (E.ParseRegex LoggingProcessorHadoop.regexParser ctx tag uid)
      (LoggingProcessorHadoop.Components E ctx tag uid) ∧
    (∀ c, LoggingProcessorMongodb.Components E ctx tag uid = some c →
      ∃ json, LoggingProcessorMongodb.jsonParserWithTimeKey E ctx tag uid = some json ∧
        SeverityStageLast E ctx tag uid "mongodb" LoggingProcessorMongodb.severityField
          (json ++ LoggingProcessorMongodb.promoteWiredTiger tag uid ++
            LoggingProcessorMongodb.renames tag uid ++
            LoggingProcessorMongodb.RegexLogComponents E tag uid) c) ∧
    ((LoggingProcessorMongodb.Components E ctx tag uid).isSome = true ↔
      ∃ comp, (E.ParseJson LoggingProcessorMongodb.jsonParser ctx tag uid)[2]? = some comp ∧
        comp.OrderedConfig ≠ []) ∧
    SeverityStageLast E ctx tag uid "postgresql_general" LoggingProcessorPostgresql.severityField
      (E.ParseMultilineRegex LoggingProcessorPostgresql.multilineRegex ctx tag uid)
      (LoggingProcessorPostgresql.Components E ctx tag uid) ∧
    SeverityStageLast E ctx tag uid "rabbitmq" LoggingProcessorRabbitmq.severityField
      (E.ParseRegexComplex LoggingProcessorRabbitmq.complexRegex ctx tag uid)
      (LoggingProcessorRabbitmq.Components E ctx tag uid) ∧
    SeverityStageLast E ctx tag uid "tomcat_system" LoggingProcessorTomcatSystem.severityField
      (E.ParseMultilineRegex LoggingProcessorTomcatSystem.multilineRegex ctx tag uid)
      (LoggingProcessorTomcatSystem.Components E ctx tag uid) ∧
    SeverityStageLast E ctx tag uid "zookeeper_general" severityParser.severityField
      (E.ParseRegexComplex LoggingProcessorZookeeperGeneral.complexRegex ctx tag uid)
      (LoggingProcessorZookeeperGeneral.Components E ctx tag uid) := by
  refine ⟨?_, ?_, ?_, ?_, ?_, ?_, ?_⟩
  · exact ⟨LoggingProcessorHadoop.severityMapping E, rfl, by
      simp [LoggingProcessorHadoop.severityMapping], by
      simp [LoggingProcessorHadoop.severityMapping, LoggingProcessorHadoop.typeName]⟩
  · intro c hc
    unfold LoggingProcessorMongodb.Components LoggingProcessorMongodb.JsonLogComponents at hc
    cases hj : LoggingProcessorMongodb.jsonParserWithTimeKey E ctx tag uid with
    | none => simp [hj] at hc
    | some json =>
      simp only [hj, Option.some.injEq] at hc
      refine ⟨json, rfl, LoggingProcessorMongodb.severityMapping E, ?_, ?_, ?_⟩
      · rw [← hc]
        simp [LoggingProcessorMongodb.severityParser]
      · simp [LoggingProcessorMongodb.severityMapping]
      · simp [LoggingProcessorMongodb.severityMapping, LoggingProcessorMongodb.typeName]
  · rw [← jsonParserWithTimeKey_isSome]
    unfold LoggingProcessorMongodb.Components LoggingProcessorMongodb.JsonLogComponents
    cases hj : LoggingProcessorMongodb.jsonParserWithTimeKey E ctx tag uid <;> simp
  · exact ⟨LoggingProcessorPostgresql.severityMapping E, rfl, by
      simp [LoggingProcessorPostgresql.severityMapping], by
      simp [LoggingProcessorPostgresql.severityMapping, LoggingProcessorPostgresql.typeName]⟩
  · exact ⟨LoggingProcessorRabbitmq.severityMapping E, rfl, by
      simp [LoggingProcessorRabbitmq.severityMapping], by
      simp [LoggingProcessorRabbitmq.severityMapping, LoggingProcessorRabbitmq.typeName]⟩
  · exact ⟨LoggingProcessorTomcatSystem.severityMapping E, rfl, by
      simp [LoggingProcessorTomcatSystem.severityMapping], by
      simp [LoggingProcessorTomcatSystem.severityMapping, LoggingProcessorTomcatSystem.typeName]⟩
  · exact ⟨severityParser.mapping E LoggingProcessorZookeeperGeneral.typeName, by
      simp [LoggingProcessorZookeeperGeneral.Components, severityParser], by
      simp [severityParser.mapping], by
      simp [severityParser.mapping, LoggingProcessorZookeeperGeneral.typeName]⟩

/-- The MongoDB processor returns a component list in the sample instance of
the generating code, and that list ends with the severity stage. -/
theorem severity_mapping_is_final_stage_witness :
    (LoggingProcessorMongodb.Components Confgenerator.sample () "t" "u").isSome = true ∧
    SeverityStageLast Confgenerator.sample () "t" "u" "hadoop"
      LoggingProcessorHadoop.severityField
      (Confgenerator.sample.ParseRegex LoggingProcessorHadoop.regexParser () "t" "u")
      (LoggingProcessorHadoop.Components Confgenerator.sample () "t" "u") :=
  ⟨by decide, (severity_mapping_is_final_stage Confgenerator.sample () "t" "u").1⟩

/-! ## The multiline rule sets (C5) -/

theorem nextState_eq_of_forall (rules : List MultilineRule) (target : String)
    (h : ∀ r ∈ rules, r.NextState = target) (state line s : String)
    (hs : nextState rules state line = some s) : s = target := by
  unfold nextState firing at hs
  cases hf : rules.find? (fun r => r.StateName == state && r.accepts line) with
  | none => simp [hf] at hs
  | some r =>
    simp only [hf, Option.map_some', Option.some.injEq] at hs
    rw [← hs]
    exact h r (List.mem_of_find?_eq_some hf)

theorem foldl_advance_eq (rules : List MultilineRule) (target : String)
    (h : ∀ r ∈ rules, r.NextState = target) (lines : List String) :
    lines.foldl (advance rules) target = target := by
  induction lines with
  | nil => rfl
  | cons line lines ih =>
    have hstep : advance rules target line = target := by
      unfold advance
      cases hn : nextState rules target line with
      | none => rfl
      | some s => exact nextState_eq_of_forall rules target h target line s hn
    simp [List.foldl_cons, hstep, ih]

/-- C5: each of the five multiline rule sets (hadoop, postgresql, rabbitmq,
tomcat_system, zookeeper_general) consists of exactly two rules, one from
`start_state` to `cont` and one from `cont` to `cont`; so the state after a
line accepted in `start_state` is `cont`, every transition from `cont` leads
to `cont`, and from `cont` the machine stays in `cont` on every sequence of
lines. -/
theorem multiline_rule_sets_two_rules :
    ∀ rules ∈ adapterRuleSets,
      rules.map (fun r => (r.StateName, r.NextState)) =
        [("start_state", "cont"), ("cont", "cont")] ∧
      (∀ line s : String, nextState rules "start_state" line = some s → s = "cont") ∧
      (∀ line s : String, nextState rules "cont" line = some s → s = "cont") ∧
      (∀ lines : List String, lines.foldl (advance rules) "cont" = "cont") := by
  intro rules hmem
  have hshape : rules.map (fun r => (r.StateName, r.NextState)) =
      [("start_state", "cont"), ("cont", "cont")] := by
    revert rules
    decide
  have hnext : ∀ r ∈ rules, r.NextState = "cont" := by
    revert rules
    decide
  exact ⟨hshape, fun line s => nextState_eq_of_forall rules "cont" hnext _ line s,
    fun line s => nextState_eq_of_forall rules "cont" hnext _ line s,
    foldl_advance_eq rules "cont" hnext⟩

set_option maxRecDepth 100000 in
/-- The hadoop rule set is one of the five; on the sample line of hadoop.go:75
its start rule fires and leads to `cont`. -/
theorem multiline_rule_sets_two_rules_witness :
    LoggingReceiverHadoop.MultilineRules ∈ adapterRuleSets ∧
    nextState LoggingReceiverHadoop.MultilineRules "start_state"
      "2022-02-01 18:09:47,136 INFO org.apache.hadoop.hdfs.server.namenode.FSEditLog: Edit logging is async:true"
      = some "cont" ∧
    (LoggingReceiverHadoop.MultilineRules.map (fun r => (r.StateName, r.NextState)) =
        [("start_state", "cont"), ("cont", "cont")] ∧
      (∀ line s : String,
        nextState LoggingReceiverHadoop.MultilineRules "start_state" line = some s → s = "cont") ∧
      (∀ line s : String,
        nextState LoggingReceiverHadoop.MultilineRules "cont" line = some s → s = "cont") ∧
      (∀ lines : List String,
        lines.foldl (advance LoggingReceiverHadoop.MultilineRules) "cont" = "cont")) :=
  ⟨by decide, by decide, multiline_rule_sets_two_rules _ (by decide)⟩

/-! ## Start and continuation patterns are complementary (C6) -/

theorem orElse_isSome (a : Outcome) (b : Unit → Outcome) :
    (orElse a b).isSome = (a.isSome || (b ()).isSome) := by
  cases a <;> simp [orElse]

theorem orElse_none_right (a : Outcome) : orElse a (fun _ => none) = a := by
  cases a <;> rfl

theorem step_isSome_congr (p : Char → Bool) (cu : Cursor) (cs : Caps) (k1 k2 : Cont)
    (h : ∀ cu' cs', (k1 cu' cs').isSome = (k2 cu' cs').isSome) :
    (cu.step p cs k1).isSome = (cu.step p cs k2).isSome := by
  unfold Cursor.step
  cases cu.rest with
  | nil => rfl
  | cons c rest =>
    by_cases hp : p c = true
    · simp [hp, h]
    · simp [hp]

theorem repMin_isSome_congr (body : Cursor → Caps → Cont → Outcome)
    (hb : ∀ cu cs (k1 k2 : Cont), (∀ cu' cs', (k1 cu' cs').isSome = (k2 cu' cs').isSome) →
      (body cu cs k1).isSome = (body cu cs k2).isSome) :
    ∀ (n : Nat) (cu : Cursor) (cs : Caps) (k1 k2 : Cont),
      (∀ cu' cs', (k1 cu' cs').isSome = (k2 cu' cs').isSome) →
      (repMin body n cu cs k1).isSome = (repMin body n cu cs k2).isSome
  | 0, cu, cs, _, _, h => h cu cs
  | n + 1, cu, cs, k1, k2, h =>
    hb cu cs _ _ (fun cu' cs' => repMin_isSome_congr body hb n cu' cs' k1 k2 h)

theorem repMore_isSome_congr (body : Cursor → Caps → Cont → Outcome) (greedy : Bool)
    (hb : ∀ cu cs (k1 k2 : Cont), (∀ cu' cs', (k1 cu' cs').isSome = (k2 cu' cs').isSome) →
      (body cu cs k1).isSome = (body cu cs k2).isSome) :
    ∀ (fuel : Nat) (more : Option Nat) (cu : Cursor) (cs : Caps) (k1 k2 : Cont),
      (∀ cu' cs', (k1 cu' cs').isSome = (k2 cu' cs').isSome) →
      (repMore body greedy fuel more cu cs k1).isSome =
        (repMore body greedy fuel more cu cs k2).isSome
  | 0, _, cu, cs, _, _, h => h cu cs
  | fuel + 1, more, cu, cs, k1, k2, h => by
    have inner : (body cu cs (fun cu' cs' =>
          if cu'.rest.length < cu.rest.length then
            repMore body greedy fuel (more.map (· - 1)) cu' cs' k1
          else k1 cu' cs')).isSome =
        (body cu cs (fun cu' cs' =>
          if cu'.rest.length < cu.rest.length then
            repMore body greedy fuel (more.map (· - 1)) cu' cs' k2
          else k2 cu' cs')).isSome := by
      apply hb
      intro cu' cs'
      by_cases hlt : cu'.rest.length < cu.rest.length
      · simp only [hlt, if_true]
        exact repMore_isSome_congr body greedy hb fuel _ cu' cs' k1 k2 h
      · simp only [hlt, if_false]
        exact h cu' cs'
    unfold repMore
    by_cases hm : more = some 0
    · simp only [hm, if_true]
      exact h cu cs
    · cases greedy <;> simp [hm, orElse_isSome, inner, h cu cs]

theorem run_isSome_congr (r : Regex) :
    ∀ (cu : Cursor) (cs : Caps) (k1 k2 : Cont),
      (∀ cu' cs', (k1 cu' cs').isSome = (k2 cu' cs').isSome) →
      (r.run cu cs k1).isSome = (r.run cu cs k2).isSome := by
  induction r with
  | empty => intro cu cs k1 k2 h; exact h cu cs
  | chr x => intro cu cs k1 k2 h; exact step_isSome_congr _ cu cs k1 k2 h
  | any => intro cu cs k1 k2 h; exact step_isSome_congr _ cu cs k1 k2 h
  | cls negated items => intro cu cs k1 k2 h; exact step_isSome_congr _ cu cs k1 k2 h
  | bol =>
    intro cu cs k1 k2 h
    simp only [Regex.run]
    by_cases hb : cu.atBol = true <;> simp [hb, h cu cs]
  | eol =>
    intro cu cs k1 k2 h
    simp only [Regex.run]
    by_cases hb : cu.atEol = true <;> simp [hb, h cu cs]
  | seq a b iha ihb =>
    intro cu cs k1 k2 h
    simp only [Regex.run]
    exact iha cu cs _ _ (fun cu' cs' => ihb cu' cs' k1 k2 h)
  | alt a b iha ihb =>
    intro cu cs k1 k2 h
    simp only [Regex.run, orElse_isSome, iha cu cs k1 k2 h, ihb cu cs k1 k2 h]
  | rep r min max greedy ih =>
    intro cu cs k1 k2 h
    simp only [Regex.run]
    exact repMin_isSome_congr r.run ih min cu cs _ _
      (fun cu' cs' => repMore_isSome_congr r.run greedy ih _ _ cu' cs' k1 k2 h)
  | group name r ih =>
    intro cu cs k1 k2 h
    simp only [Regex.run]
    exact ih cu cs _ _ (fun cu' cs' => h cu' _)
  | ncgroup r ih =>
    intro cu cs k1 k2 h
    simp only [Regex.run]
    exact ih cu cs k1 k2 h
  | neglook r _ =>
    intro cu cs k1 k2 h
    simp only [Regex.run]
    cases r.run cu cs (fun cu' cs' => some (cu', cs')) with
    | none => exact h cu cs
    | some _ => rfl

theorem seqOf_cons_run (a : Regex) (l : List Regex) (cu : Cursor) (cs : Caps) (k : Cont) :
    (seqOf (a :: l)).run cu cs k = a.run cu cs (fun cu' cs' => (seqOf l).run cu' cs' k) := by
  cases l with
  | nil => rfl
  | cons b l => rfl

theorem seqOf_append_run (xs ys : List Regex) :
    ∀ (cu : Cursor) (cs : Caps) (k : Cont),
      (seqOf (xs ++ ys)).run cu cs k =
        (seqOf xs).run cu cs (fun cu' cs' => (seqOf ys).run cu' cs' k) := by
  induction xs with
  | nil => intro cu cs k; rfl
  | cons a xs ih =>
    intro cu cs k
    rw [List.cons_append, seqOf_cons_run, seqOf_cons_run]
    congr 1
    funext cu' cs'
    exact ih cu' cs' k

/-- A pattern that starts with `^` does not match behind a character that is
not a newline. -/
theorem bol_run_none (l : List Regex) (p : Char) (pre rest : List Char) (hp : p ≠ '\n')
    (cs : Caps) (k : Cont) : (seqOf (.bol :: l)).run ⟨p :: pre, rest⟩ cs k = none := by
  rw [seqOf_cons_run]
  have : (Cursor.mk (p :: pre) rest).atBol = false := by
    simp [Cursor.atBol, hp]
  simp [Regex.run, this]

theorem bol_searchFrom_none (l : List Regex) :
    ∀ (rest : List Char) (p : Char) (pre : List Char), p ≠ '\n' → (∀ c ∈ rest, c ≠ '\n') →
      (seqOf (.bol :: l)).searchFrom (p :: pre) rest = none := by
  intro rest
  induction rest with
  | nil =>
    intro p pre hp _
    simp only [Regex.searchFrom]
    exact bol_run_none l p pre [] hp [] accept
  | cons c rest ih =>
    intro p pre hp hrest
    simp only [Regex.searchFrom]
    rw [bol_run_none l p pre (c :: rest) hp [] accept]
    simp only [orElse]
    exact ih c (p :: pre) (hrest c (List.mem_cons_self _ _))
      (fun d hd => hrest d (List.mem_cons_of_mem _ hd))

/-- On a single line a pattern that starts with `^` is matched at the start of
the line or not at all. -/
theorem bol_searchFrom (l : List Regex) (line : List Char) (hl : ∀ c ∈ line, c ≠ '\n') :
    (seqOf (.bol :: l)).searchFrom [] line = (seqOf l).run ⟨[], line⟩ [] accept := by
  have hrun : ∀ rest, (seqOf (.bol :: l)).run ⟨[], rest⟩ [] accept =
      (seqOf l).run ⟨[], rest⟩ [] accept := by
    intro rest
    rw [seqOf_cons_run]
    simp [Regex.run, Cursor.atBol]
  cases line with
  | nil => simp only [Regex.searchFrom]; exact hrun []
  | cons c rest =>
    simp only [Regex.searchFrom]
    rw [hrun, bol_searchFrom_none l rest c [] (hl c (List.mem_cons_self _ _))
      (fun d hd => hl d (List.mem_cons_of_mem _ hd))]
    cases (seqOf l).run ⟨[], c :: rest⟩ [] accept <;> rfl

theorem star_any_isSome (cu : Cursor) (cs : Caps) :
    ((Regex.rep .any 0 none true).run cu cs accept).isSome = true := by
  simp [Regex.run, repMin, repMore, orElse_isSome, accept]


theorem tail_isSome (tail : List Regex) (h : tail = [] ∨ tail = [.rep .any 0 none true])
    (cu : Cursor) (cs : Caps) : ((seqOf tail).run cu cs accept).isSome = true := by
  rcases h with rfl | rfl
  · rfl
  · exact star_any_isSome cu cs

/-- On a single line the continuation pattern of a negative-lookahead pair
matches exactly when the start pattern does not. -/
theorem lookahead_pair_complement (startRule contRule : MultilineRule)
    (h : NegativeLookaheadPair startRule.Regex contRule.Regex) (line : String)
    (hl : '\n' ∉ line.data) : contRule.accepts line = !startRule.accepts line := by
  obtain ⟨xs, tail, hs, hc, ht⟩ := h
  have hl' : ∀ c ∈ line.data, c ≠ '\n' := fun c hc' heq => hl (heq ▸ hc')
  have hstart : startRule.accepts line =
      ((seqOf xs).run ⟨[], line.data⟩ [] accept).isSome := by
    simp only [MultilineRule.accepts, hs, Regex.isMatch, Regex.search, Option.isSome_map']
    rw [bol_searchFrom _ _ hl', seqOf_append_run]
    exact run_isSome_congr (seqOf xs) _ _ _ _ (fun cu' cs' => tail_isSome tail ht cu' cs')
  have hcont : contRule.accepts line =
      !((seqOf xs).run ⟨[], line.data⟩ [] accept).isSome := by
    simp only [MultilineRule.accepts, hc, Regex.isMatch, Regex.search, Option.isSome_map']
    rw [bol_searchFrom _ _ hl', seqOf_cons_run]
    simp only [Regex.run]
    have hacc : (fun (cu' : Cursor) (cs' : Caps) => some (cu', cs')) = accept := rfl
    rw [hacc]
    cases (seqOf xs).run ⟨[], line.data⟩ [] accept with
    | none => simpa using tail_isSome tail ht ⟨[], line.data⟩ []
    | some _ => rfl
  rw [hstart, hcont]

theorem adapterRuleSets_pairs :
    ∀ rules ∈ adapterRuleSets, ∃ startRule contRule : MultilineRule,
      rules = [startRule, contRule] ∧
      startRule.StateName = "start_state" ∧ contRule.StateName = "cont" ∧
      contRule.NextState = "cont" ∧
      NegativeLookaheadPair startRule.Regex contRule.Regex := by
  intro rules hmem
  simp only [adapterRuleSets, List.mem_cons, List.mem_singleton, List.not_mem_nil,
    or_false] at hmem
  rcases hmem with rfl | rfl | rfl | rfl | rfl
  · exact ⟨_, _, rfl, rfl, rfl, rfl,
      lookaheadItems (r"^(?!\d+-\d+-\d+ \d+:\d+:\d+,\d+).*"), [.rep .any 0 none true],
      by decide, by decide, Or.inr rfl⟩
  · exact ⟨_, _, rfl, rfl, rfl, rfl,
      lookaheadItems (r"^(?!\d{4}-\d{2}-\d{2} \d{2}:\d{2}:\d{2}.\d{3,} \w+)"), [],
      by decide, by decide, Or.inl rfl⟩
  · exact ⟨_, _, rfl, rfl, rfl, rfl,
      lookaheadItems (r"^(?!\d+-\d+-\d+ \d+:\d+:\d+\.\d+\+\d+:\d+)"), [],
      by decide, by decide, Or.inl rfl⟩
  · exact ⟨_, _, rfl, rfl, rfl, rfl,
      lookaheadItems (r"^(?!\d{2}-[A-Z]{1}[a-z]{2}-\d{4}\s\d{2}:\d{2}:\d{2}.\d{3})"), [],
      by decide, by decide, Or.inl rfl⟩
  · exact ⟨_, _, rfl, rfl, rfl, rfl,
      lookaheadItems (r"^(?!\d{4}-\d{2}-\d{2}\s\d{2}:\d{2}:\d{2},\d{3})"), [],
      by decide, by decide, Or.inl rfl⟩

/-- C6: in each of the five multiline rule sets the pattern of the `cont` rule
is the anchored negative lookahead of the pattern of the `start_state` rule
(with the same trailing `.*` in hadoop).  Hence on every single line (a
string without a newline) the `cont` rule accepts exactly when the
`start_state` rule does not, and in state `cont` a line that does not look
like a record start keeps the machine in `cont`. -/
theorem cont_rule_is_negation_of_start_rule :
    ∀ rules ∈ adapterRuleSets, ∃ startRule contRule : MultilineRule,
      rules = [startRule, contRule] ∧
      NegativeLookaheadPair startRule.Regex contRule.Regex ∧
      ∀ line : String, '\n' ∉ line.data →
        contRule.accepts line = (!startRule.accepts line) ∧
        (startRule.accepts line = false → nextState rules "cont" line = some "cont") := by
  intro rules hmem
  obtain ⟨startRule, contRule, rfl, hsn, hcn, hcx, hpair⟩ := adapterRuleSets_pairs rules hmem
  refine ⟨startRule, contRule, rfl, hpair, fun line hl => ?_⟩
  have hcomp := lookahead_pair_complement startRule contRule hpair line hl
  refine ⟨hcomp, fun hs => ?_⟩
  have hca : contRule.accepts line = true := by rw [hcomp, hs]; rfl
  simp [nextState, firing, List.find?, hsn, hcn, hca, hcx]

set_option maxRecDepth 100000 in
/-- The PostgreSQL rule set on two single lines: a record start is accepted by
the start rule only, a continuation line by the `cont` rule only. -/
theorem cont_rule_is_negation_of_start_rule_witness :
    LoggingProcessorPostgresql.Rules ∈ adapterRuleSets ∧
    LoggingProcessorPostgresql.Rules.map
      (fun r => (r.accepts LoggingProcessorPostgresql.sampleLine, r.accepts "   from pg_database"))
      = [(true, false), (false, true)] ∧
    (∃ startRule contRule : MultilineRule,
      LoggingProcessorPostgresql.Rules = [startRule, contRule] ∧
      NegativeLookaheadPair startRule.Regex contRule.Regex ∧
      ∀ line : String, '\n' ∉ line.data →
        contRule.accepts line = (!startRule.accepts line) ∧
        (startRule.accepts line = false →
          nextState LoggingProcessorPostgresql.Rules "cont" line = some "cont")) :=
  ⟨by decide, by decide, cont_rule_is_negation_of_start_rule _ (by decide)⟩

/-! ## Multiline grouping and flush at the end of input (C7) -/

theorem intercalate_go_eq_foldl (sep : String) :
    ∀ (ls : List String) (acc : String),
      String.intercalate.go acc sep ls = ls.foldl (fun t l => t ++ sep ++ l) acc := by
  intro ls
  induction ls with
  | nil => intro acc; rfl
  | cons l ls ih => intro acc; simp [String.intercalate.go, ih]

theorem feed_cont (start cont : String) (restart : Bool) (text line : String)
    (h : (MultilineRule.mk "start_state" "cont" start).accepts line = false) :
    Aggregator.feed (ruleSetOf start cont) restart ⟨"cont", some text⟩ line =
      (⟨"cont", some (text ++ "\n" ++ line)⟩, none) := by
  have h1 : ("start_state" == "cont") = false := by decide
  have h2 : ("cont" == "start_state") = false := by decide
  have h3 : ("start_state" == "start_state") = true := by decide
  have h4 : ("cont" == "cont") = true := by decide
  have hstart : firing (ruleSetOf start cont) startState line = none := by
    simp [firing, ruleSetOf, startState, List.find?, h, h2, h3]
  cases hc : (MultilineRule.mk "cont" "cont" cont).accepts line with
  | true =>
    have hf : firing (ruleSetOf start cont) "cont" line =
        some (MultilineRule.mk "cont" "cont" cont) := by
      simp [firing, ruleSetOf, List.find?, h1, h4, hc]
    simp [Aggregator.feed, hf, startState, h2, Aggregator.append]
  | false =>
    have hf : firing (ruleSetOf start cont) "cont" line = none := by
      simp [firing, ruleSetOf, List.find?, h1, h4, hc]
    cases restart <;> simp [Aggregator.feed, hf, hstart, Aggregator.append]

theorem feedAll_cont (start cont : String) (restart : Bool) :
    ∀ (rest : List String) (text : String),
      (∀ l ∈ rest, (MultilineRule.mk "start_state" "cont" start).accepts l = false) →
      Aggregator.feedAll (ruleSetOf start cont) restart ⟨"cont", some text⟩ rest =
        (⟨"cont", some (rest.foldl (fun t l => t ++ "\n" ++ l) text)⟩, []) := by
  intro rest
  induction rest with
  | nil => intro text _; rfl
  | cons l rest ih =>
    intro text h
    have hl := h l (List.mem_cons_self _ _)
    have hr := ih (text ++ "\n" ++ l) (fun m hm => h m (List.mem_cons_of_mem _ hm))
    simp [Aggregator.feedAll, feed_cont start cont restart text l hl, hr]

theorem feed_begin (start cont : String) (restart : Bool) (line : String)
    (h : (MultilineRule.mk "start_state" "cont" start).accepts line = true) :
    Aggregator.feed (ruleSetOf start cont) restart Aggregator.init line =
      (⟨"cont", some line⟩, none) := by
  have h3 : ("start_state" == "start_state") = true := by decide
  have hf : firing (ruleSetOf start cont) "start_state" line =
      some (MultilineRule.mk "start_state" "cont" start) := by
    simp [firing, ruleSetOf, List.find?, h, h3]
  simp [Aggregator.feed, Aggregator.init, hf, startState]

/-- C7: for every rule set of the shape that the adapters configure
(`start_state` to `cont` on a begin pattern, `cont` to `cont` on a second
pattern, in particular the negation of the first), and under either reading
of how a later record begins, the aggregator run from the start state with
an empty buffer on one line that the begin pattern accepts followed by any
number of lines that it does not accept completes no record before the end of
input and then emits exactly one record: all the lines joined by newlines in
their original order. -/
theorem multiline_grouping_and_flush (start cont : String) (restart : Bool) (first : String)
    (rest : List String)
    (hfirst : (MultilineRule.mk "start_state" "cont" start).accepts first = true)
    (hrest : ∀ l ∈ rest, (MultilineRule.mk "start_state" "cont" start).accepts l = false) :
    (Aggregator.feedAll (ruleSetOf start cont) restart Aggregator.init (first :: rest)).2 = [] ∧
    Aggregator.run (ruleSetOf start cont) restart (first :: rest) =
      [String.intercalate "\n" (first :: rest)] := by
  have hall : Aggregator.feedAll (ruleSetOf start cont) restart Aggregator.init (first :: rest) =
      (⟨"cont", some (rest.foldl (fun t l => t ++ "\n" ++ l) first)⟩, []) := by
    simp [Aggregator.feedAll, feed_begin start cont restart first hfirst,
      feedAll_cont start cont restart rest first hrest]
  refine ⟨by rw [hall], ?_⟩
  simp [Aggregator.run, hall, String.intercalate, intercalate_go_eq_foldl]

set_option maxRecDepth 100000 in
/-- The instance of the spec: the lines "2024-01-01 00:00:00 INFO hello" and
"  continuation" under a rule set whose begin pattern is a timestamp give the
single record of the two lines joined by a newline; the five rule sets of the
adapters have the shape of the theorem, and under each of them the two lines
(whose first line none of their begin patterns accepts) also come out as that
single record. -/
theorem multiline_grouping_and_flush_witness :
    adapterRuleSets.all (fun rules =>
      match rules with
      | [s, c] => decide (rules = ruleSetOf s.Regex c.Regex)
      | _ => false) = true ∧
    (Aggregator.feedAll
      (ruleSetOf (r"^\d{4}-\d{2}-\d{2} \d{2}:\d{2}:\d{2}") (r"^(?!\d{4}-\d{2}-\d{2} \d{2}:\d{2}:\d{2})"))
      true Aggregator.init ["2024-01-01 00:00:00 INFO hello", "  continuation"]).2 = [] ∧
    Aggregator.run
      (ruleSetOf (r"^\d{4}-\d{2}-\d{2} \d{2}:\d{2}:\d{2}") (r"^(?!\d{4}-\d{2}-\d{2} \d{2}:\d{2}:\d{2})"))
      true ["2024-01-01 00:00:00 INFO hello", "  continuation"] =
      ["2024-01-01 00:00:00 INFO hello\n  continuation"] ∧
    adapterRuleSets.all (fun rules =>
      [true, false].all (fun restart =>
        Aggregator.run rules restart ["2024-01-01 00:00:00 INFO hello", "  continuation"] ==
          ["2024-01-01 00:00:00 INFO hello\n  continuation"])) = true :=
  ⟨by decide,
    (multiline_grouping_and_flush _ _ true "2024-01-01 00:00:00 INFO hello" ["  continuation"]
      (by decide) (by decide)).1,
    (multiline_grouping_and_flush _ _ true "2024-01-01 00:00:00 INFO hello" ["  continuation"]
      (by decide) (by decide)).2.trans (by decide),
    by decide⟩

/-! ## First match wins and the unparsed fallback (C8, C9) -/

/-- C8: the PostgreSQL parser list is `[parser1, parser2]` in the authored
order (`parser1` has `[tid]` before `user@database`, `parser2` is the SLES12
format), and for every raw text that `parser1` matches, `extract` returns the
record built from the named captures of `parser1`, whatever `parser2` does
with the same text. -/
theorem postgresql_first_match_wins (strptime : String → String → Option Int)
    (rawText : String) (caps : Caps)
    (h : LoggingProcessorPostgresql.parser1.captures rawText = some caps) :
    LoggingProcessorPostgresql.multilineRegex.LoggingProcessorParseRegexComplex.Parsers =
      [LoggingProcessorPostgresql.parser1, LoggingProcessorPostgresql.parser2] ∧
    extract strptime rawText
        LoggingProcessorPostgresql.multilineRegex.LoggingProcessorParseRegexComplex.Parsers =
      LoggingProcessorPostgresql.parser1.toRecord strptime caps := by
  refine ⟨rfl, ?_⟩
  simp [LoggingProcessorPostgresql.multilineRegex, extract, h]

set_option maxRecDepth 100000 in
/-- The sample line of postgresql.go:129, which has no user and database, is
matched by both parsers; `extract` gives the record of the first one. -/
theorem postgresql_first_match_wins_witness :
    LoggingProcessorPostgresql.parser1.captures LoggingProcessorPostgresql.sampleLine =
      some [
        ("message", "starting PostgreSQL 14.1 (Debian 14.1-1.pgdg100+1) on x86_64-pc-linux-gnu, compiled by gcc (Debian 8.3.0-6) 8.3.0, 64-bit"),
        ("level", "LOG"),
        ("tid", "26241"),
        ("time", "2022-01-12 20:57:58.378 UTC")] ∧
    (LoggingProcessorPostgresql.parser2.captures LoggingProcessorPostgresql.sampleLine).isSome
      = true ∧
    extract (fun _ _ => none) LoggingProcessorPostgresql.sampleLine
        LoggingProcessorPostgresql.multilineRegex.LoggingProcessorParseRegexComplex.Parsers =
      LoggingProcessorPostgresql.parser1.toRecord (fun _ _ => none) [
        ("message", "starting PostgreSQL 14.1 (Debian 14.1-1.pgdg100+1) on x86_64-pc-linux-gnu, compiled by gcc (Debian 8.3.0-6) 8.3.0, 64-bit"),
        ("level", "LOG"),
        ("tid", "26241"),
        ("time", "2022-01-12 20:57:58.378 UTC")] ∧
    (LoggingProcessorPostgresql.parser1.toRecord (fun _ _ => none) [
        ("message", "starting PostgreSQL 14.1 (Debian 14.1-1.pgdg100+1) on x86_64-pc-linux-gnu, compiled by gcc (Debian 8.3.0-6) 8.3.0, 64-bit"),
        ("level", "LOG"),
        ("tid", "26241"),
        ("time", "2022-01-12 20:57:58.378 UTC")]).fields =
      [ ("time", Value.str "2022-01-12 20:57:58.378 UTC"),
        ("tid", Value.int 26241),
        ("level", Value.str "LOG"),
        ("message", Value.str "starting PostgreSQL 14.1 (Debian 14.1-1.pgdg100+1) on x86_64-pc-linux-gnu, compiled by gcc (Debian 8.3.0-6) 8.3.0, 64-bit")] :=
  ⟨by decide, by decide,
    (postgresql_first_match_wins (fun _ _ => none) LoggingProcessorPostgresql.sampleLine _
      (by decide)).2,
    by rfl⟩

/-- C9: for every parser list and every raw text that none of its parsers
matches, `extract` returns a record whose only field is `message`, equal to
the raw text, with the unparsed marker set and no time. -/
theorem unparsed_fallback (strptime : String → String → Option Int) (rawText : String)
    (parsers : List RegexParser) (h : ∀ p ∈ parsers, p.captures rawText = none) :
    (extract strptime rawText parsers).fields = [("message", Value.str rawText)] ∧
    (extract strptime rawText parsers).unparsed = true ∧
    (extract strptime rawText parsers).time = none := by
  induction parsers with
  | nil => exact ⟨rfl, rfl, rfl⟩
  | cons p ps ih =>
    have hp := h p (List.mem_cons_self _ _)
    simp only [extract, hp]
    exact ih (fun q hq => h q (List.mem_cons_of_mem _ hq))

set_option maxRecDepth 100000 in
/-- The stack-trace line "java.lang.InterruptedException" is matched by none
of the two ZooKeeper parsers and "BOOT FAILED" by none of the two RabbitMQ
parsers; both come out as unparsed records that hold the raw text. -/
theorem unparsed_fallback_witness :
    ((extract (fun _ _ => none) "java.lang.InterruptedException"
        LoggingProcessorZookeeperGeneral.complexRegex.Parsers).fields =
      [("message", Value.str "java.lang.InterruptedException")] ∧
     (extract (fun _ _ => none) "java.lang.InterruptedException"
        LoggingProcessorZookeeperGeneral.complexRegex.Parsers).unparsed = true ∧
     (extract (fun _ _ => none) "java.lang.InterruptedException"
        LoggingProcessorZookeeperGeneral.complexRegex.Parsers).time = none) ∧
    ((extract (fun _ _ => none) "BOOT FAILED"
        LoggingProcessorRabbitmq.complexRegex.Parsers).fields =
      [("message", Value.str "BOOT FAILED")] ∧
     (extract (fun _ _ => none) "BOOT FAILED"
        LoggingProcessorRabbitmq.complexRegex.Parsers).unparsed = true ∧
     (extract (fun _ _ => none) "BOOT FAILED"
        LoggingProcessorRabbitmq.complexRegex.Parsers).time = none) :=
  ⟨unparsed_fallback _ "java.lang.InterruptedException"
      LoggingProcessorZookeeperGeneral.complexRegex.Parsers (by decide),
    unparsed_fallback _ "BOOT FAILED" LoggingProcessorRabbitmq.complexRegex.Parsers (by decide)⟩

/-! ## Promotion of the MongoDB timestamp (C10) -/

theorem liftTs_apply (tag : String) (r : Record) :
    (LoggingProcessorMongodb.liftTs tag).apply r = nestLift "t" "temp_ts_" r := by
  simp [Component.apply, LoggingProcessorMongodb.liftTs, List.lookup]

theorem renameTs_parameters :
    splitParameters "temp_ts_$date time" = ("temp_ts_$date", "time") := by
  decide

theorem renameTs_apply (tag : String) (r : Record) :
    (LoggingProcessorMongodb.renameTs tag).apply r = hardRename "temp_ts_$date" "time" r := by
  simp [Component.apply, LoggingProcessorMongodb.renameTs, modify.ModifyOptions.Component,
    modify.NewHardRenameOptions, List.lookup, applyModifyRule, renameTs_parameters]

/-- In a record with distinct field names a name has one value. -/
theorem value_unique (r : Record) (hnd : r.keys.Nodup) (k : String) (a b : Value)
    (ha : (k, a) ∈ r) (hb : (k, b) ∈ r) : a = b := by
  induction r with
  | nil => simp at ha
  | cons e r ih =>
    simp only [Record.keys, List.map_cons, List.nodup_cons] at hnd
    rcases List.mem_cons.1 ha with ha | ha <;> rcases List.mem_cons.1 hb with hb | hb
    · rw [← ha] at hb
      exact (Prod.mk.inj hb).2.symm
    · exact absurd (List.mem_map.2 ⟨(k, b), hb, by rw [← ha]⟩) hnd.1
    · exact absurd (List.mem_map.2 ⟨(k, a), ha, by rw [← hb]⟩) hnd.1
    · exact ih hnd.2 ha hb

theorem flatMap_lift (k addPrefix : String) (children : List (String × Value)) :
    ∀ r : Record, r.keys.Nodup → (k, Value.nested children) ∈ r →
      r.flatMap (fun f =>
        if f.1 == k then
          match f.2 with
          | .nested cs => cs.map (fun c => (addPrefix ++ c.1, c.2))
          | _ => []
        else []) = children.map (fun c => (addPrefix ++ c.1, c.2)) := by
  intro r
  induction r with
  | nil => intro _ h; simp at h
  | cons e r ih =>
    intro hnd hm
    have hnd' := hnd
    simp only [Record.keys, List.map_cons, List.nodup_cons] at hnd'
    have hnone : ∀ r' : Record, k ∉ r'.map Prod.fst →
        r'.flatMap (fun f =>
          if f.1 == k then
            match f.2 with
            | .nested cs => cs.map (fun c => (addPrefix ++ c.1, c.2))
            | _ => []
          else []) = [] := by
      intro r' hk
      rw [List.flatMap_eq_nil_iff]
      intro f hf
      have : f.1 ≠ k := fun heq => hk (List.mem_map.2 ⟨f, hf, heq⟩)
      simp [this]
    rcases List.mem_cons.1 hm with heq | hmem
    · subst heq
      rw [List.flatMap_cons, hnone r hnd'.1]
      simp
    · have hk : e.1 ≠ k := by
        intro heq
        exact hnd'.1 (List.mem_map.2 ⟨(k, Value.nested children), hmem, heq.symm⟩)
      simp only [List.flatMap_cons, beq_iff_eq, hk, if_false, List.nil_append]
      have := ih hnd'.2 hmem
      simpa using this

theorem nestLift_eq (k addPrefix : String) (children : List (String × Value)) (r : Record)
    (hnd : r.keys.Nodup) (hm : (k, Value.nested children) ∈ r) :
    nestLift k addPrefix r =
      r.filter (fun f => f.1 != k) ++ children.map (fun c => (addPrefix ++ c.1, c.2)) := by
  unfold nestLift
  rw [flatMap_lift k addPrefix children r hnd hm]
  congr 1
  apply List.filter_congr
  intro f hf
  by_cases hk : f.1 = k
  · have hv : f.2 = Value.nested children :=
      value_unique r hnd k f.2 (Value.nested children) (by rw [← hk]; exact hf) hm
    simp [hk, hv, Value.isRec]
  · have hb : (f.1 == k) = false := by simpa using hk
    simp [hb, bne]

theorem lookup_append (k : String) (l1 l2 : Record) :
    (l1 ++ l2).lookup k = (l1.lookup k).orElse (fun _ => l2.lookup k) := by
  induction l1 with
  | nil => rfl
  | cons e l1 ih =>
    obtain ⟨a, b⟩ := e
    cases hab : (k == a) <;> simp [List.lookup, hab, ih]

theorem lookup_filter_key (p : String → Bool) (k : String) (hp : p k = true) :
    ∀ l : Record, (l.filter (fun f => p f.1)).lookup k = l.lookup k := by
  intro l
  induction l with
  | nil => rfl
  | cons e l ih =>
    obtain ⟨a, b⟩ := e
    cases hab : (k == a) with
    | true =>
      have : a = k := by simpa using (beq_iff_eq.1 hab).symm
      subst this
      simp [List.filter_cons, hp, List.lookup]
    | false =>
      by_cases hpa : p a = true
      · simp [List.filter_cons, hpa, List.lookup, hab, ih]
      · simp [List.filter_cons, hpa, List.lookup, hab, ih]

theorem lookup_eq_none_of_not_key (k : String) (l : Record) (h : k ∉ l.keys) :
    l.lookup k = none := by
  induction l with
  | nil => rfl
  | cons e l ih =>
    obtain ⟨a, b⟩ := e
    simp only [Record.keys, List.map_cons, List.mem_cons, not_or] at h
    have hne : (k == a) = false := by simpa using h.1
    simp [List.lookup, hne, ih h.2]

theorem promoteTimestamp_eq (tag : String) (r : Record) (v : Value)
    (hnd : r.keys.Nodup) (ht : ("t", Value.nested [("$date", v)]) ∈ r)
    (hpre : ∀ k ∈ r.keys, hasPrefix "temp_ts_" k = false) :
    promoteTimestamp tag r =
      (r.filter (fun f => f.1 != "t")).filter (fun f => f.1 != "time") ++ [("time", v)] := by
  unfold promoteTimestamp
  rw [liftTs_apply, renameTs_apply, nestLift_eq "t" "temp_ts_" [("$date", v)] r hnd ht]
  have hsrc : ∀ f ∈ r, (f.1 == "temp_ts_$date") = false := by
    intro f hf
    have hk := hpre f.1 (List.mem_map.2 ⟨f, hf, rfl⟩)
    cases hb : (f.1 == "temp_ts_$date") with
    | false => rfl
    | true =>
      rw [beq_iff_eq.1 hb] at hk
      exact absurd hk (by decide)
  have hlit : "temp_ts_" ++ "$date" = "temp_ts_$date" := by decide
  have hne : ("temp_ts_$date" != "time") = true := by decide
  have heq : ("temp_ts_$date" == "temp_ts_$date") = true := by decide
  have hany : (r.filter (fun f => f.1 != "t") ++ [("temp_ts_$date", v)]).any
      (fun f => f.1 == "temp_ts_$date") = true := by
    simp
  simp only [List.map_cons, List.map_nil, hlit]
  have hid : ∀ l : Record, (∀ f ∈ l, (f.1 == "temp_ts_$date") = false) →
      l.map (fun f => if f.1 == "temp_ts_$date" then ("time", f.2) else f) = l := by
    intro l
    induction l with
    | nil => intro _; rfl
    | cons e l ih =>
      intro h
      rw [List.map_cons, ih (fun f hf => h f (List.mem_cons_of_mem _ hf)),
        h e (List.mem_cons_self _ _)]
      rfl
  have hkept : ∀ f ∈ (r.filter (fun f => f.1 != "t")).filter (fun f => f.1 != "time"),
      (f.1 == "temp_ts_$date") = false :=
    fun f hf => hsrc f (List.mem_filter.1 (List.mem_filter.1 hf).1).1
  unfold hardRename
  rw [if_pos hany, List.filter_append, List.map_append, hid _ hkept]
  simp [List.filter_cons, hne, heq]

/-- C10 as amended: for every record with distinct field names that has no
top-level field whose name begins with "temp_ts_" and whose field `t` is a
nested record with the single key `$date`, the two promotion filters of
`jsonParserWithTimeKey` (lift of `t` with the prefix "temp_ts_", then hard
rename of "temp_ts_$date" to "time") give a record whose `time` is the old
`t.$date`, whose other top-level fields are unchanged, which has no field `t`
and no field whose name begins with "temp_ts_". -/
theorem promote_timestamp_round_trip (tag : String) (r : Record) (v : Value)
    (hnd : r.keys.Nodup) (ht : ("t", Value.nested [("$date", v)]) ∈ r)
    (hpre : ∀ k ∈ r.keys, hasPrefix "temp_ts_" k = false) :
    (promoteTimestamp tag r).lookup "time" = some v ∧
    (∀ k : String, k ≠ "time" → k ≠ "t" →
      (promoteTimestamp tag r).lookup k = r.lookup k) ∧
    "t" ∉ (promoteTimestamp tag r).keys ∧
    (∀ k ∈ (promoteTimestamp tag r).keys, hasPrefix "temp_ts_" k = false) ∧
    (promoteTimestamp tag r).keys.Nodup := by
  rw [promoteTimestamp_eq tag r v hnd ht hpre]
  have hkeys : ∀ k ∈ Record.keys ((r.filter (fun f => f.1 != "t")).filter
      (fun f => f.1 != "time")), k ∈ r.keys ∧ k ≠ "t" ∧ k ≠ "time" := by
    intro k hk
    obtain ⟨f, hf, rfl⟩ := List.mem_map.1 hk
    have h1 := List.mem_filter.1 hf
    have h2 := List.mem_filter.1 h1.1
    exact ⟨List.mem_map.2 ⟨f, h2.1, rfl⟩, by simpa using h2.2, by simpa using h1.2⟩
  refine ⟨?_, ?_, ?_, ?_, ?_⟩
  · rw [lookup_append, lookup_eq_none_of_not_key "time" _ (fun h => (hkeys _ h).2.2 rfl)]
    simp [List.lookup]
  · intro k hk1 hk2
    have hb : (k == "time") = false := by simpa using hk1
    rw [lookup_append,
      lookup_filter_key (fun n => n != "time") k (by simpa using hk1),
      lookup_filter_key (fun n => n != "t") k (by simpa using hk2)]
    cases r.lookup k <;> simp [List.lookup, hb]
  · intro h
    simp only [Record.keys, List.map_append, List.mem_append, List.map_cons, List.map_nil,
      List.mem_singleton] at h
    rcases h with h | h
    · exact (hkeys _ h).2.1 rfl
    · exact absurd h (by decide)
  · intro k h
    simp only [Record.keys, List.map_append, List.mem_append, List.map_cons, List.map_nil,
      List.mem_singleton] at h
    rcases h with h | h
    · exact hpre k (hkeys _ h).1
    · subst h
      decide
  · simp only [Record.keys, List.map_append, List.map_cons, List.map_nil]
    rw [List.nodup_append]
    refine ⟨?_, List.nodup_singleton _, ?_⟩
    · have hsub : List.Sublist (((r.filter (fun f => f.1 != "t")).filter
          (fun f => f.1 != "time")).map (fun f => f.1)) (r.map (fun f => f.1)) :=
        List.Sublist.map _ ((List.filter_sublist _).trans (List.filter_sublist _))
      exact hsub.nodup hnd
    · intro a ha hb
      simp only [List.mem_singleton] at hb
      subst hb
      exact (hkeys _ ha).2.2 rfl

/-- The instance of the spec: the record with `t = {"$date": ...}` and
`message = "x"` becomes the record with that `time` and `message = "x"`. -/
theorem promote_timestamp_round_trip_witness :
    promoteTimestamp "tag"
        [("t", Value.nested [("$date", Value.str "2024-01-01T00:00:00.000Z")]),
          ("message", Value.str "x")] =
      [("message", Value.str "x"), ("time", Value.str "2024-01-01T00:00:00.000Z")] ∧
    ((promoteTimestamp "tag"
        [("t", Value.nested [("$date", Value.str "2024-01-01T00:00:00.000Z")]),
          ("message", Value.str "x")]).lookup "time" =
        some (Value.str "2024-01-01T00:00:00.000Z") ∧
      (∀ k : String, k ≠ "time" → k ≠ "t" →
        (promoteTimestamp "tag"
          [("t", Value.nested [("$date", Value.str "2024-01-01T00:00:00.000Z")]),
            ("message", Value.str "x")]).lookup k =
          List.lookup k [("t", Value.nested [("$date", Value.str "2024-01-01T00:00:00.000Z")]),
            ("message", Value.str "x")]) ∧
      "t" ∉ (promoteTimestamp "tag"
        [("t", Value.nested [("$date", Value.str "2024-01-01T00:00:00.000Z")]),
          ("message", Value.str "x")]).keys ∧
      (∀ k ∈ (promoteTimestamp "tag"
        [("t", Value.nested [("$date", Value.str "2024-01-01T00:00:00.000Z")]),
          ("message", Value.str "x")]).keys, hasPrefix "temp_ts_" k = false) ∧
      (promoteTimestamp "tag"
        [("t", Value.nested [("$date", Value.str "2024-01-01T00:00:00.000Z")]),
          ("message", Value.str "x")]).keys.Nodup) :=
  ⟨by rfl,
    promote_timestamp_round_trip "tag"
      [("t", Value.nested [("$date", Value.str "2024-01-01T00:00:00.000Z")]),
        ("message", Value.str "x")]
      (Value.str "2024-01-01T00:00:00.000Z") (by decide) (List.mem_cons_self _ _) (by decide)⟩

/-- C10 as stated fails: a record that already has a top-level field whose
name begins with "temp_ts_" keeps that field through the two promotion
filters, although its field `t` is a nested record with the single key
`$date`. -/
theorem promote_timestamp_keeps_temp_key :
    ("t", Value.nested [("$date", Value.str "2024-01-01T00:00:00.000Z")]) ∈
      ([("t", Value.nested [("$date", Value.str "2024-01-01T00:00:00.000Z")]),
        ("temp_ts_note", Value.str "kept")] : Record) ∧
    (Record.keys [("t", Value.nested [("$date", Value.str "2024-01-01T00:00:00.000Z")]),
        ("temp_ts_note", Value.str "kept")]).Nodup ∧
    promoteTimestamp "tag"
        [("t", Value.nested [("$date", Value.str "2024-01-01T00:00:00.000Z")]),
          ("temp_ts_note", Value.str "kept")] =
      [("temp_ts_note", Value.str "kept"), ("time", Value.str "2024-01-01T00:00:00.000Z")] ∧
    ¬ (∀ k ∈ (promoteTimestamp "tag"
        [("t", Value.nested [("$date", Value.str "2024-01-01T00:00:00.000Z")]),
          ("temp_ts_note", Value.str "kept")]).keys, hasPrefix "temp_ts_" k = false) := by
  refine ⟨List.mem_cons_self _ _, by decide, by rfl, ?_⟩
  intro h
  exact absurd (h "temp_ts_note" (by decide)) (by decide)

/-! ## Promotion of the WiredTiger attributes (C11) -/

theorem promoteWiredTigerRecord_eq (tag uid : String) (r : Record) :
    promoteWiredTigerRecord tag uid r =
      nestUnder "temp_attributes_" "attributes" "temp_attributes_"
        (hardRename "temp_attributes_message" "msg" (nestLift "attr" "temp_attributes_" r)) := by
  have hsplit : splitParameters "temp_attributes_message msg" =
      ("temp_attributes_message", "msg") := by decide
  have hwild : String.mk (List.takeWhile (fun c => c != '*') "temp_attributes_*".data) =
      "temp_attributes_" := by decide
  have h1 : ∀ x : Record, (Component.mk "FILTER" [("Name", "nest"), ("Match", tag),
      ("Operation", "lift"), ("Nested_under", "attr"), ("Add_prefix", "temp_attributes_")]
      []).apply x = nestLift "attr" "temp_attributes_" x := by
    intro x
    simp [Component.apply, List.lookup]
  have h2 : ∀ x : Record,
      ((modify.NewHardRenameOptions ("temp_attributes_" ++ "message") "msg").Component tag).apply x
        = hardRename "temp_attributes_message" "msg" x := by
    intro x
    simp [Component.apply, modify.ModifyOptions.Component, modify.NewHardRenameOptions,
      List.lookup, applyModifyRule, hsplit]
  have h3 : ∀ x : Record, (Component.mk "FILTER" [("Name", "nest"),
      ("Wildcard", "temp_attributes_" ++ "*"), ("Match", tag), ("Operation", "nest"),
      ("Nest_under", "attributes"), ("Remove_prefix", "temp_attributes_")] []).apply x =
        nestUnder "temp_attributes_" "attributes" "temp_attributes_" x := by
    intro x
    simp [Component.apply, List.lookup, hwild]
  show ((Component.mk "FILTER" [("Name", "nest"),
      ("Wildcard", "temp_attributes_" ++ "*"), ("Match", tag), ("Operation", "nest"),
      ("Nest_under", "attributes"), ("Remove_prefix", "temp_attributes_")] []).apply
    (((modify.NewHardRenameOptions ("temp_attributes_" ++ "message") "msg").Component tag).apply
      ((Component.mk "FILTER" [("Name", "nest"), ("Match", tag),
      ("Operation", "lift"), ("Nested_under", "attr"), ("Add_prefix", "temp_attributes_")]
      []).apply r))) = _
  rw [h1, h2, h3]

theorem hasPrefix_append (p s : String) : hasPrefix p (p ++ s) = true := by
  simp [hasPrefix, String.data_append]

theorem append_left_inj (p a b : String) : p ++ a = p ++ b ↔ a = b := by
  constructor
  · intro h
    have hd := congrArg String.data h
    simp only [String.data_append, List.append_cancel_left_eq] at hd
    exact String.ext hd
  · intro h
    rw [h]

theorem strip_prefix_append (p s : String) :
    String.mk ((p ++ s).data.drop p.length) = s := by
  apply String.ext
  show List.drop p.data.length (p ++ s).data = s.data
  rw [String.data_append]
  exact List.drop_left _ _

/-- The last filter of the promotion leaves no top-level name that begins
with its wildcard prefix. -/
theorem nestUnder_keys (w n rp : String) (hn : hasPrefix w n = false) (r : Record) :
    ∀ k ∈ Record.keys (nestUnder w n rp r), hasPrefix w k = false := by
  intro k hk
  unfold nestUnder at hk
  by_cases hc : (r.filter (fun f => hasPrefix w f.1)).isEmpty = true
  · simp only [hc, if_true] at hk
    obtain ⟨f, hf, rfl⟩ := List.mem_map.1 hk
    have hnil : r.filter (fun f => hasPrefix w f.1) = [] := List.isEmpty_iff.1 hc
    have := List.filter_eq_nil_iff.1 hnil f hf
    simpa using this
  · have hc' : (r.filter (fun f => hasPrefix w f.1)).isEmpty = false := by simpa using hc
    simp only [hc', Bool.false_eq_true, if_false] at hk
    simp only [Record.keys, List.map_append, List.mem_append, List.map_cons, List.map_nil,
      List.mem_singleton] at hk
    rcases hk with hk | hk
    · obtain ⟨f, hf, rfl⟩ := List.mem_map.1 hk
      have := (List.mem_filter.1 hf).2
      simpa using this
    · rw [hk]; exact hn

theorem mem_of_lookup_eq_some (k : String) (v : Value) :
    ∀ l : Record, l.lookup k = some v → (k, v) ∈ l := by
  intro l
  induction l with
  | nil => intro h; simp [List.lookup] at h
  | cons e l ih =>
    obtain ⟨a, b⟩ := e
    intro h
    cases hab : (k == a) with
    | true =>
      simp only [List.lookup, hab, Option.some.injEq] at h
      have : k = a := beq_iff_eq.1 hab
      rw [this, h]
      exact List.mem_cons_self _ _
    | false =>
      simp only [List.lookup, hab] at h
      exact List.mem_cons_of_mem _ (ih h)

/-- The children of the first field `k`, when it is a nested record, are the
first fields that the lift brings to the top level. -/
theorem flatMap_lift_of_lookup (k addPrefix : String) (children : List (String × Value)) :
    ∀ r : Record, r.lookup k = some (Value.nested children) →
      ∃ rest : Record,
        r.flatMap (fun f =>
          if f.1 == k then
            match f.2 with
            | .nested cs => cs.map (fun c => (addPrefix ++ c.1, c.2))
            | _ => []
          else []) = children.map (fun c => (addPrefix ++ c.1, c.2)) ++ rest ∧
        ∀ f ∈ rest, hasPrefix addPrefix f.1 = true := by
  have hall : ∀ r : Record, ∀ f ∈ r.flatMap (fun f =>
      if f.1 == k then
        match f.2 with
        | .nested cs => cs.map (fun c => (addPrefix ++ c.1, c.2))
        | _ => []
      else []), hasPrefix addPrefix f.1 = true := by
    intro r f hf
    obtain ⟨e, _, he⟩ := List.mem_flatMap.1 hf
    by_cases hk : (e.1 == k) = true
    · simp only [hk, if_true] at he
      cases hv : e.2 with
      | nested cs =>
        simp only [hv] at he
        obtain ⟨c, _, rfl⟩ := List.mem_map.1 he
        exact hasPrefix_append _ _
      | str s' => simp [hv] at he
      | int n' => simp [hv] at he
    · simp [hk] at he
  intro r
  induction r with
  | nil => intro h; simp [List.lookup] at h
  | cons e r ih =>
    obtain ⟨a, b⟩ := e
    intro h
    cases hab : (k == a) with
    | true =>
      simp only [List.lookup, hab, Option.some.injEq] at h
      have hka : k = a := beq_iff_eq.1 hab
      subst hka
      subst h
      refine ⟨_, ?_, hall r⟩
      simp [List.flatMap_cons]
    | false =>
      simp only [List.lookup, hab] at h
      obtain ⟨rest, hrest, hp⟩ := ih h
      have hak : (a == k) = false := by
        cases hx : (a == k) with
        | false => rfl
        | true =>
          have h1 : a = k := beq_iff_eq.1 hx
          rw [h1] at hab
          simp at hab
      refine ⟨rest, ?_, hp⟩
      rw [List.flatMap_cons]
      simp only [hak]
      simpa using hrest

theorem lifted_ne_msg (n : String) : ("temp_attributes_" ++ n != "msg") = true := by
  cases hb : ("temp_attributes_" ++ n == "msg") with
  | false => simp [bne, hb]
  | true =>
    have h1 := hasPrefix_append "temp_attributes_" n
    rw [beq_iff_eq.1 hb] at h1
    exact absurd h1 (by decide)

theorem lifted_eq_message (n : String) :
    ("temp_attributes_" ++ n == "temp_attributes_message") = ("message" == n) := by
  have hlit : "temp_attributes_message" = "temp_attributes_" ++ "message" := by decide
  rw [hlit]
  cases hb : ("message" == n) with
  | true =>
    rw [← beq_iff_eq.1 hb]
    exact beq_self_eq_true _
  | false =>
    cases hc : ("temp_attributes_" ++ n == "temp_attributes_" ++ "message") with
    | false => rfl
    | true =>
      have := (append_left_inj _ _ _).1 (beq_iff_eq.1 hc)
      rw [this] at hb
      simp at hb

/-- After the hard rename the first lifted `message` is the value of `msg`
among the lifted children. -/
theorem lookup_msg_lifted (children : List (String × Value)) :
    (((children.map (fun c => ("temp_attributes_" ++ c.1, c.2))).filter
        (fun f => f.1 != "msg")).map
        (fun f => if f.1 == "temp_attributes_message" then ("msg", f.2) else f)).lookup "msg" =
      children.lookup "message" := by
  induction children with
  | nil => rfl
  | cons c cs ih =>
    obtain ⟨n, x⟩ := c
    simp only [List.map_cons, List.filter_cons, lifted_ne_msg, if_true, lifted_eq_message]
    cases hb : ("message" == n) with
    | true => simp [List.lookup, hb]
    | false =>
      have hne : ("msg" == "temp_attributes_" ++ n) = false := by
        have := lifted_ne_msg n
        cases hx : ("msg" == "temp_attributes_" ++ n) with
        | false => rfl
        | true =>
          rw [← beq_iff_eq.1 hx] at this
          simp at this
      simp only [Bool.false_eq_true, if_false, List.lookup, hne, hb]
      exact ih

theorem lookup_msg_after_rename (r : Record) (children : List (String × Value)) (v : Value)
    (hpre : ∀ k ∈ r.keys, hasPrefix "temp_attributes_" k = false)
    (hattr : r.lookup "attr" = some (Value.nested children))
    (hmsg : children.lookup "message" = some v) :
    (hardRename "temp_attributes_message" "msg"
      (nestLift "attr" "temp_attributes_" r)).lookup "msg" = some v := by
  obtain ⟨rest, hrest, _⟩ := flatMap_lift_of_lookup "attr" "temp_attributes_" children r hattr
  have hmem : ("message", v) ∈ children := mem_of_lookup_eq_some _ _ _ hmsg
  unfold nestLift
  rw [hrest]
  have hany : ((r.filter (fun f => !(f.1 == "attr" && f.2.isRec))) ++
      (children.map (fun c => ("temp_attributes_" ++ c.1, c.2)) ++ rest)).any
      (fun f => f.1 == "temp_attributes_message") = true := by
    rw [List.any_eq_true]
    have hlit : ("temp_attributes_" ++ "message" == "temp_attributes_message") = true := by
      decide
    refine ⟨("temp_attributes_" ++ "message", v), ?_, hlit⟩
    exact List.mem_append_right _ (List.mem_append_left _
      (List.mem_map.2 ⟨("message", v), hmem, rfl⟩))
  unfold hardRename
  rw [if_pos hany]
  simp only [List.filter_append, List.map_append, lookup_append]
  have hfirst : (((r.filter (fun f => !(f.1 == "attr" && f.2.isRec))).filter
      (fun f => f.1 != "msg")).map
      (fun f => if f.1 == "temp_attributes_message" then ("msg", f.2) else f)).lookup "msg"
      = none := by
    apply lookup_eq_none_of_not_key
    intro hk
    obtain ⟨g, hg, hg1⟩ := List.mem_map.1 hk
    obtain ⟨f, hf, rfl⟩ := List.mem_map.1 hg
    have hf1 := List.mem_filter.1 hf
    have hf2 := List.mem_filter.1 hf1.1
    have hnp := hpre f.1 (List.mem_map.2 ⟨f, hf2.1, rfl⟩)
    have hne : (f.1 == "temp_attributes_message") = false := by
      cases hx : (f.1 == "temp_attributes_message") with
      | false => rfl
      | true =>
        rw [beq_iff_eq.1 hx] at hnp
        exact absurd hnp (by decide)
    simp only [hne, Bool.false_eq_true, if_false] at hg1
    have := hf1.2
    rw [hg1] at this
    simp at this
  rw [hfirst, lookup_msg_lifted, hmsg]
  rfl

theorem lookup_nestUnder (w n rp k : String) (hk : hasPrefix w k = false)
    (hkn : k ≠ n) (r : Record) : (nestUnder w n rp r).lookup k = r.lookup k := by
  unfold nestUnder
  by_cases hc : (r.filter (fun f => hasPrefix w f.1)).isEmpty = true
  · simp only [hc, if_true]
  · have hc' : (r.filter (fun f => hasPrefix w f.1)).isEmpty = false := by simpa using hc
    simp only [hc', Bool.false_eq_true, if_false]
    have hb : (k == n) = false := by simpa using hkn
    rw [lookup_append, lookup_filter_key (fun name => !hasPrefix w name) k (by simp [hk])]
    cases r.lookup k <;> simp [List.lookup, hb]

theorem mem_attributes_after_nest (r : Record) (children : List (String × Value))
    (name : String) (value : Value)
    (hattr : ("attr", Value.nested children) ∈ r) (hmem : (name, value) ∈ children)
    (hname : name ≠ "message") :
    ∃ fields, ("attributes", Value.nested fields) ∈
        nestUnder "temp_attributes_" "attributes" "temp_attributes_"
          (hardRename "temp_attributes_message" "msg" (nestLift "attr" "temp_attributes_" r)) ∧
      (name, value) ∈ fields := by
  have h1 : ("temp_attributes_" ++ name, value) ∈ nestLift "attr" "temp_attributes_" r := by
    unfold nestLift
    apply List.mem_append_right
    rw [List.mem_flatMap]
    refine ⟨("attr", Value.nested children), hattr, ?_⟩
    simp only [beq_self_eq_true, if_true]
    exact List.mem_map.2 ⟨(name, value), hmem, rfl⟩
  have hnm : ("temp_attributes_" ++ name == "temp_attributes_message") = false := by
    rw [lifted_eq_message]
    cases hx : ("message" == name) with
    | false => rfl
    | true => exact absurd (beq_iff_eq.1 hx).symm hname
  have h2 : ("temp_attributes_" ++ name, value) ∈
      hardRename "temp_attributes_message" "msg" (nestLift "attr" "temp_attributes_" r) := by
    unfold hardRename
    by_cases hany : (nestLift "attr" "temp_attributes_" r).any
        (fun f => f.1 == "temp_attributes_message") = true
    · rw [if_pos hany]
      refine List.mem_map.2 ⟨("temp_attributes_" ++ name, value), ?_, ?_⟩
      · exact List.mem_filter.2 ⟨h1, lifted_ne_msg name⟩
      · simp only [hnm, Bool.false_eq_true, if_false]
    · rw [if_neg hany]
      exact h1
  have h3 : ("temp_attributes_" ++ name, value) ∈
      (hardRename "temp_attributes_message" "msg"
        (nestLift "attr" "temp_attributes_" r)).filter
        (fun f => hasPrefix "temp_attributes_" f.1) :=
    List.mem_filter.2 ⟨h2, hasPrefix_append _ _⟩
  have hne : ((hardRename "temp_attributes_message" "msg"
        (nestLift "attr" "temp_attributes_" r)).filter
        (fun f => hasPrefix "temp_attributes_" f.1)).isEmpty = false := by
    cases hx : ((hardRename "temp_attributes_message" "msg"
        (nestLift "attr" "temp_attributes_" r)).filter
        (fun f => hasPrefix "temp_attributes_" f.1)) with
    | nil => rw [hx] at h3; simp at h3
    | cons a l => rfl
  unfold nestUnder
  simp only [hne, Bool.false_eq_true, if_false]
  refine ⟨_, List.mem_append_right _ (List.mem_singleton.2 rfl), ?_⟩
  refine List.mem_map.2 ⟨("temp_attributes_" ++ name, value), h3, ?_⟩
  simp only [hasPrefix_append, if_true, strip_prefix_append]

/-- C11: for every record that has no top-level key beginning with
"temp_attributes_", the three filters of `promoteWiredTiger` (lift of `attr`
with the prefix "temp_attributes_", hard rename of "temp_attributes_message"
to "msg", nest of every "temp_attributes_*" key under "attributes" with the
prefix removed) leave no top-level key beginning with "temp_attributes_"; if
`attr.message` existed its value is the top-level `msg`, and every other
field of `attr` is in the record under `attributes` with its original name
and value. -/
theorem wiredTiger_promotion_leaves_no_temporaries (tag uid : String) (r : Record)
    (hpre : ∀ k ∈ r.keys, hasPrefix "temp_attributes_" k = false) :
    (∀ k ∈ (promoteWiredTigerRecord tag uid r).keys,
      hasPrefix "temp_attributes_" k = false) ∧
    (∀ (children : List (String × Value)) (v : Value),
      r.lookup "attr" = some (Value.nested children) →
      children.lookup "message" = some v →
      (promoteWiredTigerRecord tag uid r).lookup "msg" = some v) ∧
    (∀ (children : List (String × Value)) (name : String) (value : Value),
      r.lookup "attr" = some (Value.nested children) →
      (name, value) ∈ children → name ≠ "message" →
      ∃ fields, ("attributes", Value.nested fields) ∈ promoteWiredTigerRecord tag uid r ∧
        (name, value) ∈ fields) := by
  rw [promoteWiredTigerRecord_eq]
  refine ⟨nestUnder_keys _ _ _ (by decide) _, ?_, ?_⟩
  · intro children v hattr hmsg
    rw [lookup_nestUnder _ _ _ "msg" (by decide) (by decide)]
    exact lookup_msg_after_rename r children v hpre hattr hmsg
  · intro children name value hattr hmem hname
    exact mem_attributes_after_nest r children name value
      (mem_of_lookup_eq_some _ _ _ hattr) hmem hname

/-- A WiredTiger record: `attr.message` becomes `msg` (replacing the old
`msg`) and the other attribute goes under `attributes`. -/
theorem wiredTiger_promotion_leaves_no_temporaries_witness :
    promoteWiredTigerRecord "tag" "uid"
        [("attr", Value.nested [("message", Value.str "m"), ("session", Value.int 7)]),
          ("msg", Value.str "WiredTiger message")] =
      [("msg", Value.str "m"), ("attributes", Value.nested [("session", Value.int 7)])] ∧
    ((∀ k ∈ (promoteWiredTigerRecord "tag" "uid"
        [("attr", Value.nested [("message", Value.str "m"), ("session", Value.int 7)]),
          ("msg", Value.str "WiredTiger message")]).keys,
      hasPrefix "temp_attributes_" k = false) ∧
    (∀ (children : List (String × Value)) (v : Value),
      List.lookup "attr"
        [("attr", Value.nested [("message", Value.str "m"), ("session", Value.int 7)]),
          ("msg", Value.str "WiredTiger message")] = some (Value.nested children) →
      children.lookup "message" = some v →
      (promoteWiredTigerRecord "tag" "uid"
        [("attr", Value.nested [("message", Value.str "m"), ("session", Value.int 7)]),
          ("msg", Value.str "WiredTiger message")]).lookup "msg" = some v) ∧
    (∀ (children : List (String × Value)) (name : String) (value : Value),
      List.lookup "attr"
        [("attr", Value.nested [("message", Value.str "m"), ("session", Value.int 7)]),
          ("msg", Value.str "WiredTiger message")] = some (Value.nested children) →
      (name, value) ∈ children → name ≠ "message" →
      ∃ fields, ("attributes", Value.nested fields) ∈ promoteWiredTigerRecord "tag" "uid"
        [("attr", Value.nested [("message", Value.str "m"), ("session", Value.int 7)]),
          ("msg", Value.str "WiredTiger message")] ∧
        (name, value) ∈ fields)) :=
  ⟨by rfl,
    wiredTiger_promotion_leaves_no_temporaries "tag" "uid"
      [("attr", Value.nested [("message", Value.str "m"), ("session", Value.int 7)]),
        ("msg", Value.str "WiredTiger message")] (by decide)⟩

/-! ## Idempotence of the MongoDB rename step (C12) -/

theorem renames_applyAll (tag uid : String) (r : Record) :
    applyAll (LoggingProcessorMongodb.renames tag uid) r =
      softRename "msg" "message" (softRename "ctx" "context" (softRename "c" "component" r)) := by
  have h1 : splitParameters "c component" = ("c", "component") := by decide
  have h2 : splitParameters "ctx context" = ("ctx", "context") := by decide
  have h3 : splitParameters "msg message" = ("msg", "message") := by decide
  have happly : ∀ (s d : String) (x : Record),
      splitParameters (s ++ " " ++ d) = (s, d) →
      ((modify.NewRenameOptions s d).Component tag).apply x = softRename s d x := by
    intro s d x hsd
    simp [Component.apply, modify.ModifyOptions.Component, modify.NewRenameOptions,
      List.lookup, applyModifyRule, hsd]
  show ((modify.NewRenameOptions "msg" "message").Component tag).apply
    (((modify.NewRenameOptions "ctx" "context").Component tag).apply
      (((modify.NewRenameOptions "c" "component").Component tag).apply r)) = _
  rw [happly "c" "component" r h1, happly "ctx" "context" _ h2, happly "msg" "message" _ h3]

theorem any_key_map_rename (s d k : String) (hs : k ≠ s) (hd : k ≠ d) (r : Record) :
    (r.map (fun f => if f.1 == s then (d, f.2) else f)).any (fun f => f.1 == k) =
      r.any (fun f => f.1 == k) := by
  induction r with
  | nil => rfl
  | cons e r ih =>
    simp only [List.map_cons, List.any_cons, ih]
    congr 1
    by_cases he : (e.1 == s) = true
    · have h1 : (d == k) = false := by
        cases hx : (d == k) with
        | false => rfl
        | true => exact absurd (beq_iff_eq.1 hx).symm hd
      have h2 : (e.1 == k) = false := by
        cases hx : (e.1 == k) with
        | false => rfl
        | true =>
          have := beq_iff_eq.1 he
          rw [beq_iff_eq.1 hx] at this
          exact absurd this hs
      simp only [he, if_true, h1, h2]
    · simp only [he, Bool.false_eq_true, if_false]

theorem any_key_softRename (s d k : String) (hs : k ≠ s) (hd : k ≠ d) (r : Record) :
    (softRename s d r).any (fun f => f.1 == k) = r.any (fun f => f.1 == k) := by
  unfold softRename
  split
  · exact any_key_map_rename s d k hs hd r
  · rfl

theorem softRename_of_settled (s d : String) (r : Record)
    (h : (r.any (fun f => f.1 == s) && !r.any (fun f => f.1 == d)) = false) :
    softRename s d r = r := by
  unfold softRename
  simp [h]

theorem any_dst_map_rename (s d : String) (r : Record)
    (h : r.any (fun f => f.1 == s) = true) :
    (r.map (fun f => if f.1 == s then (d, f.2) else f)).any (fun f => f.1 == d) = true := by
  rw [List.any_eq_true] at h ⊢
  obtain ⟨f, hf, hfs⟩ := h
  refine ⟨(d, f.2), List.mem_map.2 ⟨f, hf, by simp [hfs]⟩, by simp⟩

/-- After a non-overwriting rename its condition no longer holds. -/
theorem softRename_settles (s d : String) (r : Record) :
    ((softRename s d r).any (fun f => f.1 == s) &&
      !(softRename s d r).any (fun f => f.1 == d)) = false := by
  by_cases hc : (r.any (fun f => f.1 == s) && !r.any (fun f => f.1 == d)) = true
  · have hs : r.any (fun f => f.1 == s) = true := by
      cases hx : r.any (fun f => f.1 == s) with
      | true => rfl
      | false => rw [hx] at hc; simp at hc
    have hres : softRename s d r = r.map (fun f => if f.1 == s then (d, f.2) else f) := by
      unfold softRename
      rw [if_pos hc]
    rw [hres, any_dst_map_rename s d r hs]
    simp
  · have hc' : (r.any (fun f => f.1 == s) && !r.any (fun f => f.1 == d)) = false := by
      simpa using hc
    rw [softRename_of_settled s d r hc']
    exact hc'

/-- A rename of other names does not change whether a rename is settled. -/
theorem settled_softRename_other (s d s' d' : String) (h1 : s ≠ s') (h2 : s ≠ d')
    (h3 : d ≠ s') (h4 : d ≠ d') (r : Record)
    (h : (r.any (fun f => f.1 == s) && !r.any (fun f => f.1 == d)) = false) :
    ((softRename s' d' r).any (fun f => f.1 == s) &&
      !(softRename s' d' r).any (fun f => f.1 == d)) = false := by
  rw [any_key_softRename s' d' s h1 h2, any_key_softRename s' d' d h3 h4]
  exact h

/-- C12: for every record, applying the rename sequence built by `renames`
(c to component, ctx to context, msg to message, each a rename that acts only
when the source key exists and the destination key does not) twice gives the
same record as applying it once. -/
theorem mongodb_renames_idempotent (tag uid : String) (r : Record) :
    applyAll (LoggingProcessorMongodb.renames tag uid)
        (applyAll (LoggingProcessorMongodb.renames tag uid) r) =
      applyAll (LoggingProcessorMongodb.renames tag uid) r := by
  rw [renames_applyAll, renames_applyAll]
  have hc := settled_softRename_other "c" "component" "msg" "message"
    (by decide) (by decide) (by decide) (by decide) _
    (settled_softRename_other "c" "component" "ctx" "context"
      (by decide) (by decide) (by decide) (by decide) _
      (softRename_settles "c" "component" r))
  have hctx := settled_softRename_other "ctx" "context" "msg" "message"
    (by decide) (by decide) (by decide) (by decide) _
    (softRename_settles "ctx" "context" (softRename "c" "component" r))
  have hmsg := softRename_settles "msg" "message"
    (softRename "ctx" "context" (softRename "c" "component" r))
  rw [softRename_of_settled "c" "component" _ hc, softRename_of_settled "ctx" "context" _ hctx,
    softRename_of_settled "msg" "message" _ hmsg]

/-! ## Position of the MongoDB rename components (C13) -/

/-- C13 as amended: in the list that `LoggingProcessorMongodb.Components`
returns, the three rename components (c to component, ctx to context, msg to
message) come after the JSON extraction and promotion components
(`jsonParserWithTimeKey`, `promoteWiredTiger`) and before the components of
`RegexLogComponents`, which are followed by the severity-mapping components. -/
theorem mongodb_renames_position (E : Confgenerator) (ctx : E.Context) (tag uid : String)
    (c : List Component) (h : LoggingProcessorMongodb.Components E ctx tag uid = some c) :
    ∃ json, LoggingProcessorMongodb.jsonParserWithTimeKey E ctx tag uid = some json ∧
      c = (json ++ LoggingProcessorMongodb.promoteWiredTiger tag uid) ++
          LoggingProcessorMongodb.renames tag uid ++
          (LoggingProcessorMongodb.RegexLogComponents E tag uid ++
            LoggingProcessorMongodb.severityParser E ctx tag uid) ∧
      LoggingProcessorMongodb.renames tag uid =
        [ (modify.NewRenameOptions "c" "component").Component tag,
          (modify.NewRenameOptions "ctx" "context").Component tag,
          (modify.NewRenameOptions "msg" "message").Component tag ] := by
  unfold LoggingProcessorMongodb.Components LoggingProcessorMongodb.JsonLogComponents at h
  cases hj : LoggingProcessorMongodb.jsonParserWithTimeKey E ctx tag uid with
  | none => simp [hj] at h
  | some json =>
    simp only [hj, Option.some.injEq] at h
    refine ⟨json, rfl, ?_, rfl⟩
    rw [← h]
    simp

/-- In the sample instance of the generating code the MongoDB processor
returns a list of this shape. -/
theorem mongodb_renames_position_witness :
    ∃ json, LoggingProcessorMongodb.jsonParserWithTimeKey Confgenerator.sample () "t" "u" =
        some json ∧
      (LoggingProcessorMongodb.Components Confgenerator.sample () "t" "u").getD [] =
        (json ++ LoggingProcessorMongodb.promoteWiredTiger "t" "u") ++
          LoggingProcessorMongodb.renames "t" "u" ++
          (LoggingProcessorMongodb.RegexLogComponents Confgenerator.sample "t" "u" ++
            LoggingProcessorMongodb.severityParser Confgenerator.sample () "t" "u") ∧
      LoggingProcessorMongodb.renames "t" "u" =
        [ (modify.NewRenameOptions "c" "component").Component "t",
          (modify.NewRenameOptions "ctx" "context").Component "t",
          (modify.NewRenameOptions "msg" "message").Component "t" ] :=
  mongodb_renames_position Confgenerator.sample () "t" "u"
    ((LoggingProcessorMongodb.Components Confgenerator.sample () "t" "u").getD []) (by decide)

/-- C13 as stated fails: in the list that the MongoDB processor returns in
the sample instance of the generating code, the last rename component (msg to
message) stands at index 14, and components of the regex extraction
(`RegexLogComponents`) follow it: the parser definition at index 15 and the
parser filter at index 17. -/
theorem mongodb_regex_extraction_follows_renames :
    (LoggingProcessorMongodb.Components Confgenerator.sample () "t" "u").bind
        (fun l => l[14]?) =
      some ((modify.NewRenameOptions "msg" "message").Component "t") ∧
    (LoggingProcessorMongodb.Components Confgenerator.sample () "t" "u").bind
        (fun l => l[15]?) =
      (LoggingProcessorMongodb.RegexLogComponents Confgenerator.sample "t" "u")[0]? ∧
    (LoggingProcessorMongodb.Components Confgenerator.sample () "t" "u").bind
        (fun l => l[17]?) =
      some { Kind := "FILTER"
             Config := [
               ("Match", "t"),
               ("Name", "parser"),
               ("Parser", "t_regex.u"),
               ("Reserve_Data", "True"),
               ("Key_Name", "message")] } ∧
    ((LoggingProcessorMongodb.RegexLogComponents Confgenerator.sample "t" "u")[0]?).map
        (fun p => (p.Kind, p.Config.lookup "Format")) = some ("PARSER", some "regex") := by
  decide

/-! ## Receivers: the mixin components come first (C14) -/

/-- C14: the `Components` method of each of the seven logging receivers
returns exactly the components of its `ReceiverMixin` followed by the
components of its embedded processor, called with the fixed uid "hadoop",
"mongodb", "postgresql", "rabbitmq", "tomcat_system", "tomcat_access" and
"zookeeper_general" respectively; nothing stands before, between or after.
The MongoDB receiver returns whenever its processor does. -/
theorem receiver_components_are_mixin_then_processor (E : ReceiverGenerator)
    (ctx : E.Context) (tag : String) (m : LoggingReceiverFilesMixin E.MixinOther) :
    LoggingReceiverHadoop.Components E ctx tag m =
      E.FilesMixin (LoggingReceiverHadoop.mixin m) ctx tag ++
        LoggingProcessorHadoop.Components E.toConfgenerator ctx tag "hadoop" ∧
    LoggingReceiverMongodb.Components E ctx tag m =
      (LoggingProcessorMongodb.Components E.toConfgenerator ctx tag "mongodb").map
        (fun processor => E.FilesMixin (LoggingReceiverMongodb.mixin m) ctx tag ++ processor) ∧
    LoggingReceiverPostgresql.Components E ctx tag m =
      E.FilesMixin (LoggingReceiverPostgresql.mixin m) ctx tag ++
        LoggingProcessorPostgresql.Components E.toConfgenerator ctx tag "postgresql" ∧
    LoggingReceiverRabbitmq.Components E ctx tag m =
      E.FilesMixin (LoggingReceiverRabbitmq.mixin m) ctx tag ++
        LoggingProcessorRabbitmq.Components E.toConfgenerator ctx tag "rabbitmq" ∧
    SystemLoggingReceiverTomcat.Components E ctx tag m =
      E.FilesMixin (SystemLoggingReceiverTomcat.mixin m) ctx tag ++
        LoggingProcessorTomcatSystem.Components E.toConfgenerator ctx tag "tomcat_system" ∧
    AccessSystemLoggingReceiverTomcat.Components E ctx tag m =
      E.FilesMixin (AccessSystemLoggingReceiverTomcat.mixin m) ctx tag ++
        LoggingProcessorTomcatAccess.Components E ctx tag "tomcat_access" ∧
    LoggingReceiverZookeeperGeneral.Components E ctx tag m =
      E.FilesMixin (LoggingReceiverZookeeperGeneral.mixin m) ctx tag ++
        LoggingProcessorZookeeperGeneral.Components E.toConfgenerator ctx tag
          "zookeeper_general" := by
  refine ⟨rfl, ?_, rfl, rfl, rfl, rfl, rfl⟩
  unfold LoggingReceiverMongodb.Components
  cases LoggingProcessorMongodb.Components E.toConfgenerator ctx tag "mongodb" <;> rfl

/-- In the sample instance of the generating code the hadoop receiver with no
configured paths yields the `tail` input first, then the parser and the two
components of the severity stage; the MongoDB receiver returns a list. -/
theorem receiver_components_are_mixin_then_processor_witness :
    (LoggingReceiverHadoop.Components ReceiverGenerator.sample () "t" ⟨[], [], ()⟩).map
        (fun c => c.Kind) = ["INPUT", "PARSER", "FILTER", "FILTER"] ∧
    (LoggingReceiverMongodb.Components ReceiverGenerator.sample () "t" ⟨[], [], ()⟩).isSome
      = true ∧
    LoggingReceiverHadoop.Components ReceiverGenerator.sample () "t" ⟨[], [], ()⟩ =
      ReceiverGenerator.sample.FilesMixin (LoggingReceiverHadoop.mixin ⟨[], [], ()⟩) () "t" ++
        LoggingProcessorHadoop.Components Confgenerator.sample () "t" "hadoop" :=
  ⟨by decide, by decide,
    (receiver_components_are_mixin_then_processor ReceiverGenerator.sample () "t"
      ⟨[], [], ()⟩).1⟩

/-! ## The PostgreSQL metrics endpoint (C15, C19, C20) -/

theorem splitChars_cons_sep (sep : Char) (cs : List Char) :
    strings.splitChars sep (sep :: cs) = [] :: strings.splitChars sep cs := by
  rw [strings.splitChars]
  simp

theorem splitChars_cons_ne (sep c : Char) (cs part : List Char) (parts : List (List Char))
    (hc : c ≠ sep) (hs : strings.splitChars sep cs = part :: parts) :
    strings.splitChars sep (c :: cs) = (c :: part) :: parts := by
  rw [strings.splitChars]
  simp [hc, hs]

theorem splitChars_ne_nil (sep : Char) : ∀ l : List Char, strings.splitChars sep l ≠ [] := by
  intro l
  cases l with
  | nil => simp [strings.splitChars]
  | cons c cs =>
    by_cases hc : c = sep
    · rw [hc, splitChars_cons_sep]
      simp
    · cases hs : strings.splitChars sep cs with
      | nil =>
        rw [strings.splitChars]
        simp [hc, hs]
      | cons part parts =>
        rw [splitChars_cons_ne sep c cs part parts hc hs]
        simp

theorem splitChars_of_not_mem (sep : Char) :
    ∀ l : List Char, sep ∉ l → strings.splitChars sep l = [l] := by
  intro l
  induction l with
  | nil => intro _; rfl
  | cons c cs ih =>
    intro h
    simp only [List.mem_cons, not_or] at h
    have hc : c ≠ sep := fun e => h.1 e.symm
    exact splitChars_cons_ne sep c cs cs [] hc (ih h.2)

/-- Splitting is compatible with concatenation at a separator. -/
theorem splitChars_append (sep : Char) (b : List Char) :
    ∀ a : List Char, strings.splitChars sep (a ++ sep :: b) =
      strings.splitChars sep a ++ strings.splitChars sep b := by
  intro a
  induction a with
  | nil =>
    rw [List.nil_append, splitChars_cons_sep]
    rfl
  | cons c cs ih =>
    rw [List.cons_append]
    by_cases hc : c = sep
    · rw [hc, splitChars_cons_sep, splitChars_cons_sep, ih]
      rfl
    · cases hs : strings.splitChars sep cs with
      | nil => exact absurd hs (splitChars_ne_nil sep cs)
      | cons part parts =>
        rw [splitChars_cons_ne sep c cs part parts hc hs,
          splitChars_cons_ne sep c (cs ++ sep :: b) part
            (parts ++ strings.splitChars sep b) hc (by rw [ih, hs]; rfl)]
        rfl

theorem splitChars_head (sep : Char) :
    ∀ l : List Char, (strings.splitChars sep l)[0]? = some (l.takeWhile (· != sep)) := by
  intro l
  induction l with
  | nil => rfl
  | cons c cs ih =>
    by_cases hc : c = sep
    · rw [hc, splitChars_cons_sep]
      simp
    · have hne : (c != sep) = true := by simpa using hc
      cases hs : strings.splitChars sep cs with
      | nil => exact absurd hs (splitChars_ne_nil sep cs)
      | cons part parts =>
        rw [hs] at ih
        simp only [List.getElem?_cons_zero, Option.some.injEq] at ih
        rw [splitChars_cons_ne sep c cs part parts hc hs]
        simp [List.takeWhile_cons, hne, ih]

theorem splitChars_getLast (sep : Char) (l : List Char) :
    (strings.splitChars sep l).getLast? =
      some ((l.reverse.takeWhile (· != sep)).reverse) := by
  have hsplit := List.takeWhile_append_dropWhile (· != sep) l.reverse
  have hl : l = (l.reverse.dropWhile (· != sep)).reverse ++
      (l.reverse.takeWhile (· != sep)).reverse := by
    rw [← List.reverse_append, hsplit, List.reverse_reverse]
  have hb : sep ∉ (l.reverse.takeWhile (· != sep)).reverse := by
    intro hmem
    have := List.mem_takeWhile_imp (List.mem_reverse.1 hmem)
    simp at this
  cases hd : l.reverse.dropWhile (· != sep) with
  | nil =>
    rw [hd] at hl
    simp only [List.reverse_nil, List.nil_append] at hl
    rw [← hl] at hb ⊢
    rw [splitChars_of_not_mem sep l hb]
    rfl
  | cons c cs =>
    have hc : c = sep := by
      have h1 := List.head_dropWhile_not (· != sep) l.reverse
      simp only [hd, List.head?_cons] at h1
      have h2 := h1 (by simp)
      simpa using h2
    rw [hd, hc] at hl
    simp only [List.reverse_cons, List.append_assoc, List.singleton_append] at hl
    conv_lhs => rw [hl]
    rw [splitChars_append, splitChars_of_not_mem sep _ hb]
    simp

theorem split_first (e : String) :
    (strings.Split e '.')[0]? = some (beforeFirstDot e) := by
  simp only [strings.Split, List.getElem?_map, splitChars_head, Option.map_some',
    beforeFirstDot]

theorem split_last (e : String) :
    (strings.Split e '.')[(strings.Split e '.').length - 1]? = some (afterLastDot e) := by
  rw [← List.getLast?_eq_getElem?]
  simp only [strings.Split, List.getLast?_map, splitChars_getLast, Option.map_some',
    afterLastDot]

theorem transportAndEndpoint_empty :
    MetricsReceiverPostgresql.transportAndEndpoint "" =
      some ("unix", "var/run/postgresql/:5432") := by
  decide

theorem transportAndEndpoint_unix (e : String) (hne : e ≠ "")
    (hp : strings.HasPrefix e "/" = true) :
    MetricsReceiverPostgresql.transportAndEndpoint e =
      some ("unix", strings.TrimLeft (beforeFirstDot e) "/" ++ ":" ++ afterLastDot e) := by
  unfold MetricsReceiverPostgresql.transportAndEndpoint
  simp only [hne, if_false, hp, if_true, split_first, split_last]

theorem transportAndEndpoint_tcp (e : String) (hne : e ≠ "")
    (hp : strings.HasPrefix e "/" = false) :
    MetricsReceiverPostgresql.transportAndEndpoint e = some ("tcp", e) := by
  unfold MetricsReceiverPostgresql.transportAndEndpoint
  simp only [hne, if_false, hp, Bool.false_eq_true]

/-- What `Pipelines` returns for the transport and endpoint computed from the
configured endpoint. -/
theorem pipelines_of_transport (r : MetricsReceiverPostgresql) (transport endpoint : String)
    (h : MetricsReceiverPostgresql.transportAndEndpoint r.Endpoint = some (transport, endpoint))
    (ht : transport = "unix" ∨ transport = "tcp") :
    ∃ p, r.Pipelines = some ([p], none) ∧
      configString p.Receiver.Config "transport" = some transport ∧
      configString p.Receiver.Config "endpoint" = some endpoint ∧
      ("tls" ∈ p.Receiver.Config.map (·.1) ↔ transport = "tcp") := by
  unfold MetricsReceiverPostgresql.Pipelines
  rw [h]
  rcases ht with rfl | rfl
  · refine ⟨_, rfl, ?_, ?_, ?_⟩
    · simp [configString, List.lookup]
    · simp [configString, List.lookup]
    · simp
  · refine ⟨_, rfl, ?_, ?_, ?_⟩
    · simp [configString, List.lookup]
    · simp [configString, List.lookup]
    · simp

/-- C19: `Pipelines` computes transport and endpoint by three cases.  An
empty `Endpoint` gives "unix" and "var/run/postgresql/:5432"; an `Endpoint`
that starts with "/" gives "unix" and the part before its first "." without
the leading "/" characters, then ":", then the part after its last "." (all of
it when there is no "."); any other `Endpoint` gives "tcp" and is kept.  The
configuration has the key "tls" exactly when the transport is "tcp". -/
theorem postgresql_transport_and_endpoint (r : MetricsReceiverPostgresql) :
    ∃ p, r.Pipelines = some ([p], none) ∧
      (r.Endpoint = "" →
        configString p.Receiver.Config "transport" = some "unix" ∧
        configString p.Receiver.Config "endpoint" = some "var/run/postgresql/:5432") ∧
      (r.Endpoint ≠ "" → strings.HasPrefix r.Endpoint "/" = true →
        configString p.Receiver.Config "transport" = some "unix" ∧
        configString p.Receiver.Config "endpoint" =
          some (strings.TrimLeft (beforeFirstDot r.Endpoint) "/" ++ ":" ++
            afterLastDot r.Endpoint)) ∧
      (r.Endpoint ≠ "" → strings.HasPrefix r.Endpoint "/" = false →
        configString p.Receiver.Config "transport" = some "tcp" ∧
        configString p.Receiver.Config "endpoint" = some r.Endpoint) ∧
      ("tls" ∈ p.Receiver.Config.map (·.1) ↔
        configString p.Receiver.Config "transport" = some "tcp") := by
  by_cases he : r.Endpoint = ""
  · obtain ⟨p, hp, h1, h2, h3⟩ := pipelines_of_transport r "unix" "var/run/postgresql/:5432"
      (by rw [he]; exact transportAndEndpoint_empty) (Or.inl rfl)
    refine ⟨p, hp, fun _ => ⟨h1, h2⟩, fun h => absurd he h, fun h => absurd he h, ?_⟩
    rw [h3, h1]
    simp
  · cases hpre : strings.HasPrefix r.Endpoint "/" with
    | true =>
      obtain ⟨p, hp, h1, h2, h3⟩ := pipelines_of_transport r "unix" _
        (transportAndEndpoint_unix r.Endpoint he hpre) (Or.inl rfl)
      refine ⟨p, hp, fun h => absurd h he, fun _ _ => ⟨h1, h2⟩, fun _ h => ?_, ?_⟩
      · simp at h
      · rw [h3, h1]
        simp
    | false =>
      obtain ⟨p, hp, h1, h2, h3⟩ := pipelines_of_transport r "tcp" _
        (transportAndEndpoint_tcp r.Endpoint he hpre) (Or.inr rfl)
      refine ⟨p, hp, fun h => absurd h he, fun _ h => ?_, fun _ _ => ⟨h1, h2⟩, ?_⟩
      · simp at h
      · rw [h3, h1]
        simp

/-- The three cases on concrete endpoints: "/tmp/sock" has no "." and gives
"tmp/sock:/tmp/sock". -/
theorem postgresql_transport_and_endpoint_witness :
    MetricsReceiverPostgresql.transportAndEndpoint "/tmp/sock" =
      some ("unix", "tmp/sock:/tmp/sock") ∧
    MetricsReceiverPostgresql.transportAndEndpoint "localhost:5432" =
      some ("tcp", "localhost:5432") ∧
    MetricsReceiverPostgresql.transportAndEndpoint "" =
      some ("unix", "var/run/postgresql/:5432") ∧
    (∃ p, (MetricsReceiverPostgresql.sample "/tmp/sock").Pipelines = some ([p], none) ∧
      ((MetricsReceiverPostgresql.sample "/tmp/sock").Endpoint = "" →
        configString p.Receiver.Config "transport" = some "unix" ∧
        configString p.Receiver.Config "endpoint" = some "var/run/postgresql/:5432") ∧
      ((MetricsReceiverPostgresql.sample "/tmp/sock").Endpoint ≠ "" →
        strings.HasPrefix (MetricsReceiverPostgresql.sample "/tmp/sock").Endpoint "/" = true →
        configString p.Receiver.Config "transport" = some "unix" ∧
        configString p.Receiver.Config "endpoint" =
          some (strings.TrimLeft
            (beforeFirstDot (MetricsReceiverPostgresql.sample "/tmp/sock").Endpoint) "/" ++ ":" ++
            afterLastDot (MetricsReceiverPostgresql.sample "/tmp/sock").Endpoint)) ∧
      ((MetricsReceiverPostgresql.sample "/tmp/sock").Endpoint ≠ "" →
        strings.HasPrefix (MetricsReceiverPostgresql.sample "/tmp/sock").Endpoint "/" = false →
        configString p.Receiver.Config "transport" = some "tcp" ∧
        configString p.Receiver.Config "endpoint" =
          some (MetricsReceiverPostgresql.sample "/tmp/sock").Endpoint) ∧
      ("tls" ∈ p.Receiver.Config.map (·.1) ↔
        configString p.Receiver.Config "transport" = some "tcp")) :=
  ⟨by decide, by decide, by decide,
    postgresql_transport_and_endpoint (MetricsReceiverPostgresql.sample "/tmp/sock")⟩

/-- C20: `Pipelines` is total: for every `Endpoint` the list of the parts
between the "." characters is not empty, so the index expressions
`endpointParts[0]` and `endpointParts[len(endpointParts)-1]` are in range, and
the call returns exactly one pipeline and a nil error. -/
theorem postgresql_pipelines_total (r : MetricsReceiverPostgresql) :
    strings.Split r.Endpoint '.' ≠ [] ∧
    ((strings.Split r.Endpoint '.')[0]?).isSome = true ∧
    ((strings.Split r.Endpoint '.')[(strings.Split r.Endpoint '.').length - 1]?).isSome = true ∧
    ∃ p, r.Pipelines = some ([p], none) := by
  refine ⟨?_, ?_, ?_, ?_⟩
  · intro h
    have := split_first r.Endpoint
    rw [h] at this
    simp at this
  · rw [split_first]; rfl
  · rw [split_last]; rfl
  · by_cases he : r.Endpoint = ""
    · obtain ⟨p, hp, _⟩ := pipelines_of_transport r "unix" "var/run/postgresql/:5432"
        (by rw [he]; exact transportAndEndpoint_empty) (Or.inl rfl)
      exact ⟨p, hp⟩
    · cases hpre : strings.HasPrefix r.Endpoint "/" with
      | true =>
        obtain ⟨p, hp, _⟩ := pipelines_of_transport r "unix" _
          (transportAndEndpoint_unix r.Endpoint he hpre) (Or.inl rfl)
        exact ⟨p, hp⟩
      | false =>
        obtain ⟨p, hp, _⟩ := pipelines_of_transport r "tcp" _
          (transportAndEndpoint_tcp r.Endpoint he hpre) (Or.inr rfl)
        exact ⟨p, hp⟩

theorem takeWhile_append_stop (q : Char → Bool) (x : Char) (b : List Char)
    (hx : q x = false) :
    ∀ a : List Char, (∀ c ∈ a, q c = true) → (a ++ x :: b).takeWhile q = a := by
  intro a
  induction a with
  | nil => intro _; simp [List.takeWhile_cons, hx]
  | cons c cs ih =>
    intro h
    rw [List.cons_append, List.takeWhile_cons, h c (List.mem_cons_self _ _)]
    simp only [if_true]
    rw [ih (fun y hy => h y (List.mem_cons_of_mem _ hy))]

theorem socket_endpoint_data (d p : String) :
    ("/" ++ d ++ "/.s.PGSQL." ++ p).data =
      ('/' :: d.data ++ ['/']) ++ '.' :: (['s', '.', 'P', 'G', 'S', 'Q', 'L'] ++ '.' :: p.data) := by
  have h1 : ("/" : String).data = ['/'] := rfl
  have h2 : ("/.s.PGSQL." : String).data =
      ['/', '.', 's', '.', 'P', 'G', 'S', 'Q', 'L', '.'] := rfl
  simp only [String.data_append, h1, h2]
  simp

theorem socket_endpoint_before (d p : String) (hdd : '.' ∉ d.data) :
    beforeFirstDot ("/" ++ d ++ "/.s.PGSQL." ++ p) = String.mk ('/' :: d.data ++ ['/']) := by
  unfold beforeFirstDot
  rw [socket_endpoint_data, takeWhile_append_stop _ '.' _ (by decide)]
  intro c hc
  have hne : c ≠ '.' := by
    intro heq
    rw [heq] at hc
    simp only [List.cons_append, List.mem_cons, List.mem_append, List.mem_singleton] at hc
    rcases hc with hc | hc | hc
    · exact absurd hc (by decide)
    · exact hdd hc
    · exact absurd hc (by decide)
  simpa using hne

theorem socket_endpoint_after (d p : String) (hpd : '.' ∉ p.data) :
    afterLastDot ("/" ++ d ++ "/.s.PGSQL." ++ p) = p := by
  unfold afterLastDot
  have hrev : ("/" ++ d ++ "/.s.PGSQL." ++ p).data.reverse =
      p.data.reverse ++ '.' ::
        (('/' :: d.data ++ ['/']) ++ '.' :: ['s', '.', 'P', 'G', 'S', 'Q', 'L']).reverse := by
    rw [socket_endpoint_data]
    simp
  rw [hrev, takeWhile_append_stop _ '.' _ (by decide), List.reverse_reverse]
  intro c hc
  have hne : c ≠ '.' := by
    intro heq
    rw [heq] at hc
    exact hpd (List.mem_reverse.1 hc)
  simpa using hne

theorem trimLeft_socket_directory (d : String) (hd : d ≠ "")
    (hds : strings.HasPrefix d "/" = false) :
    strings.TrimLeft (String.mk ('/' :: d.data ++ ['/'])) "/" = d ++ "/" := by
  have hdata : d.data ≠ [] := by
    intro h
    exact hd (String.ext h)
  cases hx : d.data with
  | nil => exact absurd hx hdata
  | cons c cs =>
    have hc : c ≠ '/' := by
      intro heq
      unfold strings.HasPrefix at hds
      rw [hx, heq] at hds
      simp [List.isPrefixOf] at hds
    apply String.ext
    have h1 : ("/" : String).data = ['/'] := rfl
    simp only [strings.TrimLeft, String.data_append, h1, hx]
    simp [List.dropWhile_cons, hc]

/-- C15: for `Endpoint` = "/" + d + "/.s.PGSQL." + p, where d is not empty,
does not start with "/" and has no ".", and p has no ".", `Pipelines`
configures the transport "unix" and the endpoint d + "/:" + p. -/
theorem postgresql_unix_socket_endpoint (r : MetricsReceiverPostgresql) (d p : String)
    (hd : d ≠ "") (hds : strings.HasPrefix d "/" = false) (hdd : '.' ∉ d.data)
    (hpd : '.' ∉ p.data) (he : r.Endpoint = "/" ++ d ++ "/.s.PGSQL." ++ p) :
    ∃ q, r.Pipelines = some ([q], none) ∧
      configString q.Receiver.Config "transport" = some "unix" ∧
      configString q.Receiver.Config "endpoint" = some (d ++ "/:" ++ p) := by
  have hne : r.Endpoint ≠ "" := by
    intro h
    have := congrArg String.data h
    rw [he, socket_endpoint_data] at this
    simp at this
  have hpre : strings.HasPrefix r.Endpoint "/" = true := by
    unfold strings.HasPrefix
    rw [he, socket_endpoint_data]
    simp [List.isPrefixOf]
  have hend : strings.TrimLeft (beforeFirstDot r.Endpoint) "/" ++ ":" ++ afterLastDot r.Endpoint
      = d ++ "/:" ++ p := by
    rw [he, socket_endpoint_before d p hdd, socket_endpoint_after d p hpd,
      trimLeft_socket_directory d hd hds]
    apply String.ext
    have h1 : ("/" : String).data = ['/'] := rfl
    have h2 : (":" : String).data = [':'] := rfl
    have h3 : ("/:" : String).data = ['/', ':'] := rfl
    simp only [String.data_append, h1, h2, h3]
    simp
  obtain ⟨q, hq, h1, h2, _⟩ := pipelines_of_transport r "unix" _
    (transportAndEndpoint_unix r.Endpoint hne hpre) (Or.inl rfl)
  exact ⟨q, hq, h1, by rw [h2, hend]⟩

/-- The actual socket path "/var/run/postgresql/.s.PGSQL.5432" gives the
transport "unix" and the endpoint "var/run/postgresql/:5432", which is the
constant `defaultPostgresqlUnixEndpoint` that an empty `Endpoint` gives. -/
theorem postgresql_unix_socket_endpoint_witness :
    MetricsReceiverPostgresql.transportAndEndpoint "/var/run/postgresql/.s.PGSQL.5432" =
      some ("unix", defaultPostgresqlUnixEndpoint) ∧
    MetricsReceiverPostgresql.transportAndEndpoint "" =
      some ("unix", defaultPostgresqlUnixEndpoint) ∧
    defaultPostgresqlUnixEndpoint = "var/run/postgresql/:5432" ∧
    (∃ q, (MetricsReceiverPostgresql.sample
        ("/" ++ "var/run/postgresql" ++ "/.s.PGSQL." ++ "5432")).Pipelines = some ([q], none) ∧
      configString q.Receiver.Config "transport" = some "unix" ∧
      configString q.Receiver.Config "endpoint" = some ("var/run/postgresql" ++ "/:" ++ "5432")) :=
  ⟨by decide, by decide, rfl,
    postgresql_unix_socket_endpoint _ "var/run/postgresql" "5432" (by decide) (by decide)
      (by decide) (by decide) rfl⟩

/-! ## Record starts of the RabbitMQ receiver (C16) -/

set_option maxRecDepth 100000 in
/-- C16, evaluated on the code: the second sample line of the RabbitMQ
processor is a single line that the second parser matches, but the
`start_state` pattern of the receiver, which asks for a zone offset after the
fraction, does not accept it and the `cont` pattern does; so no rule fires on
it in `start_state`, and in `cont` it is taken as a continuation.  A line of
the first format with a comma before the fraction is matched by the first
parser and missed by the `start_state` pattern in the same way. -/
theorem rabbitmq_start_rule_misses_parsed_lines :
    (LoggingProcessorRabbitmq.parser2.captures LoggingProcessorRabbitmq.sampleLine2).isSome
      = true ∧
    '\n' ∉ LoggingProcessorRabbitmq.sampleLine2.data ∧
    LoggingReceiverRabbitmq.MultilineRules.map
        (fun r => (r.StateName, r.accepts LoggingProcessorRabbitmq.sampleLine2)) =
      [("start_state", false), ("cont", true)] ∧
    nextState LoggingReceiverRabbitmq.MultilineRules "start_state"
      LoggingProcessorRabbitmq.sampleLine2 = none ∧
    nextState LoggingReceiverRabbitmq.MultilineRules "cont"
      LoggingProcessorRabbitmq.sampleLine2 = some "cont" ∧
    (LoggingProcessorRabbitmq.parser1.captures
      "2022-01-31 18:01:20,441571+00:00 [erro] <0.692.0> BOOT FAILED").isSome = true ∧
    LoggingReceiverRabbitmq.MultilineRules.map
        (fun r => r.accepts "2022-01-31 18:01:20,441571+00:00 [erro] <0.692.0> BOOT FAILED") =
      [false, true] := by
  decide

set_option maxRecDepth 100000 in
/-- Fed to the aggregator after the first sample line, the second sample line
of the RabbitMQ processor is appended to that record instead of starting its
own, under either reading of how a later record begins. -/
theorem rabbitmq_second_format_is_appended :
    [true, false].map (fun restart =>
        (Aggregator.run LoggingReceiverRabbitmq.MultilineRules restart
          [LoggingProcessorRabbitmq.sampleLine1, LoggingProcessorRabbitmq.sampleLine2]).length) =
      [1, 1] := by
  decide

/-! ## Typed fields and named groups of the regex parsers (C17, C18) -/

/-- The regex parser `LoggingProcessorMongodb.parser1` holds the values with
which `RegexLogComponents` builds its parser component. -/
theorem mongodb_parser1_matches_RegexLogComponents (E : Confgenerator) (tag uid : String) :
    (LoggingProcessorMongodb.RegexLogComponents E tag uid)[0]? =
      some ((((E.ParserComponentBase LoggingProcessorMongodb.parser1.Parser.TimeFormat
        LoggingProcessorMongodb.parser1.Parser.TimeKey
        LoggingProcessorMongodb.parser1.Parser.Types (tag ++ "_regex") uid).1.setConfig
          "Format" "regex").setConfig "Regex" LoggingProcessorMongodb.parser1.Regex).setConfig
          "Key_Name" "message") := by
  simp [LoggingProcessorMongodb.RegexLogComponents, LoggingProcessorMongodb.parser1]

set_option maxRecDepth 100000 in
/-- C17 as amended: for every regex parser of the adapters other than
tomcat_system (hadoop, the mongodb regex parser, both postgresql parsers, both
rabbitmq parsers, both zookeeper parsers), every field name with a coercion
type in the parser's `Types` table, other than `id` in the mongodb regex
parser, is the name of a named group of the parser's pattern. -/
theorem typed_fields_are_named_groups :
    (∀ p ∈ [ LoggingProcessorHadoop.parser1,
             LoggingProcessorPostgresql.parser1,
             LoggingProcessorPostgresql.parser2,
             LoggingProcessorRabbitmq.parser1,
             LoggingProcessorRabbitmq.parser2,
             LoggingProcessorZookeeperGeneral.parser1,
             LoggingProcessorZookeeperGeneral.parser2 ],
      ∀ name ∈ p.typedNames, name ∈ groupNamesOf p.Regex) ∧
    (∀ name ∈ LoggingProcessorMongodb.parser1.typedNames,
      name ≠ "id" → name ∈ groupNamesOf LoggingProcessorMongodb.parser1.Regex) := by
  decide

set_option maxRecDepth 100000 in
/-- C17 as stated fails: the mongodb regex parser gives `id` the type integer
and the tomcat_system parser gives `lineNumber` the type integer, and neither
name is a named group of the parser's pattern. -/
theorem typed_fields_without_group :
    LoggingProcessorMongodb.parser1 ∈ adapterRegexParsers ∧
    "id" ∈ LoggingProcessorMongodb.parser1.typedNames ∧
    "id" ∉ groupNamesOf LoggingProcessorMongodb.parser1.Regex ∧
    groupNamesOf LoggingProcessorMongodb.parser1.Regex =
      ["timestamp", "s", "component", "context", "message", "ms"] ∧
    LoggingProcessorTomcatSystem.parser1 ∈ adapterRegexParsers ∧
    "lineNumber" ∈ LoggingProcessorTomcatSystem.parser1.typedNames ∧
    "lineNumber" ∉ groupNamesOf LoggingProcessorTomcatSystem.parser1.Regex ∧
    groupNamesOf LoggingProcessorTomcatSystem.parser1.Regex =
      ["time", "level", "module", "message", "source"] := by
  decide

set_option maxRecDepth 100000 in
/-- C18: for every regex parser of the adapters the pattern is well formed,
its named groups have pairwise distinct names, the parser's `TimeKey` is one
of those names, and there is a group named `message`. -/
theorem group_names_distinct_with_time_key_and_message :
    ∀ p ∈ adapterRegexParsers,
      (Regex.parse p.Regex).isSome = true ∧
      (groupNamesOf p.Regex).Nodup ∧
      p.Parser.TimeKey ∈ groupNamesOf p.Regex ∧
      "message" ∈ groupNamesOf p.Regex := by
  decide

set_option maxRecDepth 100000 in
/-- The tomcat_system parser, in which the group `source` is nested inside the
group `message`: the five names are distinct and include `time` and
`message`. -/
theorem group_names_distinct_with_time_key_and_message_witness :
    groupNamesOf LoggingProcessorTomcatSystem.parser1.Regex =
      ["time", "level", "module", "message", "source"] ∧
    LoggingProcessorTomcatSystem.parser1.Parser.TimeKey = "time" ∧
    ((Regex.parse LoggingProcessorTomcatSystem.parser1.Regex).isSome = true ∧
      (groupNamesOf LoggingProcessorTomcatSystem.parser1.Regex).Nodup ∧
      LoggingProcessorTomcatSystem.parser1.Parser.TimeKey ∈
        groupNamesOf LoggingProcessorTomcatSystem.parser1.Regex ∧
      "message" ∈ groupNamesOf LoggingProcessorTomcatSystem.parser1.Regex) :=
  ⟨by decide, rfl,
    group_names_distinct_with_time_key_and_message LoggingProcessorTomcatSystem.parser1
      (by decide)⟩


/-! ## MongoDB metrics receiver (C21) -/

/-- The test `strings.HasSuffix` holds exactly for the texts that end with the
suffix. -/
theorem hasSuffix_iff (s suffix : String) :
    strings.HasSuffix s suffix = true ↔ ∃ t : String, s = t ++ suffix := by
  unfold strings.HasSuffix
  rw [List.isSuffixOf_iff_suffix]
  constructor
  · rintro ⟨t, ht⟩
    exact ⟨⟨t⟩, String.ext (by simp [ht])⟩
  · rintro ⟨t, rfl⟩
    exact ⟨t.data, by simp⟩

theorem mongodb_transportAndEndpoint_empty :
    MetricsReceiverMongoDB.transportAndEndpoint "" = ("tcp", "localhost:27017") := by rfl

theorem mongodb_transportAndEndpoint_unix (e : String) (he : e ≠ "")
    (hs : strings.HasSuffix e ".sock" = true) :
    MetricsReceiverMongoDB.transportAndEndpoint e = ("unix", e) := by
  unfold MetricsReceiverMongoDB.transportAndEndpoint
  simp only [he, if_false, hs, if_true]

theorem mongodb_transportAndEndpoint_tcp (e : String) (he : e ≠ "")
    (hs : strings.HasSuffix e ".sock" = false) :
    MetricsReceiverMongoDB.transportAndEndpoint e = ("tcp", e) := by
  unfold MetricsReceiverMongoDB.transportAndEndpoint
  simp only [he, if_false, hs, Bool.false_eq_true]

theorem mongodb_pipelines_of_transport (r : MetricsReceiverMongoDB) (transport endpoint : String)
    (h : MetricsReceiverMongoDB.transportAndEndpoint r.Endpoint = (transport, endpoint)) :
    ∃ cfg procs,
      r.Pipelines =
        ([{ Receiver := { TypeName := "mongodb", Config := cfg }, Processors := procs }], none) ∧
      cfg.lookup "hosts" =
        some (.list [MetricsReceiverMongoDBHosts.toConfig ⟨endpoint, transport⟩]) ∧
      ("tls" ∈ cfg.map Prod.fst ↔ transport ≠ "unix") := by
  unfold MetricsReceiverMongoDB.Pipelines
  rw [h]
  refine ⟨_, _, rfl, ?_, ?_⟩
  · by_cases ht : transport = "unix" <;> simp [ht, List.lookup]
  · by_cases ht : transport = "unix" <;> simp [ht]

/-- C21: `MetricsReceiverMongoDB.Pipelines` returns, without an error, one
pipeline whose receiver of type "mongodb" has exactly one host entry: for an
empty `Endpoint` it is ("localhost:27017", "tcp"); for a non-empty `Endpoint`
that ends with ".sock" it is (`Endpoint`, "unix"); otherwise it is
(`Endpoint`, "tcp").  The receiver configuration has the key "tls" exactly when
the transport is not "unix", which is exactly when `Endpoint` does not end with
".sock". -/
theorem mongodb_hosts_and_tls (r : MetricsReceiverMongoDB) :
    ∃ host cfg procs,
      r.Pipelines =
        ([{ Receiver := { TypeName := "mongodb", Config := cfg }, Processors := procs }], none) ∧
      cfg.lookup "hosts" = some (.list [MetricsReceiverMongoDBHosts.toConfig host]) ∧
      (r.Endpoint = "" → host = ⟨"localhost:27017", "tcp"⟩) ∧
      (r.Endpoint ≠ "" → (∃ t : String, r.Endpoint = t ++ ".sock") →
        host = ⟨r.Endpoint, "unix"⟩) ∧
      (r.Endpoint ≠ "" → (¬ ∃ t : String, r.Endpoint = t ++ ".sock") →
        host = ⟨r.Endpoint, "tcp"⟩) ∧
      ("tls" ∈ cfg.map Prod.fst ↔ host.Transport ≠ "unix") ∧
      ("tls" ∈ cfg.map Prod.fst ↔ ¬ ∃ t : String, r.Endpoint = t ++ ".sock") := by
  by_cases he : r.Endpoint = ""
  · have hns : ¬ ∃ t : String, r.Endpoint = t ++ ".sock" := by
      rw [← hasSuffix_iff, he]
      decide
    obtain ⟨cfg, procs, hp, hh, ht⟩ := mongodb_pipelines_of_transport r "tcp" "localhost:27017"
      (by rw [he]; exact mongodb_transportAndEndpoint_empty)
    refine ⟨⟨"localhost:27017", "tcp"⟩, cfg, procs, hp, hh, fun _ => rfl,
      fun h => absurd he h, fun h => absurd he h, ht, ?_⟩
    rw [ht]
    simp [hns]
  · by_cases hs : strings.HasSuffix r.Endpoint ".sock" = true
    · have hsuf : ∃ t : String, r.Endpoint = t ++ ".sock" := (hasSuffix_iff _ _).1 hs
      obtain ⟨cfg, procs, hp, hh, ht⟩ := mongodb_pipelines_of_transport r "unix" r.Endpoint
        (mongodb_transportAndEndpoint_unix r.Endpoint he hs)
      refine ⟨⟨r.Endpoint, "unix"⟩, cfg, procs, hp, hh, fun h => absurd h he,
        fun _ _ => rfl, fun _ h => absurd hsuf h, ht, ?_⟩
      rw [ht]
      simp [hsuf]
    · have hs' : strings.HasSuffix r.Endpoint ".sock" = false := by simpa using hs
      have hns : ¬ ∃ t : String, r.Endpoint = t ++ ".sock" := by
        rw [← hasSuffix_iff]; exact hs
      obtain ⟨cfg, procs, hp, hh, ht⟩ := mongodb_pipelines_of_transport r "tcp" r.Endpoint
        (mongodb_transportAndEndpoint_tcp r.Endpoint he hs')
      refine ⟨⟨r.Endpoint, "tcp"⟩, cfg, procs, hp, hh, fun h => absurd h he,
        fun _ h => absurd h hns, fun _ _ => rfl, ht, ?_⟩
      rw [ht]
      simp [hns]

/-- The keys of the receiver configuration for a socket endpoint and for no
endpoint: only the second has "tls". -/
theorem mongodb_pipelines_examples :
    (MetricsReceiverMongoDB.sample "/tmp/mongodb-27017.sock").Pipelines.1.map
        (fun p => p.Receiver.Config.map Prod.fst) =
      [["hosts", "username", "password", "collection_interval"]] ∧
    (MetricsReceiverMongoDB.sample "").Pipelines.1.map
        (fun p => p.Receiver.Config.map Prod.fst) =
      [["hosts", "username", "password", "collection_interval", "tls"]] ∧
    MetricsReceiverMongoDB.transportAndEndpoint "/tmp/mongodb-27017.sock" =
      ("unix", "/tmp/mongodb-27017.sock") ∧
    MetricsReceiverMongoDB.transportAndEndpoint "localhost:27017" =
      ("tcp", "localhost:27017") := by
  decide

/-! ## The ZooKeeper parsers (C22) -/

theorem step_bind (p : Char → Bool) (cu : Cursor) (cs : Caps) (k : Cont) :
    cu.step p cs k = (cu.step p cs accept).bind (fun x => k x.1 x.2) := by
  unfold Cursor.step
  cases cu.rest with
  | nil => rfl
  | cons c rest =>
    by_cases hp : p c = true
    · simp [hp, accept]
    · simp [hp]

theorem repMin_bind (body : Cursor → Caps → Cont → Outcome)
    (hb : ∀ cu cs (k : Cont), body cu cs k = (body cu cs accept).bind (fun x => k x.1 x.2)) :
    ∀ (n : Nat) (cu : Cursor) (cs : Caps) (k : Cont),
      repMin body n cu cs k = (repMin body n cu cs accept).bind (fun x => k x.1 x.2)
  | 0, cu, cs, k => by simp [repMin, accept]
  | n + 1, cu, cs, k => by
    simp only [repMin]
    rw [hb cu cs (fun cu' cs' => repMin body n cu' cs' k),
      hb cu cs (fun cu' cs' => repMin body n cu' cs' accept), Option.bind_assoc]
    congr 1
    funext x
    exact repMin_bind body hb n x.1 x.2 k

theorem repMore_zero (body : Cursor → Caps → Cont → Outcome) (greedy : Bool) (fuel : Nat)
    (cu : Cursor) (cs : Caps) (k : Cont) :
    repMore body greedy fuel (some 0) cu cs k = k cu cs := by
  cases fuel with
  | zero => rfl
  | succ fuel => simp [repMore]

/-- A pattern with a single way to match runs its continuation on the one
position and captures that it reaches. -/
theorem linear_run (r : Regex) :
    r.linear = true → ∀ (cu : Cursor) (cs : Caps) (k : Cont),
      r.run cu cs k = (r.run cu cs accept).bind (fun x => k x.1 x.2) := by
  induction r with
  | empty => intro _ cu cs k; simp [Regex.run, accept]
  | chr x => intro _ cu cs k; exact step_bind _ cu cs k
  | any => intro _ cu cs k; exact step_bind _ cu cs k
  | cls negated items => intro _ cu cs k; exact step_bind _ cu cs k
  | bol =>
    intro _ cu cs k
    simp only [Regex.run]
    by_cases hb : cu.atBol = true <;> simp [hb, accept]
  | eol =>
    intro _ cu cs k
    simp only [Regex.run]
    by_cases hb : cu.atEol = true <;> simp [hb, accept]
  | seq a b iha ihb =>
    intro h cu cs k
    simp only [Regex.linear, Bool.and_eq_true] at h
    simp only [Regex.run]
    rw [iha h.1 cu cs (fun cu' cs' => b.run cu' cs' k),
      iha h.1 cu cs (fun cu' cs' => b.run cu' cs' accept), Option.bind_assoc]
    congr 1
    funext x
    exact ihb h.2 x.1 x.2 k
  | alt a b _ _ => intro h; simp [Regex.linear] at h
  | rep r min max greedy ih =>
    intro h cu cs k
    simp only [Regex.linear, Bool.and_eq_true, beq_iff_eq] at h
    obtain ⟨hr, rfl⟩ := h
    simp only [Regex.run, Option.map_some', Nat.sub_self, repMore_zero]
    exact repMin_bind r.run (ih hr) min cu cs k
  | group name r ih =>
    intro h cu cs k
    simp only [Regex.linear] at h
    simp only [Regex.run]
    rw [ih h cu cs (fun cu' cs' => k cu' ((name, cu.since cu') :: cs')),
      ih h cu cs (fun cu' cs' => accept cu' ((name, cu.since cu') :: cs')), Option.bind_assoc]
    congr 1
  | ncgroup r ih =>
    intro h cu cs k
    simp only [Regex.linear] at h
    simp only [Regex.run]
    exact ih h cu cs k
  | neglook r _ => intro h; simp [Regex.linear] at h

theorem step_chr_isSome (x : Char) (cu : Cursor) (cs : Caps) (k : Cont)
    (h : ((Regex.chr x).run cu cs k).isSome = true) : cu.rest.head? = some x := by
  simp only [Regex.run, Cursor.step] at h
  cases hr : cu.rest with
  | nil => rw [hr] at h; simp at h
  | cons c rest =>
    rw [hr] at h
    by_cases hc : (c == x) = true
    · simp at hc; simp [hc]
    · simp [hc] at h

/-- Two patterns that agree on a prefix with a single way to match and go on
with two different characters do not both match at the same position. -/
theorem common_prefix_exclusive (pre : List Regex) (hpre : (seqOf pre).linear = true)
    (a b : Char) (hab : a ≠ b) (l1 l2 : List Regex) (cu : Cursor) (cs : Caps) (k1 k2 : Cont) :
    ¬ (((seqOf (pre ++ .chr a :: l1)).run cu cs k1).isSome = true ∧
      ((seqOf (pre ++ .chr b :: l2)).run cu cs k2).isSome = true) := by
  rintro ⟨h1, h2⟩
  rw [seqOf_append_run, linear_run _ hpre] at h1 h2
  cases hx : (seqOf pre).run cu cs accept with
  | none => rw [hx] at h1; simp at h1
  | some x =>
    rw [hx] at h1 h2
    simp only [Option.some_bind] at h1 h2
    rw [seqOf_cons_run] at h1 h2
    have e1 := step_chr_isSome a _ _ _ h1
    have e2 := step_chr_isSome b _ _ _ h2
    rw [e1] at e2
    exact hab (Option.some.inj e2)

theorem extract_swap_of_exclusive (strptime : String → String → Option Int) (rawText : String)
    (p q : RegexParser)
    (h : ¬ ((p.captures rawText).isSome = true ∧ (q.captures rawText).isSome = true)) :
    extract strptime rawText [p, q] = extract strptime rawText [q, p] := by
  simp only [extract]
  cases hp : p.captures rawText with
  | none => cases hq : q.captures rawText <;> simp
  | some c =>
    cases hq : q.captures rawText with
    | none => simp
    | some d => exact absurd ⟨by simp [hp], by simp [hq]⟩ h

set_option maxRecDepth 100000 in
theorem zookeeper_patterns_shape :
    Regex.parse LoggingProcessorZookeeperGeneral.parser1.Regex =
      some (seqOf (.bol :: (LoggingProcessorZookeeperGeneral.commonPrefix ++
        .chr '[' :: (patternItems LoggingProcessorZookeeperGeneral.parser1).drop 4))) ∧
    Regex.parse LoggingProcessorZookeeperGeneral.parser2.Regex =
      some (seqOf (.bol :: (LoggingProcessorZookeeperGeneral.commonPrefix ++
        .chr '-' :: (patternItems LoggingProcessorZookeeperGeneral.parser2).drop 4))) ∧
    (seqOf LoggingProcessorZookeeperGeneral.commonPrefix).linear = true ∧
    (seqOf (.bol :: LoggingProcessorZookeeperGeneral.commonPrefix)).linear = true := by
  decide

theorem orElse_eq_none (a : Outcome) (b : Unit → Outcome) (h : orElse a b = none) :
    a = none ∧ b () = none := by
  cases a with
  | none => exact ⟨rfl, h⟩
  | some x => simp [orElse] at h

/-- A pattern that matches only where another one matches is found nowhere
that the other one is not found. -/
theorem searchFrom_none_of_imp (r q : Regex)
    (h : ∀ cu, (q.run cu [] accept).isSome = true → (r.run cu [] accept).isSome = true) :
    ∀ (rest pre : List Char), r.searchFrom pre rest = none → q.searchFrom pre rest = none := by
  have hrun : ∀ cu, r.run cu [] accept = none → q.run cu [] accept = none := by
    intro cu hr
    cases hq : q.run cu [] accept with
    | none => rfl
    | some x =>
      have := h cu (by simp [hq])
      simp [hr] at this
  intro rest
  induction rest with
  | nil =>
    intro pre hr
    simp only [Regex.searchFrom] at hr ⊢
    exact hrun _ hr
  | cons c rest ih =>
    intro pre hr
    simp only [Regex.searchFrom] at hr ⊢
    obtain ⟨h1, h2⟩ := orElse_eq_none _ _ hr
    rw [hrun _ h1]
    exact ih (c :: pre) h2

/-- A pattern that is found at no position after the start of a text is found
in the text exactly when it matches at the start. -/
theorem searchFrom_start (q : Regex) (text : List Char)
    (h : ∀ c rest, text = c :: rest → q.searchFrom [c] rest = none) :
    q.searchFrom [] text = q.run ⟨[], text⟩ [] accept := by
  cases text with
  | nil => rfl
  | cons c rest =>
    simp only [Regex.searchFrom]
    rw [h c rest rfl]
    exact orElse_none_right _

set_option maxRecDepth 100000 in
/-- The shape of the start rule of the ZooKeeper receiver and of the prefix
that the two patterns of the processor share: the start rule is `^` followed
by the pattern of the group `time`. -/
theorem zookeeper_start_rule_shape :
    LoggingProcessorZookeeperGeneral.commonPrefix =
      [.group "time" LoggingProcessorZookeeperGeneral.timestampPattern, .cls false [.space]] ∧
    LoggingProcessorZookeeperGeneral.timestampPattern.linear = true ∧
    LoggingReceiverZookeeperGeneral.MultilineRules.map
        (fun r => (r.StateName == startState, Regex.parse r.Regex)) =
      [(true, some (.seq .bol LoggingProcessorZookeeperGeneral.timestampPattern)),
       (false, some (.seq .bol
          (.neglook LoggingProcessorZookeeperGeneral.timestampPattern)))] := by
  decide

theorem any_start_rule (text : String) (rules : List MultilineRule) :
    rules.any (fun r => r.StateName == startState && r.acceptsLater text) =
      (rules.map (fun r => (r.StateName == startState, Regex.parse r.Regex))).any
        (fun p => p.1 && match p.2, text.data with
          | some re, c :: rest => (re.searchFrom [c] rest).isSome
          | _, _ => false) := by
  induction rules with
  | nil => rfl
  | cons r rs ih =>
    rw [List.any_cons, List.map_cons, List.any_cons, ih]
    rfl

theorem startsLater_nil (text : String) (ht : text.data = []) :
    LoggingReceiverZookeeperGeneral.startsLater text = false := by
  unfold LoggingReceiverZookeeperGeneral.startsLater
  rw [any_start_rule, zookeeper_start_rule_shape.2.2, ht]
  simp

theorem startsLater_cons (text : String) (c : Char) (rest : List Char)
    (ht : text.data = c :: rest) :
    LoggingReceiverZookeeperGeneral.startsLater text =
      ((Regex.seq .bol LoggingProcessorZookeeperGeneral.timestampPattern).searchFrom
        [c] rest).isSome := by
  unfold LoggingReceiverZookeeperGeneral.startsLater
  rw [any_start_rule, zookeeper_start_rule_shape.2.2, ht]
  simp

theorem bol_run (cu : Cursor) (cs : Caps) (k : Cont) :
    Regex.bol.run cu cs k = if cu.atBol = true then k cu cs else none := by
  simp only [Regex.run]

theorem seq_run (a b : Regex) (cu : Cursor) (cs : Caps) (k : Cont) :
    (Regex.seq a b).run cu cs k = a.run cu cs (fun cu' cs' => b.run cu' cs' k) := by
  simp only [Regex.run]

theorem group_run (name : String) (r : Regex) (cu : Cursor) (cs : Caps) (k : Cont) :
    (Regex.group name r).run cu cs k =
      r.run cu cs (fun cu' cs' => k cu' ((name, cu.since cu') :: cs')) := by
  simp only [Regex.run]

/-- Where one of the two ZooKeeper patterns matches, the pattern of the start
rule matches. -/
theorem timestamp_of_prefix (l : List Regex) (cu : Cursor) (cs : Caps) (k : Cont)
    (h : ((seqOf (.bol :: (LoggingProcessorZookeeperGeneral.commonPrefix ++ l))).run
      cu cs k).isSome = true) :
    ((Regex.seq .bol LoggingProcessorZookeeperGeneral.timestampPattern).run
      cu cs accept).isSome = true := by
  obtain ⟨hcp, hlin, _⟩ := zookeeper_start_rule_shape
  rw [hcp, seqOf_cons_run, bol_run] at h
  rw [seq_run, bol_run]
  by_cases hb : cu.atBol = true
  · rw [if_pos hb] at h ⊢
    rw [List.cons_append, seqOf_cons_run, group_run, linear_run _ hlin] at h
    cases hx : LoggingProcessorZookeeperGeneral.timestampPattern.run cu cs accept with
    | none => rw [hx] at h; simp at h
    | some x => rfl
  · rw [if_neg hb] at h
    simp at h

/-- The captures of a ZooKeeper parser in a text that holds no further record
start are those of its pattern at the start of the text. -/
theorem captures_at_start (p : RegexParser) (l : List Regex)
    (hp : Regex.parse p.Regex =
      some (seqOf (.bol :: (LoggingProcessorZookeeperGeneral.commonPrefix ++ l))))
    (rawText : String) (h : LoggingReceiverZookeeperGeneral.startsLater rawText = false) :
    (p.captures rawText).isSome =
      ((seqOf (.bol :: (LoggingProcessorZookeeperGeneral.commonPrefix ++ l))).run
        ⟨[], rawText.data⟩ [] accept).isSome := by
  simp only [RegexParser.captures, hp, Option.some_bind, Regex.search, Option.isSome_map']
  rw [searchFrom_start]
  intro c rest ht
  apply searchFrom_none_of_imp (Regex.seq .bol LoggingProcessorZookeeperGeneral.timestampPattern)
  · intro cu hq
    exact timestamp_of_prefix l cu [] accept hq
  · rw [startsLater_cons rawText c rest ht] at h
    cases hs : (Regex.seq .bol LoggingProcessorZookeeperGeneral.timestampPattern).searchFrom
        [c] rest with
    | none => rfl
    | some x => rw [hs] at h; simp at h

/-- A text without a newline character holds no further record start. -/
theorem startsLater_of_no_newline (rawText : String) (hl : '\n' ∉ rawText.data) :
    LoggingReceiverZookeeperGeneral.startsLater rawText = false := by
  cases ht : rawText.data with
  | nil => exact startsLater_nil rawText ht
  | cons c rest =>
    rw [startsLater_cons rawText c rest ht]
    rw [ht] at hl
    have hc : c ≠ '\n' := fun e => hl (e ▸ List.mem_cons_self _ _)
    have hrest : ∀ d ∈ rest, d ≠ '\n' := fun d hd e => hl (e ▸ List.mem_cons_of_mem _ hd)
    have := bol_searchFrom_none [LoggingProcessorZookeeperGeneral.timestampPattern] rest c []
      hc hrest
    simp only [seqOf] at this
    rw [this]
    rfl

/-- C22 as amended: the two ZooKeeper patterns never match at the same position
of a text, because after `^`, the fixed-width group `time` and one whitespace
character the first goes on with `[` and the second with `-`.  So a raw text in
which the pattern of the receiver's start rule is found at no position after
the start of the text (a text that holds one record, such as every text
without a newline character and the documented records of several lines) is
not matched by both parsers, and first-match-wins extraction gives the same
result over [P1, P2] as over [P2, P1]. -/
theorem zookeeper_parsers_exclusive_on_a_record (rawText : String)
    (h : LoggingReceiverZookeeperGeneral.startsLater rawText = false) :
    (∃ re1 re2,
      Regex.parse LoggingProcessorZookeeperGeneral.parser1.Regex = some re1 ∧
      Regex.parse LoggingProcessorZookeeperGeneral.parser2.Regex = some re2 ∧
      ∀ (cu : Cursor) (cs : Caps) (k1 k2 : Cont),
        ¬ ((re1.run cu cs k1).isSome = true ∧ (re2.run cu cs k2).isSome = true)) ∧
    ¬ ((LoggingProcessorZookeeperGeneral.parser1.captures rawText).isSome = true ∧
      (LoggingProcessorZookeeperGeneral.parser2.captures rawText).isSome = true) ∧
    ∀ strptime : String → String → Option Int,
      extract strptime rawText
          [LoggingProcessorZookeeperGeneral.parser1, LoggingProcessorZookeeperGeneral.parser2] =
        extract strptime rawText
          [LoggingProcessorZookeeperGeneral.parser2, LoggingProcessorZookeeperGeneral.parser1] := by
  obtain ⟨h1, h2, _, hlin⟩ := zookeeper_patterns_shape
  have hne : ('[' : Char) ≠ '-' := by decide
  have hat : ∀ (cu : Cursor) (cs : Caps) (k1 k2 : Cont),
      ¬ (((seqOf (.bol :: (LoggingProcessorZookeeperGeneral.commonPrefix ++ .chr '[' ::
            (patternItems LoggingProcessorZookeeperGeneral.parser1).drop 4))).run
          cu cs k1).isSome = true ∧
        ((seqOf (.bol :: (LoggingProcessorZookeeperGeneral.commonPrefix ++ .chr '-' ::
            (patternItems LoggingProcessorZookeeperGeneral.parser2).drop 4))).run
          cu cs k2).isSome = true) := fun cu cs k1 k2 =>
    common_prefix_exclusive (.bol :: LoggingProcessorZookeeperGeneral.commonPrefix) hlin
      _ _ hne _ _ cu cs k1 k2
  have hex : ¬ ((LoggingProcessorZookeeperGeneral.parser1.captures rawText).isSome = true ∧
      (LoggingProcessorZookeeperGeneral.parser2.captures rawText).isSome = true) := by
    rw [captures_at_start _ _ h1 rawText h, captures_at_start _ _ h2 rawText h]
    exact hat _ _ _ _
  exact ⟨⟨_, _, h1, h2, hat⟩, hex,
    fun strptime => extract_swap_of_exclusive strptime rawText _ _ hex⟩

set_option maxRecDepth 100000 in
/-- The documented record of three lines (zookeeper.go:84-86) is what the
receiver's rules assemble from its lines, holds no further record start and is
matched by the first parser; it is not matched by both, and the order of the
two parsers makes no difference to its record. -/
theorem zookeeper_parsers_exclusive_on_a_record_witness :
    Aggregator.run LoggingReceiverZookeeperGeneral.MultilineRules true
        LoggingProcessorZookeeperGeneral.sampleRecordLines =
      [LoggingProcessorZookeeperGeneral.sampleRecord] ∧
    LoggingReceiverZookeeperGeneral.startsLater
      LoggingProcessorZookeeperGeneral.sampleRecord = false ∧
    (LoggingProcessorZookeeperGeneral.parser1.captures
      LoggingProcessorZookeeperGeneral.sampleRecord).isSome = true ∧
    ¬ ((LoggingProcessorZookeeperGeneral.parser1.captures
        LoggingProcessorZookeeperGeneral.sampleRecord).isSome = true ∧
      (LoggingProcessorZookeeperGeneral.parser2.captures
        LoggingProcessorZookeeperGeneral.sampleRecord).isSome = true) ∧
    ∀ strptime : String → String → Option Int,
      extract strptime LoggingProcessorZookeeperGeneral.sampleRecord
          [LoggingProcessorZookeeperGeneral.parser1, LoggingProcessorZookeeperGeneral.parser2] =
        extract strptime LoggingProcessorZookeeperGeneral.sampleRecord
          [LoggingProcessorZookeeperGeneral.parser2, LoggingProcessorZookeeperGeneral.parser1] :=
  ⟨by decide, by decide, by decide,
    (zookeeper_parsers_exclusive_on_a_record LoggingProcessorZookeeperGeneral.sampleRecord
      (by decide)).2⟩

set_option maxRecDepth 100000 in
/-- C22 as stated fails: the sample line of the second format followed by the
sample line of the first format, broken into two lines after its date, is one
record under the receiver's own rules, however a later record is taken to
begin.  The second parser matches the record at its start and the first parser
matches it at the start of its second line, where `\s` takes the newline after
the date.  The two orders of the parsers give different records: only the
record of the first parser has the field `myid`. -/
theorem zookeeper_record_matched_by_both_parsers :
    Aggregator.run LoggingReceiverZookeeperGeneral.MultilineRules true
        LoggingProcessorZookeeperGeneral.brokenLines =
      [LoggingProcessorZookeeperGeneral.brokenRecord] ∧
    Aggregator.run LoggingReceiverZookeeperGeneral.MultilineRules false
        LoggingProcessorZookeeperGeneral.brokenLines =
      [LoggingProcessorZookeeperGeneral.brokenRecord] ∧
    (LoggingProcessorZookeeperGeneral.parser1.captures
      LoggingProcessorZookeeperGeneral.brokenRecord).isSome = true ∧
    (LoggingProcessorZookeeperGeneral.parser2.captures
      LoggingProcessorZookeeperGeneral.brokenRecord).isSome = true ∧
    extract (fun _ _ => none) LoggingProcessorZookeeperGeneral.brokenRecord
        [LoggingProcessorZookeeperGeneral.parser1, LoggingProcessorZookeeperGeneral.parser2] ≠
      extract (fun _ _ => none) LoggingProcessorZookeeperGeneral.brokenRecord
        [LoggingProcessorZookeeperGeneral.parser2, LoggingProcessorZookeeperGeneral.parser1] := by
  refine ⟨by decide, by decide, by decide, by decide, fun h => ?_⟩
  have hk := congrArg (fun e => (e.fields.lookup "myid").isSome) h
  revert hk
  decide

set_option maxRecDepth 100000 in
/-- A text of two lines, the first in the format of the second parser and the
second in the format of the first, is also matched by both parsers, each at
the start of its own line, and the two orders of the parsers give different
records. -/
theorem zookeeper_parsers_both_match_two_lines :
    (LoggingProcessorZookeeperGeneral.parser1.captures
      LoggingProcessorZookeeperGeneral.twoFormats).isSome = true ∧
    (LoggingProcessorZookeeperGeneral.parser2.captures
      LoggingProcessorZookeeperGeneral.twoFormats).isSome = true ∧
    extract (fun _ _ => none) LoggingProcessorZookeeperGeneral.twoFormats
        [LoggingProcessorZookeeperGeneral.parser1, LoggingProcessorZookeeperGeneral.parser2] ≠
      extract (fun _ _ => none) LoggingProcessorZookeeperGeneral.twoFormats
        [LoggingProcessorZookeeperGeneral.parser2, LoggingProcessorZookeeperGeneral.parser1] := by
  refine ⟨by decide, by decide, fun h => ?_⟩
  have hk := congrArg (fun e => (e.fields.lookup "myid").isSome) h
  revert hk
  decide

/-! ## Default include paths (C23) -/

/-- C23: each of the seven logging receivers generates its mixin components
from the configured `IncludePaths`, unchanged, when that list is non-empty, and
from the defaults of its adapter, in the written order, when it is empty.  The
remaining members of the mixin are passed on unchanged, except
`MultilineRules`, which the hadoop, rabbitmq and zookeeper receivers replace
with their own rule set whatever was configured; the mongodb, postgresql and
tomcat receivers pass the configured `MultilineRules` on. -/
theorem default_include_paths_only_when_unset (E : ReceiverGenerator)
    (ctx : E.Context) (tag : String) (m : LoggingReceiverFilesMixin E.MixinOther) :
    LoggingReceiverHadoop.Components E ctx tag m =
      E.FilesMixin
        { IncludePaths :=
            if m.IncludePaths = [] then
              ["/opt/hadoop/logs/hadoop-*.log", "/opt/hadoop/logs/yarn-*.log"]
            else m.IncludePaths
          MultilineRules := LoggingReceiverHadoop.MultilineRules
          Other := m.Other } ctx tag ++
        LoggingProcessorHadoop.Components E.toConfgenerator ctx tag "hadoop" ∧
    LoggingReceiverMongodb.Components E ctx tag m =
      (LoggingProcessorMongodb.Components E.toConfgenerator ctx tag "mongodb").map
        (fun processor =>
          E.FilesMixin
            { IncludePaths :=
                if m.IncludePaths = [] then ["/var/log/mongodb/mongod.log*"]
                else m.IncludePaths
              MultilineRules := m.MultilineRules
              Other := m.Other } ctx tag ++ processor) ∧
    LoggingReceiverPostgresql.Components E ctx tag m =
      E.FilesMixin
        { IncludePaths :=
            if m.IncludePaths = [] then
              ["/var/log/postgresql/postgresql*.log",
               "/var/lib/pgsql/data/log/postgresql*.log",
               "/var/lib/pgsql/*/data/log/postgresql*.log"]
            else m.IncludePaths
          MultilineRules := m.MultilineRules
          Other := m.Other } ctx tag ++
        LoggingProcessorPostgresql.Components E.toConfgenerator ctx tag "postgresql" ∧
    LoggingReceiverRabbitmq.Components E ctx tag m =
      E.FilesMixin
        { IncludePaths :=
            if m.IncludePaths = [] then ["/var/log/rabbitmq/rabbit*.log"]
            else m.IncludePaths
          MultilineRules := LoggingReceiverRabbitmq.MultilineRules
          Other := m.Other } ctx tag ++
        LoggingProcessorRabbitmq.Components E.toConfgenerator ctx tag "rabbitmq" ∧
    SystemLoggingReceiverTomcat.Components E ctx tag m =
      E.FilesMixin
        { IncludePaths :=
            if m.IncludePaths = [] then
              ["/opt/tomcat/logs/catalina.out",
               "/var/log/tomcat*/catalina.out",
               "/var/log/tomcat*/catalina.*.log"]
            else m.IncludePaths
          MultilineRules := m.MultilineRules
          Other := m.Other } ctx tag ++
        LoggingProcessorTomcatSystem.Components E.toConfgenerator ctx tag "tomcat_system" ∧
    AccessSystemLoggingReceiverTomcat.Components E ctx tag m =
      E.FilesMixin
        { IncludePaths :=
            if m.IncludePaths = [] then
              ["/opt/tomcat/logs/localhost_access_log*.txt",
               "/var/log/tomcat*/localhost_access_log*.txt"]
            else m.IncludePaths
          MultilineRules := m.MultilineRules
          Other := m.Other } ctx tag ++
        LoggingProcessorTomcatAccess.Components E ctx tag "tomcat_access" ∧
    LoggingReceiverZookeeperGeneral.Components E ctx tag m =
      E.FilesMixin
        { IncludePaths :=
            if m.IncludePaths = [] then
              ["/opt/zookeeper/logs/zookeeper-*.out", "/var/log/zookeeper/zookeeper.log"]
            else m.IncludePaths
          MultilineRules := LoggingReceiverZookeeperGeneral.MultilineRules
          Other := m.Other } ctx tag ++
        LoggingProcessorZookeeperGeneral.Components E.toConfgenerator ctx tag
          "zookeeper_general" := by
  obtain ⟨paths, rules, other⟩ := m
  cases paths with
  | nil =>
    refine ⟨rfl, ?_, rfl, rfl, rfl, rfl, rfl⟩
    unfold LoggingReceiverMongodb.Components
    cases LoggingProcessorMongodb.Components E.toConfgenerator ctx tag "mongodb" <;> rfl
  | cons p ps =>
    refine ⟨rfl, ?_, rfl, rfl, rfl, rfl, rfl⟩
    unfold LoggingReceiverMongodb.Components
    cases LoggingProcessorMongodb.Components E.toConfgenerator ctx tag "mongodb" <;> rfl

end OpsAgent
